import Mathlib

/-!
# Solidifier of the Tangle (packages/tangle/solidifier.go)

A shallow embedding of the Solidifier: the message store is an explicit state
(`Tangle`) that every operation receives and returns, events are appended to a
log, and the walk over approvers is driven by fuel.
-/

namespace Goshimmer

/-! ## Data model -/

/-- MessageID identifies a Message; the 32-byte array is read as a natural number. -/
abbrev MessageID := Nat

/-- EmptyMessageID is the all-zero identifier (the genesis). -/
def EmptyMessageID : MessageID := 0

/-- Duration counts nanoseconds, as `time.Duration` does. -/
abbrev Duration := Int

/-- Time is an instant in nanoseconds. -/
abbrev Time := Int

def Second : Duration := 1000000000

def Minute : Duration := 60 * Second

/-- Smallest value of a 64-bit duration. -/
def minDuration : Duration := -(2 ^ 63)

/-- Largest value of a 64-bit duration. -/
def maxDuration : Duration := 2 ^ 63 - 1

/-- Sub of the Go standard library (`time.Time.Sub`): the difference `t - u`,
replaced by the largest or smallest duration when it does not fit in 64 bits. -/
def Time.Sub (t u : Time) : Duration :=
  if t - u > maxDuration then maxDuration
  else if t - u < minDuration then minDuration
  else t - u

/-- Smallest allowed time difference between a child Message and its parents
(solidifier.go, line 10). -/
def minParentsTimeDifference : Duration := 0 * Second

/-- Biggest allowed time difference between a child Message and its parents
(solidifier.go, line 13). -/
def maxParentsTimeDifference : Duration := 30 * Minute

inductive ParentsType where
  | StrongParent
  | WeakParent
  deriving DecidableEq, Repr

/-- Parent is what `ForEachParent` hands to its consumer. -/
structure Parent where
  ID : MessageID
  parentType : ParentsType
  deriving DecidableEq, Repr

/-- Message: the fields of a message that the Solidifier reads. -/
structure Message where
  id : MessageID
  strongParents : List MessageID
  weakParents : List MessageID
  issuingTime : Time
  deriving DecidableEq, Repr

/-- MessageMetadata: the flags of a message that the Solidifier reads and writes. -/
structure MessageMetadata where
  messageID : MessageID
  solid : Bool
  invalid : Bool
  deriving DecidableEq, Repr

/-- Approver is the back-reference from a parent to a child. -/
structure Approver where
  approverType : ParentsType
  referencedMessageID : MessageID
  approverMessageID : MessageID
  deriving DecidableEq, Repr

inductive Event where
  | MessageStored (id : MessageID)
  | MissingMessage (id : MessageID)
  | MessageSolid (id : MessageID)
  | MessageInvalid (id : MessageID)
  deriving DecidableEq, Repr

/-- Tangle is the state the Solidifier works on: the three object storages, the
log of triggered events (oldest first) and the log of the identifiers that
`StoreIfMissingMessageMetadata` was called with (oldest first). -/
structure Tangle where
  messageStorage : List Message
  messageMetadataStorage : List MessageMetadata
  approverStorage : List Approver
  events : List Event
  storeIfMissingCalls : List MessageID
  deriving DecidableEq, Repr

/-- The store that holds nothing. -/
def Tangle.empty : Tangle := ⟨[], [], [], [], []⟩

/-- Modelled from the spec: `Message.ForEachParent` (message.go is not part of the
sources) calls the consumer for the ordered strong parents, then for the ordered
weak parents; the list is the sequence of arguments the consumer receives. -/
def Message.ForEachParent (m : Message) : List Parent :=
  m.strongParents.map (fun p => ⟨p, ParentsType.StrongParent⟩) ++
    m.weakParents.map (fun p => ⟨p, ParentsType.WeakParent⟩)

/-- The identifiers of all parents, strong ones first. -/
def Message.parentIDs (m : Message) : List MessageID :=
  m.strongParents ++ m.weakParents

/-! ## Storage -/

/-- Modelled from the spec: `Storage.Message` (storage.go is not part of the
sources) is the `load(id)` of the message storage; `none` stands for a cached
object that is absent or deleted, which `Consume` skips. -/
def Storage.Message (t : Tangle) (id : MessageID) : Option Goshimmer.Message :=
  t.messageStorage.find? (fun m => m.id == id)

/-- Modelled from the spec: `Storage.MessageMetadata` (storage.go is not part of
the sources) is the `load(id)` of the metadata storage. -/
def Storage.MessageMetadata (t : Tangle) (id : MessageID) : Option Goshimmer.MessageMetadata :=
  t.messageMetadataStorage.find? (fun m => m.messageID == id)

/-- Modelled from the spec: `Storage.Approvers` (storage.go is not part of the
sources) is `approvers(id)`, the back-references stored for the parent `id`. -/
def Storage.Approvers (t : Tangle) (id : MessageID) : List Approver :=
  t.approverStorage.filter (fun a => a.referencedMessageID == id)

/-- Appends an event to the log. -/
def Tangle.Trigger (t : Tangle) (e : Event) : Tangle :=
  { t with events := t.events ++ [e] }

/-- Modelled from the spec: `Storage.StoreIfMissingMessageMetadata` (storage.go is
not part of the sources) "returns a view of an existing metadata object if
present; otherwise inserts a stub whose solid=false and emits MissingMessage".
The call itself is recorded in `storeIfMissingCalls`. -/
def Storage.StoreIfMissingMessageMetadata (t : Tangle) (id : MessageID) :
    Goshimmer.MessageMetadata × Tangle :=
  let t1 := { t with storeIfMissingCalls := t.storeIfMissingCalls ++ [id] }
  match Storage.MessageMetadata t id with
  | some md => (md, t1)
  | none =>
    let stub : Goshimmer.MessageMetadata := ⟨id, false, false⟩
    (stub, Tangle.Trigger
      { t1 with messageMetadataStorage := t1.messageMetadataStorage ++ [stub] }
      (Event.MissingMessage id))

/-- Modelled from the spec: `Storage.StoreMessage` (storage.go is not part of the
sources) is `store(msg)`: a message whose identifier is already stored is
ignored; otherwise the message is persisted, its metadata is created with all
flags unset unless a stub is already there, an Approver is created for every
parent, and `MessageStored` is emitted. -/
def Storage.StoreMessage (t : Tangle) (m : Goshimmer.Message) : Tangle :=
  match Storage.Message t m.id with
  | some _ => t
  | none =>
    let md := match Storage.MessageMetadata t m.id with
      | some _ => t.messageMetadataStorage
      | none => t.messageMetadataStorage ++ [⟨m.id, false, false⟩]
    Tangle.Trigger
      { t with
        messageStorage := t.messageStorage ++ [m]
        messageMetadataStorage := md
        approverStorage := t.approverStorage ++
          m.ForEachParent.map (fun p => ⟨p.parentType, p.ID, m.id⟩) }
      (Event.MessageStored m.id)

/-- Rewrites the metadata stored under `id` with `f`. -/
def Tangle.updateMetadata (t : Tangle) (id : MessageID)
    (f : MessageMetadata → MessageMetadata) : Tangle :=
  { t with messageMetadataStorage :=
      t.messageMetadataStorage.map (fun md => if md.messageID == id then f md else md) }

/-- Modelled from the spec: `MessageMetadata.SetSolid` (messagemetadata.go is not
part of the sources) has compare-and-set semantics: it "returns true iff the
transition actually occurred". The metadata object is addressed by the
identifier it is stored under. -/
def SetSolid (t : Tangle) (messageMetadata : MessageID) (solid : Bool) : Bool × Tangle :=
  match Storage.MessageMetadata t messageMetadata with
  | none => (false, t)
  | some md =>
    if md.solid != solid then
      (true, t.updateMetadata messageMetadata (fun m => { m with solid := solid }))
    else (false, t)

/-- Modelled from the spec: `MessageMetadata.SetInvalid` (messagemetadata.go is
not part of the sources), with the same compare-and-set semantics as `SetSolid`. -/
def SetInvalid (t : Tangle) (messageMetadata : MessageID) (invalid : Bool) : Bool × Tangle :=
  match Storage.MessageMetadata t messageMetadata with
  | none => (false, t)
  | some md =>
    if md.invalid != invalid then
      (true, t.updateMetadata messageMetadata (fun m => { m with invalid := invalid }))
    else (false, t)

/-! ## Solidifier (solidifier.go) -/

/-- isMessageMarkedAsSolid checks whether the given message is solid and marks it
as missing if it isn't known (solidifier.go, lines 90-100). -/
def isMessageMarkedAsSolid (t : Tangle) (messageID : MessageID) : Bool × Tangle :=
  if messageID == EmptyMessageID then (true, t)
  else
    let r := Storage.StoreIfMissingMessageMetadata t messageID
    (r.1.solid, r.2)

/-- isMessageSolid checks if the given Message is solid (solidifier.go, lines
70-87). `message` is `none` for a nil or deleted message; `messageMetadata` is the
identifier under which the metadata object is stored, `none` for nil, and a
reference to nothing stored reads as deleted. -/
def isMessageSolid (t : Tangle) (message : Option Message)
    (messageMetadata : Option MessageID) : Bool × Tangle :=
  match message, messageMetadata.bind (Storage.MessageMetadata t) with
  | some msg, some md =>
    if md.solid then (true, t)
    else
      msg.ForEachParent.foldl
        (fun (acc : Bool × Tangle) parent =>
          let r := isMessageMarkedAsSolid acc.2 parent.ID
          (r.1 && acc.1, r.2))
        (true, t)
  | _, _ => (false, t)

/-- isParentMessageValid checks whether the given parent Message is valid
(solidifier.go, lines 113-129). -/
def isParentMessageValid (t : Tangle) (parentMessageID : MessageID)
    (childMessageIssuingTime : Time) : Bool :=
  if parentMessageID == EmptyMessageID then true
  else
    let valid : Bool :=
      match Storage.Message t parentMessageID with
      | some parentMessage =>
        let timeDifference := Time.Sub childMessageIssuingTime parentMessage.issuingTime
        decide (timeDifference ≥ minParentsTimeDifference) &&
          decide (timeDifference ≤ maxParentsTimeDifference)
      | none => false
    match Storage.MessageMetadata t parentMessageID with
    | some messageMetadata => valid && !messageMetadata.invalid
    | none => valid

/-- areParentMessagesValid checks whether the parents of the given Message are
valid (solidifier.go, lines 103-110). -/
def areParentMessagesValid (t : Tangle) (message : Message) : Bool :=
  message.ForEachParent.foldl
    (fun valid parent => valid && isParentMessageValid t parent.ID message.issuingTime)
    true

/-- checkMessageSolidity checks if the given Message is solid and eventually
queues its Approvers to also be checked (solidifier.go, lines 44-67). The result
is `nextMessagesToCheck` and the state after the call. -/
def checkMessageSolidity (t : Tangle) (message : Option Message)
    (messageMetadata : Option MessageID) : List MessageID × Tangle :=
  let r := isMessageSolid t message messageMetadata
  if !r.1 then ([], r.2)
  else
    match message, messageMetadata with
    | some msg, some ref =>
      if !areParentMessagesValid r.2 msg then
        let s := SetInvalid r.2 ref true
        if !s.1 then ([], s.2)
        else ([], s.2.Trigger (Event.MessageInvalid msg.id))
      else
        let s := SetSolid r.2 ref true
        if !s.1 then ([], s.2)
        else
          let t3 := s.2.Trigger (Event.MessageSolid msg.id)
          ((Storage.Approvers t3 msg.id).map (fun a => a.approverMessageID), t3)
    | _, _ => ([], r.2)

/-- Modelled from the spec: `Tangle.WalkMessages` (tangle.go is not part of the
sources) is the breadth-first walk: the identifiers to visit wait in a queue,
the callback runs on every visited identifier whose message and metadata are
stored, and what it returns is appended to the queue. With `revisit` set, as
`Solidify` does, no identifier is skipped for having been seen. One unit of fuel
pays for one visit; `none` means the fuel ran out. -/
def WalkMessages
    (callback : Tangle → Option Message → Option MessageID → List MessageID × Tangle) :
    Nat → List MessageID → Tangle → Option Tangle
  | _, [], t => some t
  | 0, _ :: _, _ => none
  | fuel + 1, messageID :: stack, t =>
    match Storage.Message t messageID, Storage.MessageMetadata t messageID with
    | some message, some _ =>
      let r := callback t (some message) (some messageID)
      WalkMessages callback fuel (stack ++ r.1) r.2
    | _, _ => WalkMessages callback fuel stack t

/-- Solidify solidifies the given Message (solidifier.go, lines 39-41). -/
def Solidify (fuel : Nat) (t : Tangle) (messageID : MessageID) : Option Tangle :=
  WalkMessages checkMessageSolidity fuel [messageID] t

/-! ## Views of the state used in the statements -/

/-- The solid flag stored for `id`; an identifier without metadata is not solid. -/
def Tangle.IsSolid (t : Tangle) (id : MessageID) : Bool :=
  match Storage.MessageMetadata t id with
  | some md => md.solid
  | none => false

/-- The invalid flag stored for `id`; an identifier without metadata is not invalid. -/
def Tangle.IsInvalid (t : Tangle) (id : MessageID) : Bool :=
  match Storage.MessageMetadata t id with
  | some md => md.invalid
  | none => false

/-- Whether a metadata object is stored for `id`. -/
def Tangle.HasMetadata (t : Tangle) (id : MessageID) : Bool :=
  (Storage.MessageMetadata t id).isSome

/-- The loop of `isMessageSolid` over the parent identifiers. -/
def queryParents (t : Tangle) (ids : List MessageID) : Bool × Tangle :=
  ids.foldl
    (fun (acc : Bool × Tangle) p =>
      let r := isMessageMarkedAsSolid acc.2 p
      (r.1 && acc.1, r.2))
    (true, t)

/-- The parent `parent` of a child issued at `child` lies in the allowed window:
the child is not older than the parent and at most 30 minutes younger. -/
def InWindow (child parent : Time) : Prop :=
  minParentsTimeDifference ≤ child - parent ∧ child - parent ≤ maxParentsTimeDifference

instance (child parent : Time) : Decidable (InWindow child parent) := by
  unfold InWindow; infer_instance

/-- What a run of `StoreIfMissingMessageMetadata` over the identifiers `ids` leaves
untouched in going from `t` to `t'`, and what it adds. -/
structure Tangle.Extends (t t' : Tangle) (ids : List MessageID) : Prop where
  messages : t'.messageStorage = t.messageStorage
  approvers : t'.approverStorage = t.approverStorage
  isSolid : ∀ j, t'.IsSolid j = t.IsSolid j
  isInvalid : ∀ j, t'.IsInvalid j = t.IsInvalid j
  lookup : ∀ j md, Storage.MessageMetadata t j = some md →
    Storage.MessageMetadata t' j = some md
  stub : ∀ j, Storage.MessageMetadata t j = none → j ∈ ids →
    Storage.MessageMetadata t' j = some ⟨j, false, false⟩
  hasMetadata : ∀ j, t'.HasMetadata j = (t.HasMetadata j || decide (j ∈ ids))
  calls : t'.storeIfMissingCalls = t.storeIfMissingCalls ++ ids
  events : ∃ ev, t'.events = t.events ++ ev ∧
    (∀ e ∈ ev, ∃ p, e = Event.MissingMessage p ∧ p ∈ ids ∧ t.HasMetadata p = false) ∧
    ∀ p ∈ ids, t.HasMetadata p = false → Event.MissingMessage p ∈ ev
  same : (∀ p ∈ ids, t.HasMetadata p = true) →
    t'.messageMetadataStorage = t.messageMetadataStorage ∧ t'.events = t.events

/-! ## Reachable states -/

/-- The states reached from `t0` by storing messages, by calling
`checkMessageSolidity` on a stored message and its metadata (the way
`WalkMessages` calls it), and by calling `Solidify`. -/
inductive Reachable (t0 : Tangle) : Tangle → Prop
  | init : Reachable t0 t0
  | store (t : Tangle) (m : Message) : Reachable t0 t →
      Reachable t0 (Storage.StoreMessage t m)
  | check (t : Tangle) (msg : Message) : Reachable t0 t →
      Storage.Message t msg.id = some msg →
      Reachable t0 (checkMessageSolidity t (some msg) (some msg.id)).2
  | solidify (t t' : Tangle) (fuel : Nat) (id : MessageID) : Reachable t0 t →
      Solidify fuel t id = some t' → Reachable t0 t'

/-- No stored metadata object is flagged solid or invalid. -/
def Tangle.NoFlags (t : Tangle) : Prop :=
  ∀ md ∈ t.messageMetadataStorage, md.solid = false ∧ md.invalid = false

instance (t : Tangle) : Decidable t.NoFlags := by
  unfold Tangle.NoFlags; infer_instance

/-- The message stored under `id` has all its non-genesis parents marked solid. -/
def Tangle.ParentsSolid (t : Tangle) (msg : Message) : Prop :=
  ∀ p ∈ msg.parentIDs, p ≠ EmptyMessageID → t.IsSolid p = true

/-- The invariant behind the flags: a message marked solid is stored, is not
marked invalid, and each of its non-genesis parents is marked solid, stored and
inside the time window; a message marked invalid is stored, has all non-genesis
parents marked solid and has a stored parent outside the time window. -/
structure Tangle.FlagsJustified (t : Tangle) : Prop where
  solid : ∀ j, t.IsSolid j = true →
    t.IsInvalid j = false ∧ ∃ msg, Storage.Message t j = some msg ∧
      ∀ p ∈ msg.parentIDs, p ≠ EmptyMessageID →
        t.IsSolid p = true ∧
          ∃ pm, Storage.Message t p = some pm ∧ InWindow msg.issuingTime pm.issuingTime
  invalid : ∀ j, t.IsInvalid j = true →
    ∃ msg, Storage.Message t j = some msg ∧ t.ParentsSolid msg ∧
      ∃ p ∈ msg.parentIDs, p ≠ EmptyMessageID ∧
        ∃ pm, Storage.Message t p = some pm ∧ ¬ InWindow msg.issuingTime pm.issuingTime

/-- The three ways a call of `checkMessageSolidity` on `msg` and the metadata
stored under `ref` can end: no flag changes, the message becomes invalid, or the
message becomes solid. `t1` is the state after `isMessageSolid`. -/
inductive CheckOutcome (t : Tangle) (msg : Message) (ref : MessageID) :
    List MessageID × Tangle → Prop
  | unchanged (t1 : Tangle) (ids : List MessageID) :
      Tangle.Extends t t1 ids →
      (∀ p ∈ ids, p ∈ msg.parentIDs ∧ p ≠ EmptyMessageID) →
      CheckOutcome t msg ref ([], t1)
  | becameInvalid (t1 : Tangle) (ids : List MessageID) :
      Tangle.Extends t t1 ids →
      (∀ p ∈ ids, p ∈ msg.parentIDs ∧ p ≠ EmptyMessageID) →
      t.HasMetadata ref = true → t.IsInvalid ref = false →
      (t.IsSolid ref = true ∨ t.ParentsSolid msg) →
      areParentMessagesValid t msg = false →
      CheckOutcome t msg ref
        ([], (t1.updateMetadata ref (fun m => { m with invalid := true })).Trigger
          (Event.MessageInvalid msg.id))
  | becameSolid (t1 : Tangle) (ids : List MessageID) :
      Tangle.Extends t t1 ids →
      (∀ p ∈ ids, p ∈ msg.parentIDs ∧ p ≠ EmptyMessageID) →
      t.HasMetadata ref = true → t.IsSolid ref = false →
      t.ParentsSolid msg →
      areParentMessagesValid t msg = true →
      CheckOutcome t msg ref
        ((Storage.Approvers t msg.id).map (fun a => a.approverMessageID),
          (t1.updateMetadata ref (fun m => { m with solid := true })).Trigger
            (Event.MessageSolid msg.id))

/-- The past cone: `InPastCone t id a` when `a` is reached from `id` by following
non-genesis parent references of stored messages, one or more times. -/
inductive InPastCone (t : Tangle) : MessageID → MessageID → Prop
  | parent (id p : MessageID) (msg : Message) : Storage.Message t id = some msg →
      p ∈ msg.parentIDs → p ≠ EmptyMessageID → InPastCone t id p
  | step (id a p : MessageID) (msg : Message) : InPastCone t id a →
      Storage.Message t a = some msg → p ∈ msg.parentIDs → p ≠ EmptyMessageID →
      InPastCone t id p

/-! ## Chains and the progress of the walk -/

/-- The number of stored approver entries whose referenced message is not marked
solid: these are the entries the walk may still enqueue. -/
def Tangle.pendingApprovers (t : Tangle) : Nat :=
  t.approverStorage.countP (fun a => !t.IsSolid a.referencedMessageID)

/-- What `StoreMessage` establishes for every stored message: its metadata exists
and an approver entry exists for each of its parents. -/
def Tangle.StorageConsistent (t : Tangle) : Prop :=
  ∀ m ∈ t.messageStorage, t.HasMetadata m.id = true ∧
    ∀ p ∈ m.parentIDs, ∃ a ∈ t.approverStorage,
      a.referencedMessageID = p ∧ a.approverMessageID = m.id

instance (t : Tangle) : Decidable t.StorageConsistent := by
  unfold Tangle.StorageConsistent; infer_instance

/-- One link of a chain: `b` references the non-genesis message `a` as its sole
non-genesis parent, and was issued inside the time window of `a`. -/
def ChainLink (a b : Message) : Prop :=
  a.id ≠ EmptyMessageID ∧ a.id ∈ b.parentIDs ∧
    (∀ p ∈ b.parentIDs, p = EmptyMessageID ∨ p = a.id) ∧
    InWindow b.issuingTime a.issuingTime

instance (a b : Message) : Decidable (ChainLink a b) := by
  unfold ChainLink; infer_instance

/-- Whether an event is the `MessageSolid` of one of the messages `ms`. -/
def isSolidEventOf (ms : List Message) (e : Event) : Bool :=
  decide (e ∈ ms.map (fun m => Event.MessageSolid m.id))

/-- The state of a walk that solidifies the chain `done ++ todo`: the messages of
`done` are solid and their events were emitted in order after the log `base`;
those of `todo` are not solid yet, and the first of them waits in the queue `q`
with all its parents solid. -/
structure ChainProgress (base : List Event) (done todo : List Message)
    (q : List MessageID) (s : Tangle) : Prop where
  justified : s.FlagsJustified
  stored : ∀ m ∈ todo, Storage.Message s m.id = some m ∧ s.HasMetadata m.id = true
  registered : ∀ m ∈ todo, ∀ p ∈ m.parentIDs,
    ∃ a ∈ s.approverStorage, a.referencedMessageID = p ∧ a.approverMessageID = m.id
  links : List.Chain' ChainLink todo
  doneSolid : ∀ m ∈ done, s.IsSolid m.id = true
  todoNotSolid : ∀ m ∈ todo, s.IsSolid m.id = false
  headReady : ∀ b rest, todo = b :: rest → b.id ∈ q ∧ s.ParentsSolid b ∧
    ∀ p ∈ b.parentIDs, p ≠ EmptyMessageID →
      ∃ pm, Storage.Message s p = some pm ∧ InWindow b.issuingTime pm.issuingTime
  events : ∃ ev, s.events = base ++ ev ∧
    ev.filter (isSolidEventOf (done ++ todo)) = done.map (fun m => Event.MessageSolid m.id)

/-! ## Example stores -/

/-- A message with two unknown strong parents, stored alone. -/
def Example.twoParents : Message := ⟨9, [7, 8], [0], 0⟩

/-- Only `twoParents` is stored. -/
def Example.onlyTwoParents : Tangle := Storage.StoreMessage Tangle.empty Example.twoParents

/-- A message whose only parent is the genesis. -/
def Example.m1 : Message := ⟨1, [0], [], 0⟩

/-- A message with strong parent `m1` and the genesis as weak parent. -/
def Example.m2 : Message := ⟨2, [1], [0], 10⟩

/-- A message with strong parent `m2` and the genesis as weak parent. -/
def Example.m3 : Message := ⟨3, [2], [0], 20⟩

/-- A message issued 31 minutes after its strong parent `m1`. -/
def Example.late : Message := ⟨2, [1], [0], 31 * Minute⟩

/-- Only `m2` is stored; its parent `m1` is unknown. -/
def Example.onlyM2 : Tangle := Storage.StoreMessage Tangle.empty Example.m2

/-- The messages `m3`, `m2`, `m1` stored in this order, none checked yet. -/
def Example.chainStored : Tangle :=
  Storage.StoreMessage
    (Storage.StoreMessage (Storage.StoreMessage Tangle.empty Example.m3) Example.m2)
    Example.m1

/-- The messages `m1` and `m2` stored, `m1` checked and solid. -/
def Example.m1Solid : Tangle :=
  (checkMessageSolidity
    (Storage.StoreMessage (Storage.StoreMessage Tangle.empty Example.m1) Example.m2)
    (some Example.m1) (some 1)).2

/-- The messages `m1` and `late` stored, `m1` checked and solid. -/
def Example.lateStored : Tangle :=
  (checkMessageSolidity
    (Storage.StoreMessage (Storage.StoreMessage Tangle.empty Example.m1) Example.late)
    (some Example.m1) (some 1)).2

/-- From `lateStored`, `late` checked once: it is marked invalid. -/
def Example.lateInvalid : Tangle :=
  (checkMessageSolidity Example.lateStored (some Example.late) (some 2)).2

/-- The messages `m1`, `late` and `m3` stored, `m1` checked and solid, `late`
checked and invalid: `m3` has the invalid parent `late`. -/
def Example.invalidParent : Tangle :=
  (checkMessageSolidity
    (checkMessageSolidity
      (Storage.StoreMessage
        (Storage.StoreMessage (Storage.StoreMessage Tangle.empty Example.m1) Example.late)
        Example.m3)
      (some Example.m1) (some 1)).2
    (some Example.late) (some 2)).2

/-- The message `m2` stored with its metadata, and a metadata object that marks
its parent `1` solid although no message is stored under `1`. -/
def Example.orphanParent : Tangle :=
  { Tangle.empty with
    messageStorage := [Example.m2]
    messageMetadataStorage := [⟨1, true, false⟩, ⟨2, false, false⟩] }

/-- The messages `m1`, `m2` and `m3` stored, with a metadata object that marks `m1`
both solid and invalid, as a component other than the Solidifier may leave it. -/
def Example.solidInvalidParent : Tangle :=
  { Storage.StoreMessage
      (Storage.StoreMessage (Storage.StoreMessage Tangle.empty Example.m1) Example.m2)
      Example.m3 with
    messageMetadataStorage := [⟨1, true, true⟩, ⟨2, false, false⟩, ⟨3, false, false⟩] }

/-! ## Wallet: UnspentOutputManager (client/wallet/unspentoutputmanager.go) -/

/-- A Go map, as the list of its entries in iteration order. A well-formed map has
one entry per key (`GoMap.IsMap`). -/
abbrev GoMap (K V : Type) := List (K × V)

/-- The read `m[k]` with its presence flag: `none` when the key is absent. -/
def GoMap.load {K V : Type} [DecidableEq K] (m : GoMap K V) (k : K) : Option V :=
  (m.find? (fun e => decide (e.1 = k))).map (fun e => e.2)

/-- The write `m[k] = v`: replaces the value of an existing key, adds a new key. -/
def GoMap.store {K V : Type} [DecidableEq K] (m : GoMap K V) (k : K) (v : V) : GoMap K V :=
  if (GoMap.load m k).isSome then m.map (fun e => if e.1 = k then (k, v) else e)
  else m ++ [(k, v)]

/-- The keys, in iteration order. -/
def GoMap.keys {K V : Type} (m : GoMap K V) : List K := m.map (fun e => e.1)

/-- One entry per key. -/
def GoMap.IsMap {K V : Type} (m : GoMap K V) : Prop := (GoMap.keys m).Nodup

instance {K V : Type} [DecidableEq K] (m : GoMap K V) : Decidable (GoMap.IsMap m) := by
  unfold GoMap.IsMap; infer_instance

/-- The read `m[k][t]` of a map of maps. -/
def GoMap.load2 {K T V : Type} [DecidableEq K] [DecidableEq T]
    (m : GoMap K (GoMap T V)) (k : K) (t : T) : Option V :=
  (GoMap.load m k).bind (fun inner => GoMap.load inner t)

namespace Wallet

/-- Modelled from the spec: `walletaddr.Address` (package client/wallet/packages/address
is not part of the sources): the address bytes and the index it was generated
with, the two fields the sources fill in. -/
structure Address where
  AddressBytes : Nat
  Index : Nat
  deriving DecidableEq, Repr

abbrev TransactionID := Nat

/-- Modelled from the spec: the inclusion state of an output (output.go is not
part of the sources), "an inclusionState with a Spent boolean". -/
structure InclusionState where
  Liked : Bool
  Confirmed : Bool
  Rejected : Bool
  Conflicting : Bool
  Spent : Bool
  deriving DecidableEq, Repr

/-- Modelled from the spec: a wallet `Output` (output.go is not part of the
sources): balances per color and the inclusion state. -/
structure Output where
  Balances : List (Nat × Nat)
  InclusionState : InclusionState
  deriving DecidableEq, Repr

/-- The assignment `output.InclusionState.Spent = true`. -/
def Output.markSpent (output : Output) : Output :=
  { output with InclusionState := { output.InclusionState with Spent := true } }

/-- Modelled from the spec: the `AddressManager` (addressmanager.go is not part of
the sources), reduced to what its methods `Addresses()` ("all wallet addresses")
and `UnspentAddresses()` ("addresses not yet fully spent") return. -/
structure AddressManager where
  Addresses : List Address
  UnspentAddresses : List Address
  deriving DecidableEq, Repr

/-- What `Connector.UnspentOutputs` returns on success. -/
abbrev Response := GoMap Address (GoMap TransactionID Output)

/-- UnspentOutputManager (unspentoutputmanager.go, lines 11-15). The connector is
passed to `Refresh`; `connectorCalls` records the address lists the connector was
asked for, oldest first. Stored outputs are values: every `*Output` is taken to
be referenced from one place only; `Pointers.UnspentOutputManager` below keeps
the pointers. -/
structure UnspentOutputManager where
  addressManager : AddressManager
  unspentOutputs : GoMap String (GoMap TransactionID Output)
  connectorCalls : List (List Address)
  deriving DecidableEq, Repr

/-- The body of the inner loop of `Refresh` (unspentoutputmanager.go, lines 47-56),
for the response entry `output` at `addr` and `transactionID`. `base58` is
`Address.Base58`, which is not part of the sources. -/
def refreshOutput (base58 : Address → String)
    (unspentOutputs : GoMap String (GoMap TransactionID Output))
    (addr : Address) (transactionID : TransactionID) (output : Output) :
    GoMap String (GoMap TransactionID Output) :=
  let local1 :=
    if (GoMap.load unspentOutputs (base58 addr)).isNone
    then GoMap.store unspentOutputs (base58 addr) []
    else unspentOutputs
  let output1 :=
    match GoMap.load2 local1 (base58 addr) transactionID with
    | some existingOutput =>
      if existingOutput.InclusionState.Spent then output.markSpent else output
    | none => output
  GoMap.store local1 (base58 addr)
    (GoMap.store ((GoMap.load local1 (base58 addr)).getD []) transactionID output1)

/-- The local variable `addressesToRefresh` of `Refresh` (unspentoutputmanager.go,
lines 33-38); `includeSpentAddresses` is the list of the variadic arguments. -/
def addressesToRefresh (m : UnspentOutputManager) (includeSpentAddresses : List Bool) :
    List Address :=
  if decide (includeSpentAddresses.length ≥ 1) && includeSpentAddresses.headD false
  then m.addressManager.Addresses
  else m.addressManager.UnspentAddresses

/-- Refresh retrieves the unspent outputs from the node (unspentoutputmanager.go,
lines 32-61). `connector` is the behaviour of `connector.UnspentOutputs` at this
call; the result is the returned error, if any, and the manager after the call. -/
def Refresh (base58 : Address → String)
    (connector : List Address → Except String Response)
    (m : UnspentOutputManager) (includeSpentAddresses : List Bool) :
    Option String × UnspentOutputManager :=
  let m1 := { m with connectorCalls :=
    m.connectorCalls ++ [addressesToRefresh m includeSpentAddresses] }
  match connector (addressesToRefresh m includeSpentAddresses) with
  | Except.error err => (some err, m1)
  | Except.ok unspentOutputs =>
    (none,
      { m1 with unspentOutputs :=
          (unspentOutputs.foldl
            (fun acc entry =>
              entry.2.foldl (fun acc out => refreshOutput base58 acc entry.1 out.1 out.2) acc)
            m1.unspentOutputs) })

/-- NewUnspentOutputManager creates a new UnspentOutputManager
(unspentoutputmanager.go, lines 18-28). -/
def NewUnspentOutputManager (base58 : Address → String)
    (connector : List Address → Except String Response) (addressManager : AddressManager) :
    UnspentOutputManager :=
  (Refresh base58 connector ⟨addressManager, [], []⟩ [true]).2

/-- UnspentOutputs returns the outputs that have not been spent, yet
(unspentoutputmanager.go, lines 64-97). -/
def UnspentOutputs (base58 : Address → String) (m : UnspentOutputManager)
    (addresses : List Address) : GoMap Address (GoMap TransactionID Output) :=
  let addresses1 := if addresses.length = 0 then m.addressManager.Addresses else addresses
  addresses1.foldl
    (fun unspentOutputs addr =>
      match GoMap.load m.unspentOutputs (base58 addr) with
      | none => unspentOutputs
      | some unspentOutputsOnAddress =>
        unspentOutputsOnAddress.foldl
          (fun unspentOutputs out =>
            if out.2.InclusionState.Spent then unspentOutputs
            else
              let result1 :=
                if (GoMap.load unspentOutputs addr).isNone
                then GoMap.store unspentOutputs addr []
                else unspentOutputs
              GoMap.store result1 addr
                (GoMap.store ((GoMap.load result1 addr).getD []) out.1 out.2))
          unspentOutputs)
    []

/-- MarkOutputSpent marks the output identified by the given parameters as spent
(unspentoutputmanager.go, lines 100-112). -/
def MarkOutputSpent (base58 : Address → String) (m : UnspentOutputManager)
    (addr : Address) (transactionID : TransactionID) : UnspentOutputManager :=
  match GoMap.load m.unspentOutputs (base58 addr) with
  | none => m
  | some outputs =>
    match GoMap.load outputs transactionID with
    | none => m
    | some output =>
      { m with unspentOutputs :=
          (GoMap.store m.unspentOutputs (base58 addr)
            (GoMap.store outputs transactionID output.markSpent)) }

/-- A call that changes the manager: `Refresh` with the behaviour of the connector
at that call and the arguments, or `MarkOutputSpent`. -/
inductive Op where
  | refresh (connector : List Address → Except String Response)
      (includeSpentAddresses : List Bool)
  | markOutputSpent (addr : Address) (transactionID : TransactionID)

/-- The manager after one call. -/
def Op.apply (base58 : Address → String) (m : UnspentOutputManager) : Op → UnspentOutputManager
  | Op.refresh connector includeSpentAddresses =>
    (Refresh base58 connector m includeSpentAddresses).2
  | Op.markOutputSpent addr transactionID => MarkOutputSpent base58 m addr transactionID

/-- The manager after a sequence of calls, first call first. -/
def applyOps (base58 : Address → String) (m : UnspentOutputManager) (ops : List Op) :
    UnspentOutputManager :=
  ops.foldl (Op.apply base58) m

/-- The entries of a response as triples of local key, transaction and output, in
iteration order. -/
def Response.entries (base58 : Address → String) (r : Response) :
    List (String × TransactionID × Output) :=
  r.flatMap (fun entry => entry.2.map (fun out => (base58 entry.1, out.1, out.2)))

/-- The output the server reported, with the spent flag also set when `existing`
is a spent output. -/
def mergeSpent (output : Output) (existing : Option Output) : Output :=
  match existing with
  | some e => if e.InclusionState.Spent then output.markSpent else output
  | none => output

/-- An encoding of addresses that reads the address bytes only. -/
def Example.base58 (a : Address) : String := String.mk (List.replicate a.AddressBytes 'x')

def Example.unspent : Output := ⟨[(0, 100)], ⟨true, true, false, false, false⟩⟩

def Example.addrA : Address := ⟨1, 0⟩

def Example.addrB : Address := ⟨2, 1⟩

/-- A manager that holds the unspent output `unspent` for `addrA` under
transaction 7 and another one for `addrB` under transaction 8. -/
def Example.manager : UnspentOutputManager :=
  ⟨⟨[Example.addrA, Example.addrB], [Example.addrB]⟩,
    [("x", [(7, Example.unspent)]), ("xx", [(8, Example.unspent)])], []⟩

/-- A connector that reports `unspent` for `addrA` under transactions 7 and 9. -/
def Example.connector (_ : List Address) : Except String Response :=
  Except.ok [(Example.addrA, [(7, Example.unspent), (9, Example.unspent)])]

/-- A connector that fails. -/
def Example.failing (_ : List Address) : Except String Response :=
  Except.error "connection refused"

/-- The address bytes of `addrA` with another index. -/
def Example.addrA1 : Address := ⟨1, 1⟩

/-- A spent output with other balances than `unspent`. -/
def Example.spentOther : Output := ⟨[(0, 5)], ⟨true, true, false, false, true⟩⟩

/-- A manager that holds no output. -/
def Example.emptyManager : UnspentOutputManager :=
  ⟨⟨[Example.addrA, Example.addrA1], []⟩, [], []⟩

/-- A connector whose response has two addresses with the same Base58 form, each
with an output under transaction 7, iterated in this order. -/
def Example.colliding (_ : List Address) : Except String Response :=
  Except.ok [(Example.addrA, [(7, Example.spentOther)]), (Example.addrA1, [(7, Example.unspent)])]

/-- The response of `colliding`, iterated in the other order. -/
def Example.collidingRev (_ : List Address) : Except String Response :=
  Except.ok [(Example.addrA1, [(7, Example.unspent)]), (Example.addrA, [(7, Example.spentOther)])]

/-! ## Wallet: the manager with its `*Output` pointers -/

namespace Pointers

/-- A value of type `*Output`: the address of an `Output` object. -/
abbrev OutputPtr := Nat

/-- The `Output` objects in memory, by address. An address that holds no object
stands for nil; dereferencing it panics. -/
abbrev Heap := GoMap OutputPtr Output

/-- What `Connector.UnspentOutputs` returns on success: a map of `*Output`. -/
abbrev Response := GoMap Address (GoMap TransactionID OutputPtr)

/-- UnspentOutputManager (unspentoutputmanager.go, lines 11-15), with
`unspentOutputs` holding `*Output` values as in the source, so that one object
may be stored under several keys; `heap` holds the objects. -/
structure UnspentOutputManager where
  addressManager : AddressManager
  unspentOutputs : GoMap String (GoMap TransactionID OutputPtr)
  heap : Heap
  connectorCalls : List (List Address)
  deriving DecidableEq, Repr

/-- The output stored under a key and a transaction: the object its pointer
refers to. -/
def UnspentOutputManager.outputAt (m : UnspentOutputManager) (k : String)
    (transactionID : TransactionID) : Option Output :=
  (GoMap.load2 m.unspentOutputs k transactionID).bind (GoMap.load m.heap)

/-- The body of the inner loop of `Refresh` (unspentoutputmanager.go, lines 47-56)
on the local map and the memory, for the response entry `output` at `addr` and
`transactionID`; `none` is the panic of a nil dereference. -/
def refreshOutput (base58 : Address → String)
    (s : GoMap String (GoMap TransactionID OutputPtr) × Heap)
    (addr : Address) (transactionID : TransactionID) (output : OutputPtr) :
    Option (GoMap String (GoMap TransactionID OutputPtr) × Heap) :=
  let local1 :=
    if (GoMap.load s.1 (base58 addr)).isNone
    then GoMap.store s.1 (base58 addr) []
    else s.1
  let heap1 : Option Heap :=
    match GoMap.load2 local1 (base58 addr) transactionID with
    | some existingOutput =>
      match GoMap.load s.2 existingOutput with
      | none => none
      | some existing =>
        if existing.InclusionState.Spent then
          match GoMap.load s.2 output with
          | none => none
          | some o => some (GoMap.store s.2 output o.markSpent)
        else some s.2
    | none => some s.2
  heap1.map (fun h =>
    (GoMap.store local1 (base58 addr)
      (GoMap.store ((GoMap.load local1 (base58 addr)).getD []) transactionID output), h))

/-- The local variable `addressesToRefresh` of `Refresh` (unspentoutputmanager.go,
lines 33-38). -/
def addressesToRefresh (m : UnspentOutputManager) (includeSpentAddresses : List Bool) :
    List Address :=
  if decide (includeSpentAddresses.length ≥ 1) && includeSpentAddresses.headD false
  then m.addressManager.Addresses
  else m.addressManager.UnspentAddresses

/-- Refresh retrieves the unspent outputs from the node (unspentoutputmanager.go,
lines 32-61). `connector` is the behaviour of `connector.UnspentOutputs` at this
call: given the addresses and the memory, an error, or the response and the
memory with the objects the response points to. The result is the returned
error, if any, and the manager after the call; `none` is a panic. -/
def Refresh (base58 : Address → String)
    (connector : List Address → Heap → Except String (Response × Heap))
    (m : UnspentOutputManager) (includeSpentAddresses : List Bool) :
    Option (Option String × UnspentOutputManager) :=
  let m1 := { m with connectorCalls :=
    m.connectorCalls ++ [addressesToRefresh m includeSpentAddresses] }
  match connector (addressesToRefresh m includeSpentAddresses) m.heap with
  | Except.error err => some (some err, m1)
  | Except.ok (unspentOutputs, heap1) =>
    (unspentOutputs.foldl
        (fun acc entry =>
          entry.2.foldl
            (fun acc out => acc.bind
              (fun s => refreshOutput base58 s entry.1 out.1 out.2)) acc)
        (some (m1.unspentOutputs, heap1))).map
      (fun s => (none, { m1 with unspentOutputs := s.1, heap := s.2 }))

/-- MarkOutputSpent marks the output identified by the given parameters as spent
(unspentoutputmanager.go, lines 100-112): the write goes through the stored
pointer. `none` is the panic of a nil dereference. -/
def MarkOutputSpent (base58 : Address → String) (m : UnspentOutputManager)
    (addr : Address) (transactionID : TransactionID) : Option UnspentOutputManager :=
  match GoMap.load m.unspentOutputs (base58 addr) with
  | none => some m
  | some outputs =>
    match GoMap.load outputs transactionID with
    | none => some m
    | some output =>
      match GoMap.load m.heap output with
      | none => none
      | some o => some { m with heap := GoMap.store m.heap output o.markSpent }

/-- The entries of a response as triples of local key, transaction and pointer,
in iteration order. -/
def Response.entries (base58 : Address → String) (r : Response) :
    List (String × TransactionID × OutputPtr) :=
  r.flatMap (fun entry => entry.2.map (fun out => (base58 entry.1, out.1, out.2)))

/-- The pointers stored in a local map, under any key. -/
def storedPointers (unspentOutputs : GoMap String (GoMap TransactionID OutputPtr)) :
    List OutputPtr :=
  unspentOutputs.flatMap (fun entry => entry.2.map (fun out => out.2))

/-- A manager that holds no output. -/
def Example.emptyManager : UnspentOutputManager :=
  ⟨⟨[Example.addrA, Example.addrA1], []⟩, [], [], []⟩

/-- A connector that creates one output object, at address 1, and reports it for
`addrA` under the transactions 7 and 9. -/
def Example.aliasing (_ : List Address) (heap : Heap) : Except String (Response × Heap) :=
  Except.ok ([(Example.addrA, [(7, 1), (9, 1)])], GoMap.store heap 1 Example.unspent)

/-- The manager after a `Refresh` answered by `aliasing`: one object is stored
under the transactions 7 and 9 of `addrA`. -/
def Example.aliased : UnspentOutputManager :=
  ⟨⟨[Example.addrA, Example.addrA1], []⟩, [("x", [(7, 1), (9, 1)])], [(1, Example.unspent)],
    [[Example.addrA, Example.addrA1]]⟩

/-- A manager that holds two output objects, the one under transaction 7 of
`addrA` spent, the one under transaction 9 unspent. -/
def Example.manager : UnspentOutputManager :=
  ⟨⟨[Example.addrA, Example.addrA1], []⟩, [("x", [(7, 1), (9, 2)])],
    [(1, Example.spentOther), (2, Example.unspent)], []⟩

/-- A connector that creates one output object, at address 3, and reports it for
`addrA` under the transactions 7 and 9. -/
def Example.aliasingFresh (_ : List Address) (heap : Heap) :
    Except String (Response × Heap) :=
  Except.ok ([(Example.addrA, [(7, 3), (9, 3)])], GoMap.store heap 3 Example.unspent)

/-- The response of `aliasingFresh`, iterated in the other order. -/
def Example.aliasingFreshRev (_ : List Address) (heap : Heap) :
    Except String (Response × Heap) :=
  Except.ok ([(Example.addrA, [(9, 3), (7, 3)])], GoMap.store heap 3 Example.unspent)

/-- A connector that creates two output objects, at the addresses 3 and 4, and
reports them for `addrA` under the transactions 7 and 9. -/
def Example.fresh (_ : List Address) (heap : Heap) : Except String (Response × Heap) :=
  Except.ok ([(Example.addrA, [(7, 3), (9, 4)])],
    GoMap.store (GoMap.store heap 3 Example.unspent) 4 Example.unspent)

/-- A connector that creates two output objects and reports them for two
addresses with the same Base58 form, both under transaction 7. -/
def Example.colliding (_ : List Address) (heap : Heap) : Except String (Response × Heap) :=
  Except.ok ([(Example.addrA, [(7, 3)]), (Example.addrA1, [(7, 4)])],
    GoMap.store (GoMap.store heap 3 Example.spentOther) 4 Example.unspent)

end Pointers

end Wallet

/-! ## Message layer plugin: the SyncChanged handler (plugins/messagelayer/plugin.go) -/

namespace MessageLayer

/-- The calls the handler makes on its collaborators, which are not part of the
sources. -/
inductive Call where
  | LogInfoSyncChanged (synced : Bool)
  | SchedulerSetup
  | FifoSchedulerDetach
  | FifoSchedulerShutdown
  | SchedulerStart
  | SchedulerSetRate (rate : Duration)
  | LogInfofSchedulerRate (rate : Duration)
  deriving DecidableEq, Repr

/-- What the handler works on: whether `syncedOnce` (a `sync.Once` of the Go
standard library) has run its function, the rate the scheduler was last set to,
and the calls made so far, oldest first. -/
structure PluginState where
  syncedOnce : Bool
  schedulerRate : Duration
  calls : List Call
  deriving DecidableEq, Repr

/-- Modelled from the spec: `Scheduler.SetRate` (scheduler.go is not part of the
sources), "SetRate(d): atomic update" of the time per message; the call is
recorded. -/
def SetRate (s : PluginState) (rate : Duration) : PluginState :=
  { s with schedulerRate := rate, calls := s.calls ++ [Call.SchedulerSetRate rate] }

/-- Records a call that has no other effect here. -/
def PluginState.call (s : PluginState) (c : Call) : PluginState :=
  { s with calls := s.calls ++ [c] }

/-- The closure attached to `SyncChanged` in `configure` (plugin.go, lines 112-133).
`configuredRate` is `Tangle().Options.SchedulerParams.Rate`, a `time.Duration` in
nanoseconds; `rate / 2` is the truncating division of Go, and `rate - rate / 2`
stays inside 64 bits for every 64-bit `rate`. -/
def onSyncChanged (configuredRate : Duration) (s : PluginState) (synced : Bool) :
    PluginState :=
  let s1 := s.call (Call.LogInfoSyncChanged synced)
  if synced then
    let s2 :=
      if s1.syncedOnce then s1
      else
        { (((s1.call Call.SchedulerSetup).call Call.FifoSchedulerDetach).call
            Call.FifoSchedulerShutdown).call Call.SchedulerStart with syncedOnce := true }
    let rate := configuredRate
    (SetRate s2 rate).call (Call.LogInfofSchedulerRate rate)
  else
    let rate := configuredRate
    let rate1 := rate - Int.tdiv rate 2
    (SetRate s1 rate1).call (Call.LogInfofSchedulerRate rate1)

/-- The handler run on a sequence of `SyncChanged` events, given by their `Synced`
fields in the order they are processed. -/
def handleAll (configuredRate : Duration) (s : PluginState) (events : List Bool) :
    PluginState :=
  events.foldl (onSyncChanged configuredRate) s

/-- The four handoff calls. -/
def Call.isHandoff : Call → Bool
  | Call.SchedulerSetup => true
  | Call.FifoSchedulerDetach => true
  | Call.FifoSchedulerShutdown => true
  | Call.SchedulerStart => true
  | _ => false

/-- The state before any event: `syncedOnce` has not run, no call was made. -/
def PluginState.initial (rate : Duration) : PluginState := ⟨false, rate, []⟩

/-- The value a Go `int` or `int64` holds after an operation whose exact result
is `x`: the result is reduced modulo `2 ^ 64` into the signed 64-bit range. -/
def wrap64 (x : Int) : Int := (x + 2 ^ 63) % 2 ^ 64 - 2 ^ 63

/-- The value `configure` assigns to `fcob.LikedThreshold` (plugin.go, line 149):
`time.Duration(Parameters.FCOB.AverageNetworkDelay) * time.Second`. The parameter
is a Go `int` (64 bits wide), its declaration is not part of the sources. -/
def LikedThreshold (averageNetworkDelay : Int) : Duration :=
  wrap64 (wrap64 averageNetworkDelay * Second)

/-- The value `configure` assigns to `fcob.LocallyFinalizedThreshold` (plugin.go,
line 150): `time.Duration(Parameters.FCOB.AverageNetworkDelay*2) * time.Second`. -/
def LocallyFinalizedThreshold (averageNetworkDelay : Int) : Duration :=
  wrap64 (wrap64 (wrap64 (averageNetworkDelay * 2)) * Second)

/-- The variables of the loop in `run` (plugin.go, lines 155-177): the local
`sync`, and the `Synced` fields of the `SyncChanged` events triggered so far,
oldest first. -/
structure MonitorState where
  sync : Bool
  emitted : List Bool
  deriving DecidableEq, Repr

/-- The state `run` enters its loop with: `sync := false`, nothing triggered. -/
def MonitorState.initial : MonitorState := ⟨false, []⟩

/-- One firing of `syncCheckTimer` (plugin.go, lines 164-169); `newSync` is what
`Tangle().TimeManager.Synced()` returns at this tick. The `go` statement starts
the trigger; the events are recorded in the order they are started. -/
def syncTick (s : MonitorState) (newSync : Bool) : MonitorState :=
  if newSync != s.sync then
    { sync := newSync, emitted := s.emitted ++ [newSync] }
  else s

/-- The loop of `run` up to the shutdown signal, on the values `Synced()` returns
at the successive ticks. -/
def syncMonitor (ticks : List Bool) : MonitorState :=
  ticks.foldl syncTick MonitorState.initial

/-- What the loop of `run` keeps true: `sync` is the value of the last event
triggered, or false when none was; consecutive events differ; the first event,
if any, has `Synced = true`. -/
structure MonitorState.Inv (s : MonitorState) : Prop where
  last : s.sync = s.emitted.getLast?.getD false
  alternate : List.Chain' (fun a b => a ≠ b) s.emitted
  first : s.emitted.head?.getD true = true

/-- The errors `AwaitMessageToBeBooked` returns: the error that
`errors.Errorf("Failed to issue transaction %s: %w", txID.String(), result.err)`
builds around the error of `f`, which may be nil, and the sentinel
`ErrMessageWasNotBookedInTime` (plugin.go, lines 28-34). -/
inductive AwaitError where
  | FailedToIssue (txID : Wallet.TransactionID) (cause : Option String)
  | ErrMessageWasNotBookedInTime
  deriving DecidableEq, Repr

/-- The closure attached to `MessageBooked` (plugin.go, lines 273-286), up to its
`select`: whether it goes on to send on `booked` for the event `msgID`, in the
store `t` of that moment. `transactionOf` gives the identifier of the transaction
a message carries as payload, `none` when the payload is of another type; the
payload is not part of the message type of the sources. -/
def bookedMatch (transactionOf : Message → Option Wallet.TransactionID) (t : Tangle)
    (txID : Wallet.TransactionID) (msgID : MessageID) : Bool :=
  match Storage.Message t msgID with
  | some message =>
    match transactionOf message with
    | some id => id == txID
    | none => false
  | none => false

/-- The two cases of the `select` that ends `AwaitMessageToBeBooked`. -/
inductive SelectCase where
  | timeAfter
  | booked
  deriving DecidableEq, Repr

/-- What the `select` that ends `AwaitMessageToBeBooked` finds at some moment:
the `MessageBooked` events the closure has been run on since it was attached,
each with the store of its moment; whether the channel of `time.After(maxAwait)`
has fired, that is, whether `maxAwait` has expired; and the case the Go runtime
picks when both cases can proceed. -/
structure SelectMoment where
  observed : List (Tangle × MessageID)
  timerFired : Bool
  pick : SelectCase

/-- Whether the closure has sent on `booked`, a channel with a buffer of one: it
has when it matched on one of the events observed. -/
def bookedSent (transactionOf : Message → Option Wallet.TransactionID)
    (txID : Wallet.TransactionID) (observed : List (Tangle × MessageID)) : Bool :=
  observed.any (fun e => bookedMatch transactionOf e.1 txID e.2)

/-- A `select` over two receive cases, as the Go specification defines it: the
case that can proceed is taken, the runtime picks when both can, and the
statement keeps waiting, `none`, when neither can. -/
def selectCase (timerFired bookedReady : Bool) (pick : SelectCase) : Option SelectCase :=
  match timerFired, bookedReady with
  | true, true => some pick
  | true, false => some SelectCase.timeAfter
  | false, true => some SelectCase.booked
  | false, false => none

/-- AwaitMessageToBeBooked awaits maxAwait for the given message to get booked
(plugin.go, lines 265-325). `f` is what the issuing function returns, received
from `issueResult`; `moment` is what the final `select` finds when it is
evaluated. The result is `none` while the `select` is still waiting. -/
def AwaitMessageToBeBooked (transactionOf : Message → Option Wallet.TransactionID)
    (f : Option Message × Option String) (txID : Wallet.TransactionID)
    (moment : SelectMoment) : Option (Option Message × Option AwaitError) :=
  let result := f
  if result.2.isSome || result.1.isNone then
    some (none, some (AwaitError.FailedToIssue txID result.2))
  else
    match selectCase moment.timerFired (bookedSent transactionOf txID moment.observed)
      moment.pick with
    | some SelectCase.timeAfter => some (none, some AwaitError.ErrMessageWasNotBookedInTime)
    | some SelectCase.booked => some (result.1, none)
    | none => none

/-- A payload reader for the examples: the message 2 carries the transaction 7,
no other message carries a transaction. -/
def Example.transactionOf (m : Message) : Option Wallet.TransactionID :=
  if m.id = 2 then some 7 else none

end MessageLayer

/-! ## Web API: the message identifier of a request (plugins/webapi/message/plugin.go) -/

namespace WebAPI

/-- messageIDFromContext determines the MessageID from the `messageID` parameter
of the request (webapi/message/plugin.go, lines 120-131). `NewMessageID` is
`tangle.NewMessageID`, which is not part of the sources: it is an argument and
returns the identifier together with the error, `none` for nil. `param` is
`c.Param("messageID")`. -/
def messageIDFromContext (NewMessageID : String → MessageID × Option String)
    (param : String) : MessageID × Option String :=
  if param = "EmptyMessageID" then (EmptyMessageID, none)
  else NewMessageID param

end WebAPI

/-! ## Dashboard: the explorer search route (plugins/dashboard/explorer_routes.go) -/

namespace Dashboard

/-- The two sentinel errors the explorer wraps; the text added by `fmt.Errorf` is
kept beside the sentinel. -/
inductive Error where
  | ErrInvalidParameter (detail : String)
  | ErrNotFound (detail : String)
  deriving DecidableEq, Repr

/-- Whether the error wraps `ErrInvalidParameter`. -/
def Error.isInvalidParameter : Error → Bool
  | Error.ErrInvalidParameter _ => true
  | Error.ErrNotFound _ => false

/-- ExplorerMessage, with the fields the solidifier state determines. -/
structure ExplorerMessage where
  ID : String
  IssuanceTimestamp : Int
  StrongParents : List String
  WeakParents : List String
  Solid : Bool
  Invalid : Bool
  deriving DecidableEq, Repr

/-- ExplorerOutput, reduced to the identifier of the output. -/
structure ExplorerOutput where
  ID : Nat
  deriving DecidableEq, Repr

/-- ExplorerAddress carries the queried string and the outputs found on it. -/
structure ExplorerAddress where
  Address : String
  ExplorerOutputs : List ExplorerOutput
  deriving DecidableEq, Repr

/-- SearchResult is the result of the search route. -/
structure SearchResult where
  Message : Option ExplorerMessage
  Address : Option ExplorerAddress
  deriving DecidableEq, Repr

/-- What the search route uses and the sources do not contain: `base58.Decode`
(`none` for an error), the two length constants, `tangle.NewMessageID` (the
identifier and whether the error is non-nil), `MessageID.Base58`,
`ledgerstate.AddressFromBase58EncodedString` (`none` for an error) and the
explorer outputs collected from `LedgerState.OutputsOnAddress`. -/
structure Env where
  base58Decode : String → Option (List Nat)
  AddressLength : Nat
  MessageIDLength : Nat
  NewMessageID : String → MessageID × Bool
  Base58 : MessageID → String
  AddressFromBase58EncodedString : String → Option Nat
  OutputsOnAddress : Nat → List ExplorerOutput

/-- createExplorerMessage (explorer_routes.go, lines 51-80), on the fields kept.
`IssuingTime().Unix()` is the issuing time in whole seconds. The flags are read
from the metadata object that `StoreMessage` stores with the message; for a
stored message without metadata, where the Go code dereferences the nil result
of `Unwrap()`, they read false here. -/
def createExplorerMessage (env : Env) (t : Tangle) (msg : Message) : ExplorerMessage :=
  { ID := env.Base58 msg.id
    IssuanceTimestamp := msg.issuingTime / Second
    StrongParents := msg.strongParents.map env.Base58
    WeakParents := msg.weakParents.map env.Base58
    Solid := t.IsSolid msg.id
    Invalid := t.IsInvalid msg.id }

/-- findMessage (explorer_routes.go, lines 176-184). -/
def findMessage (env : Env) (t : Tangle) (messageID : MessageID) :
    Option ExplorerMessage × Option Error :=
  match Storage.Message t messageID with
  | some msg => (some (createExplorerMessage env t msg), none)
  | none => (none, some (Error.ErrNotFound ("message " ++ env.Base58 messageID)))

/-- findAddress (explorer_routes.go, lines 186-243). -/
def findAddress (env : Env) (strAddress : String) :
    Option ExplorerAddress × Option Error :=
  match env.AddressFromBase58EncodedString strAddress with
  | none => (none, some (Error.ErrNotFound ("address " ++ strAddress)))
  | some address =>
    let outputs := env.OutputsOnAddress address
    if outputs.length = 0 then (none, some (Error.ErrNotFound ("address " ++ strAddress)))
    else (some { Address := strAddress, ExplorerOutputs := outputs }, none)

/-- The handler of `GET /search/:search` (explorer_routes.go, lines 141-173).
`search` is `c.Param("search")`; `Except.ok result` stands for
`c.JSON(http.StatusOK, result)`. The cases of the `switch` are tried in the order
of the source. -/
def search (env : Env) (t : Tangle) (search : String) : Except Error SearchResult :=
  let result : SearchResult := { Message := none, Address := none }
  match env.base58Decode search with
  | none => Except.error (Error.ErrInvalidParameter ("search ID " ++ search))
  | some searchInByte =>
    if searchInByte.length = env.AddressLength then
      let r := findAddress env search
      let result := if r.2.isNone then { result with Address := r.1 } else result
      Except.ok result
    else if searchInByte.length = env.MessageIDLength then
      let r := env.NewMessageID search
      if r.2 then Except.error (Error.ErrInvalidParameter ("search ID " ++ search))
      else
        let f := findMessage env t r.1
        let result := if f.2.isNone then { result with Message := f.1 } else result
        Except.ok result
    else Except.error (Error.ErrInvalidParameter ("search ID " ++ search))

/-- An environment with short identifiers: every string but `"0"` decodes to as
many bytes as it has characters, addresses are 3 bytes long and message
identifiers 2; `"m2"` names the message 2, every other string the message 99;
only the address 3 holds an output. -/
def Example.env : Env :=
  { base58Decode := fun s => if s = "0" then none else some (List.replicate s.length 0)
    AddressLength := 3
    MessageIDLength := 2
    NewMessageID := fun s => if s = "m2" then (2, false) else (99, false)
    Base58 := fun id => String.mk (List.replicate id 'm')
    AddressFromBase58EncodedString := fun s => if s = "abc" then some 3 else some 4
    OutputsOnAddress := fun a => if a = 3 then [⟨1⟩] else [] }

end Dashboard

/-! ## Frame lemmas of the storage operations -/

theorem find?_append_singleton {α : Type} (p : α → Bool) (l : List α) (a : α) :
    (l ++ [a]).find? p = match l.find? p with
      | some x => some x
      | none => if p a then some a else none := by
  rw [List.find?_append]
  cases h : l.find? p <;> simp [List.find?_cons]
  cases p a <;> simp

theorem storeIfMissing_messages (t : Tangle) (id : MessageID) :
    (Storage.StoreIfMissingMessageMetadata t id).2.messageStorage = t.messageStorage := by
  unfold Storage.StoreIfMissingMessageMetadata
  cases h : Storage.MessageMetadata t id <;> simp [Tangle.Trigger]

theorem storeIfMissing_approvers (t : Tangle) (id : MessageID) :
    (Storage.StoreIfMissingMessageMetadata t id).2.approverStorage = t.approverStorage := by
  unfold Storage.StoreIfMissingMessageMetadata
  cases h : Storage.MessageMetadata t id <;> simp [Tangle.Trigger]

theorem storeIfMissing_calls (t : Tangle) (id : MessageID) :
    (Storage.StoreIfMissingMessageMetadata t id).2.storeIfMissingCalls
      = t.storeIfMissingCalls ++ [id] := by
  unfold Storage.StoreIfMissingMessageMetadata
  cases h : Storage.MessageMetadata t id <;> simp [Tangle.Trigger]

theorem storeIfMissing_present (t : Tangle) (id : MessageID) (md : MessageMetadata)
    (h : Storage.MessageMetadata t id = some md) :
    Storage.StoreIfMissingMessageMetadata t id
      = (md, { t with storeIfMissingCalls := t.storeIfMissingCalls ++ [id] }) := by
  unfold Storage.StoreIfMissingMessageMetadata
  simp [h]

theorem storeIfMissing_lookup (t : Tangle) (id j : MessageID) :
    Storage.MessageMetadata (Storage.StoreIfMissingMessageMetadata t id).2 j
      = match Storage.MessageMetadata t j with
        | some md => some md
        | none => if j = id then some ⟨id, false, false⟩ else none := by
  unfold Storage.StoreIfMissingMessageMetadata
  cases h : Storage.MessageMetadata t id with
  | some md =>
    simp only [Storage.MessageMetadata] at h ⊢
    cases hj : List.find? (fun m => m.messageID == j) t.messageMetadataStorage with
    | some x => simp
    | none =>
      by_cases e : j = id
      · subst e; rw [h] at hj; cases hj
      · simp [e]
  | none =>
    simp only [Storage.MessageMetadata, Tangle.Trigger] at h ⊢
    rw [find?_append_singleton]
    cases hj : List.find? (fun m => m.messageID == j) t.messageMetadataStorage with
    | some x => simp
    | none =>
      by_cases e : j = id
      · subst e; simp
      · simp [e]; exact fun h => e h.symm

theorem storeIfMissing_fst (t : Tangle) (id : MessageID) :
    Storage.MessageMetadata (Storage.StoreIfMissingMessageMetadata t id).2 id
      = some (Storage.StoreIfMissingMessageMetadata t id).1 := by
  rw [storeIfMissing_lookup]
  unfold Storage.StoreIfMissingMessageMetadata
  cases h : Storage.MessageMetadata t id <;> simp

theorem storeIfMissing_isSolid (t : Tangle) (id j : MessageID) :
    (Storage.StoreIfMissingMessageMetadata t id).2.IsSolid j = t.IsSolid j := by
  unfold Tangle.IsSolid
  rw [storeIfMissing_lookup]
  cases h : Storage.MessageMetadata t j with
  | some md => rfl
  | none => by_cases e : j = id <;> simp [e]

theorem storeIfMissing_isInvalid (t : Tangle) (id j : MessageID) :
    (Storage.StoreIfMissingMessageMetadata t id).2.IsInvalid j = t.IsInvalid j := by
  unfold Tangle.IsInvalid
  rw [storeIfMissing_lookup]
  cases h : Storage.MessageMetadata t j with
  | some md => rfl
  | none => by_cases e : j = id <;> simp [e]

theorem storeIfMissing_fst_solid (t : Tangle) (id : MessageID) :
    (Storage.StoreIfMissingMessageMetadata t id).1.solid = t.IsSolid id := by
  have h := storeIfMissing_isSolid t id id
  unfold Tangle.IsSolid at h
  rw [storeIfMissing_fst] at h
  exact h

theorem storeIfMissing_events (t : Tangle) (id : MessageID) :
    (Storage.StoreIfMissingMessageMetadata t id).2.events
      = t.events ++ (if t.HasMetadata id then [] else [Event.MissingMessage id]) := by
  unfold Storage.StoreIfMissingMessageMetadata Tangle.HasMetadata
  cases h : Storage.MessageMetadata t id <;> simp [Tangle.Trigger]

theorem storeIfMissing_hasMetadata (t : Tangle) (id j : MessageID) :
    (Storage.StoreIfMissingMessageMetadata t id).2.HasMetadata j
      = (t.HasMetadata j || decide (j = id)) := by
  unfold Tangle.HasMetadata
  rw [storeIfMissing_lookup]
  cases h : Storage.MessageMetadata t j with
  | some md => simp
  | none => by_cases e : j = id <;> simp [e]

theorem storeIfMissing_metadata_of_has (t : Tangle) (id : MessageID)
    (h : t.HasMetadata id = true) :
    (Storage.StoreIfMissingMessageMetadata t id).2.messageMetadataStorage
      = t.messageMetadataStorage := by
  unfold Tangle.HasMetadata at h
  obtain ⟨md, hmd⟩ := Option.isSome_iff_exists.mp h
  rw [storeIfMissing_present t id md hmd]

/-! ## The parent loop of isMessageSolid -/

theorem Tangle.Extends.refl (t : Tangle) : Tangle.Extends t t [] where
  messages := rfl
  approvers := rfl
  isSolid := fun _ => rfl
  isInvalid := fun _ => rfl
  lookup := fun _ _ h => h
  stub := fun _ _ h => by cases h
  hasMetadata := fun j => by simp
  calls := by simp
  events := ⟨[], by simp⟩
  same := fun _ => ⟨rfl, rfl⟩

theorem storeIfMissing_extends (t : Tangle) (id : MessageID) :
    Tangle.Extends t (Storage.StoreIfMissingMessageMetadata t id).2 [id] where
  messages := storeIfMissing_messages t id
  approvers := storeIfMissing_approvers t id
  isSolid := storeIfMissing_isSolid t id
  isInvalid := storeIfMissing_isInvalid t id
  lookup := fun j md h => by rw [storeIfMissing_lookup, h]
  stub := fun j h hj => by
    have e : j = id := by simpa using hj
    subst e
    rw [storeIfMissing_lookup, h]; simp
  hasMetadata := fun j => by rw [storeIfMissing_hasMetadata]; simp
  calls := storeIfMissing_calls t id
  events := by
    refine ⟨_, storeIfMissing_events t id, ?_, ?_⟩
    · intro e he
      cases h : t.HasMetadata id <;> simp [h] at he
      exact ⟨id, he, by simp, h⟩
    · intro p hp h
      have e : p = id := by simpa using hp
      subst e
      simp [h]
  same := fun h => by
    have h1 : t.HasMetadata id = true := h id (by simp)
    exact ⟨storeIfMissing_metadata_of_has t id h1, by rw [storeIfMissing_events, h1]; simp⟩

theorem Tangle.Extends.trans {t t' t'' : Tangle} {a b : List MessageID}
    (h1 : Tangle.Extends t t' a) (h2 : Tangle.Extends t' t'' b) :
    Tangle.Extends t t'' (a ++ b) where
  messages := h2.messages.trans h1.messages
  approvers := h2.approvers.trans h1.approvers
  isSolid := fun j => (h2.isSolid j).trans (h1.isSolid j)
  isInvalid := fun j => (h2.isInvalid j).trans (h1.isInvalid j)
  lookup := fun j md h => h2.lookup j md (h1.lookup j md h)
  stub := fun j h hj => by
    by_cases ha : j ∈ a
    · exact h2.lookup j _ (h1.stub j h ha)
    · have hb : j ∈ b := by
        rcases List.mem_append.mp hj with x | x
        · exact absurd x ha
        · exact x
      apply h2.stub j _ hb
      have hh := h1.hasMetadata j
      unfold Tangle.HasMetadata at hh
      rw [h] at hh
      cases hx : Storage.MessageMetadata t' j with
      | none => rfl
      | some md => rw [hx] at hh; simp [ha] at hh
  hasMetadata := fun j => by
    rw [h2.hasMetadata, h1.hasMetadata]; simp [Bool.or_assoc]
  calls := by rw [h2.calls, h1.calls, List.append_assoc]
  events := by
    obtain ⟨e1, he1, hp1, hq1⟩ := h1.events
    obtain ⟨e2, he2, hp2, hq2⟩ := h2.events
    refine ⟨e1 ++ e2, by rw [he2, he1, List.append_assoc], ?_, ?_⟩
    · intro e he
      rcases List.mem_append.mp he with h | h
      · obtain ⟨p, hp, hm, hh⟩ := hp1 e h
        exact ⟨p, hp, List.mem_append.mpr (Or.inl hm), hh⟩
      · obtain ⟨p, hp, hm, hh⟩ := hp2 e h
        refine ⟨p, hp, List.mem_append.mpr (Or.inr hm), ?_⟩
        rw [h1.hasMetadata] at hh
        cases hx : t.HasMetadata p
        · rfl
        · simp [hx] at hh
    · intro p hp h
      by_cases ha : p ∈ a
      · exact List.mem_append.mpr (Or.inl (hq1 p ha h))
      · have hb : p ∈ b := by
          rcases List.mem_append.mp hp with x | x
          · exact absurd x ha
          · exact x
        apply List.mem_append.mpr (Or.inr (hq2 p hb _))
        rw [h1.hasMetadata, h]; simp [ha]
  same := fun h => by
    have ha := h1.same (fun p hp => h p (List.mem_append.mpr (Or.inl hp)))
    have hb := h2.same (fun p hp => by
      rw [h1.hasMetadata, h p (List.mem_append.mpr (Or.inr hp))]; rfl)
    exact ⟨hb.1.trans ha.1, hb.2.trans ha.2⟩

theorem isMessageMarkedAsSolid_fst (t : Tangle) (p : MessageID) :
    (isMessageMarkedAsSolid t p).1 = (p == EmptyMessageID || t.IsSolid p) := by
  unfold isMessageMarkedAsSolid
  by_cases h : p = EmptyMessageID
  · simp [h]
  · have hb : (p == EmptyMessageID) = false := by simpa using h
    simp only [hb, Bool.false_or]
    simpa using storeIfMissing_fst_solid t p

theorem isMessageMarkedAsSolid_extends (t : Tangle) (p : MessageID) :
    Tangle.Extends t (isMessageMarkedAsSolid t p).2
      ([p].filter (fun q => q != EmptyMessageID)) := by
  unfold isMessageMarkedAsSolid
  by_cases h : p = EmptyMessageID
  · simp [h]; exact Tangle.Extends.refl t
  · have hb : (p == EmptyMessageID) = false := by simpa using h
    simp [hb, h]
    exact storeIfMissing_extends t p

theorem queryParents_loop (ids : List MessageID) :
    ∀ (b : Bool) (t : Tangle),
      (ids.foldl (fun (acc : Bool × Tangle) p =>
          ((isMessageMarkedAsSolid acc.2 p).1 && acc.1, (isMessageMarkedAsSolid acc.2 p).2))
        (b, t)).1 = (b && ids.all (fun p => p == EmptyMessageID || t.IsSolid p)) ∧
      Tangle.Extends t
        (ids.foldl (fun (acc : Bool × Tangle) p =>
          ((isMessageMarkedAsSolid acc.2 p).1 && acc.1, (isMessageMarkedAsSolid acc.2 p).2))
        (b, t)).2 (ids.filter (fun q => q != EmptyMessageID)) := by
  induction ids with
  | nil => intro b t; simp; exact Tangle.Extends.refl t
  | cons p rest ih =>
    intro b t
    simp only [List.foldl_cons]
    obtain ⟨h1, h2⟩ := ih ((isMessageMarkedAsSolid t p).1 && b) (isMessageMarkedAsSolid t p).2
    have hx := isMessageMarkedAsSolid_extends t p
    constructor
    · rw [h1, isMessageMarkedAsSolid_fst]
      have : (fun q => q == EmptyMessageID || (isMessageMarkedAsSolid t p).2.IsSolid q)
          = (fun q => q == EmptyMessageID || t.IsSolid q) := by
        funext q; rw [hx.isSolid]
      rw [this, List.all_cons]
      cases b <;> simp
    · have := hx.trans h2
      rw [← List.filter_append] at this
      simpa using this

theorem queryParents_fst (t : Tangle) (ids : List MessageID) :
    (queryParents t ids).1 = ids.all (fun p => p == EmptyMessageID || t.IsSolid p) := by
  have := (queryParents_loop ids true t).1
  simpa [queryParents] using this

theorem queryParents_extends (t : Tangle) (ids : List MessageID) :
    Tangle.Extends t (queryParents t ids).2 (ids.filter (fun q => q != EmptyMessageID)) :=
  (queryParents_loop ids true t).2

theorem forEachParent_ids (m : Message) : m.ForEachParent.map (fun p => p.ID) = m.parentIDs := by
  simp [Message.ForEachParent, Message.parentIDs, List.map_map, Function.comp_def]

/-! ## isMessageSolid, isParentMessageValid, areParentMessagesValid -/

theorem isMessageSolid_eq (t : Tangle) (msg : Message) (ref : MessageID) :
    isMessageSolid t (some msg) (some ref)
      = if t.HasMetadata ref then
          (if t.IsSolid ref then (true, t) else queryParents t msg.parentIDs)
        else (false, t) := by
  unfold isMessageSolid Tangle.HasMetadata Tangle.IsSolid queryParents
  rw [show (some ref).bind (Storage.MessageMetadata t) = Storage.MessageMetadata t ref from rfl]
  cases h : Storage.MessageMetadata t ref with
  | none => simp
  | some md =>
    simp only [Option.isSome_some, if_true]
    rw [← forEachParent_ids, List.foldl_map]

theorem isMessageSolid_fst (t : Tangle) (msg : Message) (ref : MessageID) :
    (isMessageSolid t (some msg) (some ref)).1
      = (t.HasMetadata ref &&
          (t.IsSolid ref || msg.parentIDs.all (fun p => p == EmptyMessageID || t.IsSolid p))) := by
  rw [isMessageSolid_eq]
  cases h1 : t.HasMetadata ref <;> cases h2 : t.IsSolid ref <;> simp [queryParents_fst]

theorem isMessageSolid_extends (t : Tangle) (msg : Message) (ref : MessageID) :
    Tangle.Extends t (isMessageSolid t (some msg) (some ref)).2
      (if t.HasMetadata ref && !t.IsSolid ref
        then msg.parentIDs.filter (fun q => q != EmptyMessageID) else []) := by
  rw [isMessageSolid_eq]
  cases h1 : t.HasMetadata ref <;> cases h2 : t.IsSolid ref <;>
    simp [Tangle.Extends.refl, queryParents_extends]

theorem timeCheck_iff (c p : Int) :
    (decide (Time.Sub c p ≥ minParentsTimeDifference) &&
      decide (Time.Sub c p ≤ maxParentsTimeDifference)) = decide (InWindow c p) := by
  have e1 : minParentsTimeDifference = 0 := by simp [minParentsTimeDifference]
  have e2 : maxParentsTimeDifference = 1800000000000 := by
    simp [maxParentsTimeDifference, Minute, Second]
  have e3 : maxDuration = 9223372036854775807 := by simp [maxDuration]
  have e4 : minDuration = -9223372036854775808 := by simp [minDuration]
  rw [Bool.eq_iff_iff]
  simp only [Bool.and_eq_true, decide_eq_true_eq, InWindow, Time.Sub, e1, e2, e3, e4]
  unfold Duration Time at *
  split_ifs <;> constructor <;> intro h <;> omega

theorem isParentMessageValid_eq (t : Tangle) (p : MessageID) (c : Time) :
    isParentMessageValid t p c
      = (p == EmptyMessageID ||
          ((match Storage.Message t p with
            | some pm => decide (InWindow c pm.issuingTime)
            | none => false) && !t.IsInvalid p)) := by
  unfold isParentMessageValid Tangle.IsInvalid
  by_cases h : p = EmptyMessageID
  · simp [h]
  · have hb : (p == EmptyMessageID) = false := by simpa using h
    simp only [hb, Bool.false_or]
    cases hm : Storage.Message t p <;> cases hd : Storage.MessageMetadata t p <;>
      simp [timeCheck_iff]

theorem isParentMessageValid_iff (t : Tangle) (p : MessageID) (c : Time) :
    isParentMessageValid t p c = true ↔
      p = EmptyMessageID ∨
        ((∃ pm, Storage.Message t p = some pm ∧ InWindow c pm.issuingTime) ∧
          t.IsInvalid p = false) := by
  rw [isParentMessageValid_eq]
  cases hm : Storage.Message t p <;> simp [EmptyMessageID]

theorem areParentMessagesValid_eq (t : Tangle) (msg : Message) :
    areParentMessagesValid t msg
      = msg.parentIDs.all (fun p => isParentMessageValid t p msg.issuingTime) := by
  unfold areParentMessagesValid
  rw [← forEachParent_ids]
  generalize msg.ForEachParent = l
  have key : ∀ (b : Bool), l.foldl (fun valid parent =>
      valid && isParentMessageValid t parent.ID msg.issuingTime) b
        = (b && (l.map (fun p => p.ID)).all
            (fun p => isParentMessageValid t p msg.issuingTime)) := by
    induction l with
    | nil => intro b; simp
    | cons a l ih =>
      intro b
      simp only [List.foldl_cons, ih, List.map_cons, List.all_cons]
      cases b <;> simp
  simpa using key true

theorem areParentMessagesValid_iff (t : Tangle) (msg : Message) :
    areParentMessagesValid t msg = true ↔
      ∀ p ∈ msg.parentIDs, isParentMessageValid t p msg.issuingTime = true := by
  rw [areParentMessagesValid_eq, List.all_eq_true]

theorem isParentMessageValid_congr (t t' : Tangle) (p : MessageID) (c : Time)
    (hm : t'.messageStorage = t.messageStorage) (hi : ∀ j, t'.IsInvalid j = t.IsInvalid j) :
    isParentMessageValid t' p c = isParentMessageValid t p c := by
  rw [isParentMessageValid_eq, isParentMessageValid_eq, hi]
  unfold Storage.Message
  rw [hm]

theorem areParentMessagesValid_congr (t t' : Tangle) (msg : Message)
    (hm : t'.messageStorage = t.messageStorage) (hi : ∀ j, t'.IsInvalid j = t.IsInvalid j) :
    areParentMessagesValid t' msg = areParentMessagesValid t msg := by
  rw [areParentMessagesValid_eq, areParentMessagesValid_eq]
  congr 1
  funext p
  exact isParentMessageValid_congr t t' p _ hm hi

/-! ## Compare-and-set of the flags -/

theorem updateMetadata_lookup (t : Tangle) (id j : MessageID)
    (f : MessageMetadata → MessageMetadata) (hf : ∀ md, (f md).messageID = md.messageID) :
    Storage.MessageMetadata (t.updateMetadata id f) j
      = (Storage.MessageMetadata t j).map (fun md => if j = id then f md else md) := by
  unfold Storage.MessageMetadata Tangle.updateMetadata
  simp only
  rw [List.find?_map]
  have hp : ((fun m : MessageMetadata => m.messageID == j) ∘
      fun md => if (md.messageID == id) = true then f md else md)
        = (fun m : MessageMetadata => m.messageID == j) := by
    funext md
    simp only [Function.comp]
    split <;> simp [hf]
  rw [hp]
  cases h : List.find? (fun m => m.messageID == j) t.messageMetadataStorage with
  | none => rfl
  | some md =>
    have hj : md.messageID = j := by simpa using List.find?_some h
    simp [hj]

theorem updateSolid_isSolid (t : Tangle) (id j : MessageID) :
    (t.updateMetadata id (fun m => { m with solid := true })).IsSolid j
      = ((t.HasMetadata j && decide (j = id)) || t.IsSolid j) := by
  unfold Tangle.IsSolid Tangle.HasMetadata
  rw [updateMetadata_lookup t id j (fun m => { m with solid := true }) (fun _ => rfl)]
  cases h : Storage.MessageMetadata t j with
  | none => simp
  | some md => by_cases e : j = id <;> simp [e]

theorem updateSolid_isInvalid (t : Tangle) (id j : MessageID) :
    (t.updateMetadata id (fun m => { m with solid := true })).IsInvalid j = t.IsInvalid j := by
  unfold Tangle.IsInvalid
  rw [updateMetadata_lookup t id j (fun m => { m with solid := true }) (fun _ => rfl)]
  cases h : Storage.MessageMetadata t j with
  | none => simp
  | some md => by_cases e : j = id <;> simp [e]

theorem updateInvalid_isInvalid (t : Tangle) (id j : MessageID) :
    (t.updateMetadata id (fun m => { m with invalid := true })).IsInvalid j
      = ((t.HasMetadata j && decide (j = id)) || t.IsInvalid j) := by
  unfold Tangle.IsInvalid Tangle.HasMetadata
  rw [updateMetadata_lookup t id j (fun m => { m with invalid := true }) (fun _ => rfl)]
  cases h : Storage.MessageMetadata t j with
  | none => simp
  | some md => by_cases e : j = id <;> simp [e]

theorem updateInvalid_isSolid (t : Tangle) (id j : MessageID) :
    (t.updateMetadata id (fun m => { m with invalid := true })).IsSolid j = t.IsSolid j := by
  unfold Tangle.IsSolid
  rw [updateMetadata_lookup t id j (fun m => { m with invalid := true }) (fun _ => rfl)]
  cases h : Storage.MessageMetadata t j with
  | none => simp
  | some md => by_cases e : j = id <;> simp [e]

theorem updateMetadata_hasMetadata (t : Tangle) (id j : MessageID)
    (f : MessageMetadata → MessageMetadata) (hf : ∀ md, (f md).messageID = md.messageID) :
    (t.updateMetadata id f).HasMetadata j = t.HasMetadata j := by
  unfold Tangle.HasMetadata
  rw [updateMetadata_lookup t id j f hf]
  cases h : Storage.MessageMetadata t j <;> simp

theorem setSolid_eq (t : Tangle) (ref : MessageID) :
    SetSolid t ref true
      = if t.HasMetadata ref && !t.IsSolid ref
        then (true, t.updateMetadata ref (fun m => { m with solid := true }))
        else (false, t) := by
  unfold SetSolid Tangle.HasMetadata Tangle.IsSolid
  cases h : Storage.MessageMetadata t ref with
  | none => simp
  | some md => cases hs : md.solid <;> simp

theorem setInvalid_eq (t : Tangle) (ref : MessageID) :
    SetInvalid t ref true
      = if t.HasMetadata ref && !t.IsInvalid ref
        then (true, t.updateMetadata ref (fun m => { m with invalid := true }))
        else (false, t) := by
  unfold SetInvalid Tangle.HasMetadata Tangle.IsInvalid
  cases h : Storage.MessageMetadata t ref with
  | none => simp
  | some md => cases hs : md.invalid <;> simp

/-! ## checkMessageSolidity, case by case -/

theorem approvers_congr (t t' : Tangle) (id : MessageID)
    (h : t'.approverStorage = t.approverStorage) :
    Storage.Approvers t' id = Storage.Approvers t id := by
  unfold Storage.Approvers; rw [h]

theorem checkMessageSolidity_eq (t : Tangle) (msg : Message) (ref : MessageID) :
    checkMessageSolidity t (some msg) (some ref)
      = if (isMessageSolid t (some msg) (some ref)).1 = false then
          ([], (isMessageSolid t (some msg) (some ref)).2)
        else if areParentMessagesValid t msg = false then
          (if t.IsInvalid ref then ([], (isMessageSolid t (some msg) (some ref)).2)
           else ([], ((isMessageSolid t (some msg) (some ref)).2.updateMetadata ref
              (fun m => { m with invalid := true })).Trigger (Event.MessageInvalid msg.id)))
        else
          (if t.IsSolid ref then ([], (isMessageSolid t (some msg) (some ref)).2)
           else ((Storage.Approvers t msg.id).map (fun a => a.approverMessageID),
              ((isMessageSolid t (some msg) (some ref)).2.updateMetadata ref
                (fun m => { m with solid := true })).Trigger (Event.MessageSolid msg.id))) := by
  have hx := isMessageSolid_extends t msg ref
  have hv := areParentMessagesValid_congr t _ msg hx.messages hx.isInvalid
  unfold checkMessageSolidity
  simp only
  cases h1 : (isMessageSolid t (some msg) (some ref)).1 with
  | false => simp
  | true =>
    have hm : t.HasMetadata ref = true := by
      rw [isMessageSolid_fst] at h1
      cases hh : t.HasMetadata ref
      · simp [hh] at h1
      · rfl
    have hm1 : (isMessageSolid t (some msg) (some ref)).2.HasMetadata ref = true := by
      rw [hx.hasMetadata, hm]; rfl
    simp only [Bool.not_true, Bool.false_eq_true, if_false, hv, setInvalid_eq, setSolid_eq, hm1,
      hx.isInvalid, hx.isSolid, Bool.true_and]
    cases h2 : areParentMessagesValid t msg with
    | false =>
      cases h3 : t.IsInvalid ref <;> simp
    | true =>
      cases h3 : t.IsSolid ref <;> simp [Tangle.Trigger, Storage.Approvers, Tangle.updateMetadata, hx.approvers]

theorem parentsSolid_iff (t : Tangle) (msg : Message) :
    msg.parentIDs.all (fun p => p == EmptyMessageID || t.IsSolid p) = true ↔
      t.ParentsSolid msg := by
  unfold Tangle.ParentsSolid
  rw [List.all_eq_true]
  constructor
  · intro h p hp hne
    have := h p hp
    simp only [Bool.or_eq_true, beq_iff_eq] at this
    rcases this with h1 | h1
    · exact absurd h1 hne
    · exact h1
  · intro h p hp
    by_cases e : p = EmptyMessageID
    · simp [e]
    · simp [h p hp e]

theorem checkMessageSolidity_outcome (t : Tangle) (msg : Message) (ref : MessageID) :
    CheckOutcome t msg ref (checkMessageSolidity t (some msg) (some ref)) := by
  have hx := isMessageSolid_extends t msg ref
  have hids : ∀ p ∈ (if t.HasMetadata ref && !t.IsSolid ref
        then msg.parentIDs.filter (fun q => q != EmptyMessageID) else []),
      p ∈ msg.parentIDs ∧ p ≠ EmptyMessageID := by
    intro p hp
    split at hp
    · simpa using hp
    · cases hp
  rw [checkMessageSolidity_eq]
  by_cases h1 : (isMessageSolid t (some msg) (some ref)).1 = false
  · rw [if_pos h1]
    exact CheckOutcome.unchanged _ _ hx hids
  · rw [if_neg h1]
    have h1' : (isMessageSolid t (some msg) (some ref)).1 = true := by simpa using h1
    rw [isMessageSolid_fst] at h1'
    simp only [Bool.and_eq_true, Bool.or_eq_true] at h1'
    obtain ⟨hm, hs⟩ := h1'
    rw [parentsSolid_iff] at hs
    by_cases h2 : areParentMessagesValid t msg = false
    · rw [if_pos h2]
      by_cases h3 : t.IsInvalid ref = true
      · rw [if_pos h3]
        exact CheckOutcome.unchanged _ _ hx hids
      · rw [if_neg h3]
        exact CheckOutcome.becameInvalid _ _ hx hids hm (by simpa using h3) hs h2
    · rw [if_neg h2]
      by_cases h3 : t.IsSolid ref = true
      · rw [if_pos h3]
        exact CheckOutcome.unchanged _ _ hx hids
      · rw [if_neg h3]
        have h3' : t.IsSolid ref = false := by simpa using h3
        have hs' : t.ParentsSolid msg := by
          rcases hs with h | h
          · exact absurd h h3
          · exact h
        exact CheckOutcome.becameSolid _ _ hx hids hm h3' hs' (by simpa using h2)

/-! ## Storing a message -/

theorem storeMessage_lookup (t : Tangle) (x : Message) (j : MessageID) :
    Storage.Message (Storage.StoreMessage t x) j
      = match Storage.Message t j with
        | some m => some m
        | none => if j = x.id then some x else none := by
  unfold Storage.StoreMessage
  cases h : Storage.Message t x.id with
  | some m0 =>
    simp only
    cases hj : Storage.Message t j with
    | some m => rfl
    | none =>
      by_cases e : j = x.id
      · subst e; rw [h] at hj; cases hj
      · simp [e]
  | none =>
    simp only [Storage.Message, Tangle.Trigger] at h ⊢
    rw [find?_append_singleton]
    cases hj : List.find? (fun m => m.id == j) t.messageStorage with
    | some m => simp
    | none =>
      by_cases e : j = x.id
      · subst e; simp
      · simp [e]; exact fun h => e h.symm

theorem storeMessage_lookup_mono (t : Tangle) (x m : Message) (j : MessageID)
    (h : Storage.Message t j = some m) :
    Storage.Message (Storage.StoreMessage t x) j = some m := by
  rw [storeMessage_lookup, h]

theorem storeMessage_metadata_lookup (t : Tangle) (x : Message) (j : MessageID) :
    Storage.MessageMetadata (Storage.StoreMessage t x) j
      = match Storage.MessageMetadata t j with
        | some md => some md
        | none => if j = x.id ∧ Storage.Message t x.id = none
            then some ⟨x.id, false, false⟩ else none := by
  unfold Storage.StoreMessage
  cases h : Storage.Message t x.id with
  | some m0 =>
    simp only
    cases hj : Storage.MessageMetadata t j <;> simp
  | none =>
    cases hx : Storage.MessageMetadata t x.id with
    | some mdx =>
      simp only [Storage.MessageMetadata, Tangle.Trigger] at hx ⊢
      cases hj : List.find? (fun m => m.messageID == j) t.messageMetadataStorage with
      | some md => simp
      | none =>
        by_cases e : j = x.id
        · subst e; rw [hx] at hj; cases hj
        · simp [e]
    | none =>
      simp only [Storage.MessageMetadata, Tangle.Trigger] at hx ⊢
      rw [find?_append_singleton]
      cases hj : List.find? (fun m => m.messageID == j) t.messageMetadataStorage with
      | some md => simp
      | none =>
        by_cases e : j = x.id
        · subst e; simp
        · simp [e]; exact fun h => e h.symm

theorem storeMessage_isSolid (t : Tangle) (x : Message) (j : MessageID) :
    (Storage.StoreMessage t x).IsSolid j = t.IsSolid j := by
  unfold Tangle.IsSolid
  rw [storeMessage_metadata_lookup]
  cases h : Storage.MessageMetadata t j with
  | some md => rfl
  | none => by_cases e : j = x.id ∧ Storage.Message t x.id = none <;> simp [e]

theorem storeMessage_isInvalid (t : Tangle) (x : Message) (j : MessageID) :
    (Storage.StoreMessage t x).IsInvalid j = t.IsInvalid j := by
  unfold Tangle.IsInvalid
  rw [storeMessage_metadata_lookup]
  cases h : Storage.MessageMetadata t j with
  | some md => rfl
  | none => by_cases e : j = x.id ∧ Storage.Message t x.id = none <;> simp [e]

theorem message_id_of_lookup (t : Tangle) (j : MessageID) (m : Message)
    (h : Storage.Message t j = some m) : m.id = j := by
  simpa using List.find?_some h

/-! ## The invariant behind the flags -/

theorem flagsJustified_of_noFlags (t : Tangle) (h : t.NoFlags) : t.FlagsJustified := by
  have hs : ∀ j, t.IsSolid j = false := by
    intro j
    unfold Tangle.IsSolid
    cases hj : Storage.MessageMetadata t j with
    | none => rfl
    | some md => exact (h md (List.mem_of_find?_eq_some hj)).1
  have hi : ∀ j, t.IsInvalid j = false := by
    intro j
    unfold Tangle.IsInvalid
    cases hj : Storage.MessageMetadata t j with
    | none => rfl
    | some md => exact (h md (List.mem_of_find?_eq_some hj)).2
  constructor
  · intro j hj; rw [hs j] at hj; cases hj
  · intro j hj; rw [hi j] at hj; cases hj

theorem flagsJustified_store (t : Tangle) (x : Message) (h : t.FlagsJustified) :
    (Storage.StoreMessage t x).FlagsJustified := by
  constructor
  · intro j hj
    rw [storeMessage_isSolid] at hj
    obtain ⟨h1, msg, hm, hp⟩ := h.solid j hj
    refine ⟨by rw [storeMessage_isInvalid]; exact h1, msg, storeMessage_lookup_mono t x msg j hm, ?_⟩
    intro p hpm hne
    obtain ⟨a, pm, b, c⟩ := hp p hpm hne
    exact ⟨by rw [storeMessage_isSolid]; exact a, pm, storeMessage_lookup_mono t x pm p b, c⟩
  · intro j hj
    rw [storeMessage_isInvalid] at hj
    obtain ⟨msg, hm, hps, p, hpm, hne, pm, b, c⟩ := h.invalid j hj
    refine ⟨msg, storeMessage_lookup_mono t x msg j hm, ?_, p, hpm, hne, pm,
      storeMessage_lookup_mono t x pm p b, c⟩
    intro q hq hqne
    rw [storeMessage_isSolid]; exact hps q hq hqne

theorem becameInvalid_views {t t1 : Tangle} {ids : List MessageID} (ref : MessageID)
    (e : Event) (hx : Tangle.Extends t t1 ids) (hm : t.HasMetadata ref = true) :
    let t' := (t1.updateMetadata ref (fun m => { m with invalid := true })).Trigger e
    t'.messageStorage = t.messageStorage ∧ t'.approverStorage = t.approverStorage ∧
      (∀ j, t'.IsSolid j = t.IsSolid j) ∧
      (∀ j, t'.IsInvalid j = (decide (j = ref) || t.IsInvalid j)) ∧
      (∀ j, t'.HasMetadata j = t1.HasMetadata j) ∧
      t'.events = t1.events ++ [e] ∧ t'.storeIfMissingCalls = t1.storeIfMissingCalls := by
  refine ⟨hx.messages, hx.approvers, ?_, ?_, ?_, rfl, rfl⟩
  · intro j
    show (t1.updateMetadata ref (fun m => { m with invalid := true })).IsSolid j = _
    rw [updateInvalid_isSolid, hx.isSolid]
  · intro j
    show (t1.updateMetadata ref (fun m => { m with invalid := true })).IsInvalid j = _
    rw [updateInvalid_isInvalid, hx.isInvalid]
    by_cases e : j = ref
    · subst e; rw [hx.hasMetadata, hm]; simp
    · simp [e]
  · intro j
    show (t1.updateMetadata ref (fun m => { m with invalid := true })).HasMetadata j = _
    exact updateMetadata_hasMetadata _ _ _ _ (fun _ => rfl)

theorem becameSolid_views {t t1 : Tangle} {ids : List MessageID} (ref : MessageID)
    (e : Event) (hx : Tangle.Extends t t1 ids) (hm : t.HasMetadata ref = true) :
    let t' := (t1.updateMetadata ref (fun m => { m with solid := true })).Trigger e
    t'.messageStorage = t.messageStorage ∧ t'.approverStorage = t.approverStorage ∧
      (∀ j, t'.IsSolid j = (decide (j = ref) || t.IsSolid j)) ∧
      (∀ j, t'.IsInvalid j = t.IsInvalid j) ∧
      (∀ j, t'.HasMetadata j = t1.HasMetadata j) ∧
      t'.events = t1.events ++ [e] ∧ t'.storeIfMissingCalls = t1.storeIfMissingCalls := by
  refine ⟨hx.messages, hx.approvers, ?_, ?_, ?_, rfl, rfl⟩
  · intro j
    show (t1.updateMetadata ref (fun m => { m with solid := true })).IsSolid j = _
    rw [updateSolid_isSolid, hx.isSolid]
    by_cases e : j = ref
    · subst e; rw [hx.hasMetadata, hm]; simp
    · simp [e]
  · intro j
    show (t1.updateMetadata ref (fun m => { m with solid := true })).IsInvalid j = _
    rw [updateSolid_isInvalid, hx.isInvalid]
  · intro j
    show (t1.updateMetadata ref (fun m => { m with solid := true })).HasMetadata j = _
    exact updateMetadata_hasMetadata _ _ _ _ (fun _ => rfl)

theorem message_congr {t t' : Tangle} (h : t'.messageStorage = t.messageStorage)
    (j : MessageID) : Storage.Message t' j = Storage.Message t j := by
  unfold Storage.Message; rw [h]

theorem valid_of_solid {t : Tangle} (h : t.FlagsJustified) {j : MessageID} {msg : Message}
    (hm : Storage.Message t j = some msg) (hs : t.IsSolid j = true) :
    areParentMessagesValid t msg = true := by
  obtain ⟨_, msg', hm', hp⟩ := h.solid j hs
  rw [hm] at hm'
  cases hm'
  rw [areParentMessagesValid_iff]
  intro p hpm
  rw [isParentMessageValid_iff]
  by_cases e : p = EmptyMessageID
  · exact Or.inl e
  · obtain ⟨a, b⟩ := hp p hpm e
    exact Or.inr ⟨b, (h.solid p a).1⟩

theorem not_valid_of_invalid {t : Tangle} (h : t.FlagsJustified) {j : MessageID}
    {msg : Message} (hm : Storage.Message t j = some msg) (hi : t.IsInvalid j = true) :
    areParentMessagesValid t msg = false := by
  obtain ⟨msg', hm', _, p, hpm, hne, pm, hpmsg, hw⟩ := h.invalid j hi
  rw [hm] at hm'
  cases hm'
  cases hv : areParentMessagesValid t msg with
  | false => rfl
  | true =>
    exfalso
    rw [areParentMessagesValid_iff] at hv
    have := (isParentMessageValid_iff t p msg.issuingTime).mp (hv p hpm)
    rcases this with h1 | ⟨⟨pm', h2, h3⟩, _⟩
    · exact hne h1
    · rw [hpmsg] at h2
      cases h2
      exact hw h3

theorem flagsJustified_congr {t t' : Tangle} (hm : t'.messageStorage = t.messageStorage)
    (hs : ∀ j, t'.IsSolid j = t.IsSolid j) (hi : ∀ j, t'.IsInvalid j = t.IsInvalid j)
    (h : t.FlagsJustified) : t'.FlagsJustified := by
  constructor
  · intro j hj
    rw [hs] at hj
    obtain ⟨h1, msg, hmsg, hp⟩ := h.solid j hj
    refine ⟨by rw [hi]; exact h1, msg, by rw [message_congr hm]; exact hmsg, ?_⟩
    intro p hpm hne
    obtain ⟨a, pm, b, c⟩ := hp p hpm hne
    exact ⟨by rw [hs]; exact a, pm, by rw [message_congr hm]; exact b, c⟩
  · intro j hj
    rw [hi] at hj
    obtain ⟨msg, hmsg, hps, p, hpm, hne, pm, b, c⟩ := h.invalid j hj
    refine ⟨msg, by rw [message_congr hm]; exact hmsg, ?_, p, hpm, hne, pm,
      by rw [message_congr hm]; exact b, c⟩
    intro q hq hqne
    rw [hs]; exact hps q hq hqne

theorem flagsJustified_check (t : Tangle) (msg : Message) (h : t.FlagsJustified)
    (hmsg : Storage.Message t msg.id = some msg) :
    (checkMessageSolidity t (some msg) (some msg.id)).2.FlagsJustified := by
  have ho := checkMessageSolidity_outcome t msg msg.id
  generalize checkMessageSolidity t (some msg) (some msg.id) = r at ho
  cases ho with
  | unchanged t1 ids hx _ => exact flagsJustified_congr hx.messages hx.isSolid hx.isInvalid h
  | becameInvalid t1 ids hx _ hm hni hs hv =>
    obtain ⟨vm, _, vs, vi, _⟩ := becameInvalid_views msg.id (Event.MessageInvalid msg.id) hx hm
    have hns : t.IsSolid msg.id = false := by
      cases hh : t.IsSolid msg.id with
      | false => rfl
      | true => rw [valid_of_solid h hmsg hh] at hv; cases hv
    have hps : t.ParentsSolid msg := by
      rcases hs with h1 | h1
      · rw [hns] at h1; cases h1
      · exact h1
    constructor
    · intro j hj
      rw [vs] at hj
      obtain ⟨h1, m, hm1, hp⟩ := h.solid j hj
      have hjne : j ≠ msg.id := by
        intro e; subst e; rw [hns] at hj; cases hj
      refine ⟨by rw [vi]; simp [hjne, h1], m, by rw [message_congr vm]; exact hm1, ?_⟩
      intro p hpm hne
      obtain ⟨a, pm, b, c⟩ := hp p hpm hne
      exact ⟨by rw [vs]; exact a, pm, by rw [message_congr vm]; exact b, c⟩
    · intro j hj
      rw [vi] at hj
      by_cases e : j = msg.id
      · subst e
        have hbad : ∃ p ∈ msg.parentIDs, isParentMessageValid t p msg.issuingTime = false := by
          by_contra hc
          have : areParentMessagesValid t msg = true := by
            rw [areParentMessagesValid_iff]
            intro p hp
            cases hq : isParentMessageValid t p msg.issuingTime with
            | true => rfl
            | false => exact absurd ⟨p, hp, hq⟩ hc
          rw [this] at hv; cases hv
        obtain ⟨p, hpm, hq⟩ := hbad
        have hne : p ≠ EmptyMessageID := by
          intro e; rw [isParentMessageValid_eq, e] at hq; simp at hq
        have hpsol := hps p hpm hne
        obtain ⟨hpi, pmsg, hpmsg, _⟩ := h.solid p hpsol
        refine ⟨msg, by rw [message_congr vm]; exact hmsg, ?_, p, hpm, hne, pmsg,
          by rw [message_congr vm]; exact hpmsg, ?_⟩
        · intro q hq' hqne
          rw [vs]; exact hps q hq' hqne
        · intro hw
          have : isParentMessageValid t p msg.issuingTime = true :=
            (isParentMessageValid_iff t p msg.issuingTime).mpr (Or.inr ⟨⟨pmsg, hpmsg, hw⟩, hpi⟩)
          rw [this] at hq; cases hq
      · have hj' : t.IsInvalid j = true := by simpa [e] using hj
        obtain ⟨m, hm1, hps1, p, hpm, hne, pm, b, c⟩ := h.invalid j hj'
        refine ⟨m, by rw [message_congr vm]; exact hm1, ?_, p, hpm, hne, pm,
          by rw [message_congr vm]; exact b, c⟩
        intro q hq hqne
        rw [vs]; exact hps1 q hq hqne
  | becameSolid t1 ids hx _ hm hns hps hv =>
    obtain ⟨vm, _, vs, vi, _⟩ := becameSolid_views msg.id (Event.MessageSolid msg.id) hx hm
    have hni : t.IsInvalid msg.id = false := by
      cases hh : t.IsInvalid msg.id with
      | false => rfl
      | true => rw [not_valid_of_invalid h hmsg hh] at hv; cases hv
    constructor
    · intro j hj
      rw [vs] at hj
      by_cases e : j = msg.id
      · subst e
        refine ⟨by rw [vi]; exact hni, msg, by rw [message_congr vm]; exact hmsg, ?_⟩
        intro p hpm hne
        have hpv := (areParentMessagesValid_iff t msg).mp hv p hpm
        rcases (isParentMessageValid_iff t p msg.issuingTime).mp hpv with h1 | ⟨⟨pm, b, c⟩, _⟩
        · exact absurd h1 hne
        · exact ⟨by rw [vs]; simp [hps p hpm hne], pm, by rw [message_congr vm]; exact b, c⟩
      · have hj' : t.IsSolid j = true := by simpa [e] using hj
        obtain ⟨h1, m, hm1, hp⟩ := h.solid j hj'
        refine ⟨by rw [vi]; exact h1, m, by rw [message_congr vm]; exact hm1, ?_⟩
        intro p hpm hne
        obtain ⟨a, pm, b, c⟩ := hp p hpm hne
        exact ⟨by rw [vs]; simp [a], pm, by rw [message_congr vm]; exact b, c⟩
    · intro j hj
      rw [vi] at hj
      obtain ⟨m, hm1, hps1, p, hpm, hne, pm, b, c⟩ := h.invalid j hj
      refine ⟨m, by rw [message_congr vm]; exact hm1, ?_, p, hpm, hne, pm,
        by rw [message_congr vm]; exact b, c⟩
      intro q hq hqne
      rw [vs]; simp [hps1 q hq hqne]

/-! ## The walk and the reachable states -/

theorem walk_preserves (P : Tangle → Prop)
    (hP : ∀ t msg, P t → Storage.Message t msg.id = some msg →
      P (checkMessageSolidity t (some msg) (some msg.id)).2) :
    ∀ (fuel : Nat) (q : List MessageID) (t t' : Tangle), P t →
      WalkMessages checkMessageSolidity fuel q t = some t' → P t' := by
  intro fuel
  induction fuel with
  | zero =>
    intro q t t' hp hw
    cases q with
    | nil => simp [WalkMessages] at hw; subst hw; exact hp
    | cons a q => simp [WalkMessages] at hw
  | succ n ih =>
    intro q t t' hp hw
    cases q with
    | nil => simp [WalkMessages] at hw; subst hw; exact hp
    | cons a q =>
      unfold WalkMessages at hw
      cases hm : Storage.Message t a with
      | none => rw [hm] at hw; exact ih q t t' hp hw
      | some msg =>
        rw [hm] at hw
        cases hd : Storage.MessageMetadata t a with
        | none => rw [hd] at hw; exact ih q t t' hp hw
        | some md =>
          rw [hd] at hw
          have hid := message_id_of_lookup t a msg hm
          subst hid
          exact ih _ _ t' (hP t msg hp hm) hw

theorem reachable_induction (P : Tangle → Prop) {t0 t : Tangle} (h0 : P t0)
    (hstore : ∀ t m, P t → P (Storage.StoreMessage t m))
    (hcheck : ∀ t msg, P t → Storage.Message t msg.id = some msg →
      P (checkMessageSolidity t (some msg) (some msg.id)).2)
    (hr : Reachable t0 t) : P t := by
  induction hr with
  | init => exact h0
  | store t m _ ih => exact hstore t m ih
  | check t msg _ hm ih => exact hcheck t msg ih hm
  | solidify t t' fuel id _ hs ih => exact walk_preserves P hcheck fuel [id] t t' ih hs

theorem reachable_flagsJustified {t0 t : Tangle} (h0 : t0.NoFlags) (hr : Reachable t0 t) :
    t.FlagsJustified :=
  reachable_induction Tangle.FlagsJustified (flagsJustified_of_noFlags t0 h0)
    (fun t m h => flagsJustified_store t m h)
    (fun t msg h hm => flagsJustified_check t msg h hm) hr

theorem Example.lateStored_reachable : Reachable Tangle.empty Example.lateStored :=
  Reachable.check _ Example.m1 (Reachable.store _ _ (Reachable.store _ _ Reachable.init))
    (by decide)

theorem Example.lateInvalid_reachable : Reachable Tangle.empty Example.lateInvalid :=
  Reachable.check _ Example.late Example.lateStored_reachable (by decide)

theorem Example.m1Solid_reachable : Reachable Tangle.empty Example.m1Solid :=
  Reachable.check _ Example.m1 (Reachable.store _ _ (Reachable.store _ _ Reachable.init))
    (by decide)

/-! ## Properties of the Solidifier -/

/-- C1: in every state reachable from a store in which no message is flagged solid
or invalid (by storing messages, `checkMessageSolidity` calls and `Solidify`
calls), no metadata object returned by the storage has both `solid` and `invalid`
set. -/
theorem solid_invalid_exclusive (t0 t : Tangle) (h0 : t0.NoFlags) (hr : Reachable t0 t)
    (id : MessageID) (md : MessageMetadata) (hmd : Storage.MessageMetadata t id = some md) :
    ¬ (md.solid = true ∧ md.invalid = true) := by
  intro ⟨hs, hi⟩
  have hj := reachable_flagsJustified h0 hr
  have h1 : t.IsSolid id = true := by unfold Tangle.IsSolid; rw [hmd]; exact hs
  have h2 : t.IsInvalid id = true := by unfold Tangle.IsInvalid; rw [hmd]; exact hi
  rw [(hj.solid id h1).1] at h2
  cases h2

theorem solid_invalid_exclusive_witness :
    Tangle.empty.NoFlags ∧ Reachable Tangle.empty Example.lateInvalid ∧
      Storage.MessageMetadata Example.lateInvalid 2 = some ⟨2, false, true⟩ ∧
      ¬ ((⟨2, false, true⟩ : MessageMetadata).solid = true ∧
          (⟨2, false, true⟩ : MessageMetadata).invalid = true) :=
  ⟨by decide, Example.lateInvalid_reachable, by decide,
    solid_invalid_exclusive Tangle.empty Example.lateInvalid (by decide)
      Example.lateInvalid_reachable 2 ⟨2, false, true⟩ (by decide)⟩

/-- C2: when a call of `checkMessageSolidity` turns the solid flag of the message
from false to true, every non-genesis parent is present in storage and the
difference between the issuing time of the message and that of the parent is at
least 0 and at most 30 minutes, both bounds included. -/
theorem marked_solid_parents_in_window (t : Tangle) (msg : Message) (ref : MessageID)
    (hbefore : t.IsSolid ref = false)
    (hafter : (checkMessageSolidity t (some msg) (some ref)).2.IsSolid ref = true) :
    ∀ p ∈ msg.strongParents ++ msg.weakParents, p ≠ EmptyMessageID →
      ∃ pm, Storage.Message t p = some pm ∧
        0 ≤ msg.issuingTime - pm.issuingTime ∧
        msg.issuingTime - pm.issuingTime ≤ 30 * Minute := by
  have ho := checkMessageSolidity_outcome t msg ref
  generalize checkMessageSolidity t (some msg) (some ref) = r at ho hafter
  cases ho with
  | unchanged t1 ids hx _ =>
    rw [hx.isSolid, hbefore] at hafter; cases hafter
  | becameInvalid t1 ids hx _ hm hni hs hv =>
    obtain ⟨_, _, vs, _⟩ := becameInvalid_views ref (Event.MessageInvalid msg.id) hx hm
    rw [vs, hbefore] at hafter; cases hafter
  | becameSolid t1 ids hx _ hm hns hps hv =>
    intro p hp hne
    have hpv := (areParentMessagesValid_iff t msg).mp hv p hp
    rcases (isParentMessageValid_iff t p msg.issuingTime).mp hpv with h1 | ⟨⟨pm, b, c⟩, _⟩
    · exact absurd h1 hne
    · refine ⟨pm, b, ?_⟩
      simpa [InWindow, minParentsTimeDifference, maxParentsTimeDifference] using c

theorem marked_solid_parents_in_window_witness :
    Example.m1Solid.IsSolid 2 = false ∧
      (checkMessageSolidity Example.m1Solid (some Example.m2) (some 2)).2.IsSolid 2 = true ∧
      ∀ p ∈ Example.m2.strongParents ++ Example.m2.weakParents, p ≠ EmptyMessageID →
        ∃ pm, Storage.Message Example.m1Solid p = some pm ∧
          0 ≤ Example.m2.issuingTime - pm.issuingTime ∧
          Example.m2.issuingTime - pm.issuingTime ≤ 30 * Minute :=
  ⟨by decide, by decide,
    marked_solid_parents_in_window Example.m1Solid Example.m2 2 (by decide) (by decide)⟩

/-- C3, as stated, fails: in the store that holds only `m2`, whose strong parent
`m1` is unknown, no parent has a known issuing time, so the stated condition
holds, yet `areParentMessagesValid` returns false. -/
theorem areParentMessagesValid_unknown_parent_counterexample :
    ¬ (areParentMessagesValid Example.onlyM2 Example.m2 = true ↔
        ∀ p ∈ Example.m2.strongParents ++ Example.m2.weakParents, p ≠ EmptyMessageID →
          ∀ pm, Storage.Message Example.onlyM2 p = some pm →
            pm.issuingTime ≤ Example.m2.issuingTime ∧
              Example.m2.issuingTime - pm.issuingTime ≤ 30 * Minute) := by
  intro h
  have hf : areParentMessagesValid Example.onlyM2 Example.m2 = false := by decide
  have ht : areParentMessagesValid Example.onlyM2 Example.m2 = true := by
    apply h.mpr
    intro p hp hne pm hpm
    have hp' : p = 1 ∨ p = 0 := by simpa [Example.m2] using hp
    rcases hp' with e | e
    · subst e
      have : Storage.Message Example.onlyM2 1 = none := by decide
      rw [this] at hpm; cases hpm
    · exact absurd e hne
  rw [hf] at ht
  cases ht

/-- C3, amended: `areParentMessagesValid` returns true exactly when every
non-genesis parent is present in storage with an issuing time not later than the
message's and at most 30 minutes earlier, and is not marked invalid; the genesis
parent is always valid. -/
theorem areParentMessagesValid_spec (t : Tangle) (msg : Message) :
    (areParentMessagesValid t msg = true ↔
      ∀ p ∈ msg.strongParents ++ msg.weakParents, p ≠ EmptyMessageID →
        (∃ pm, Storage.Message t p = some pm ∧
          pm.issuingTime ≤ msg.issuingTime ∧
          msg.issuingTime - pm.issuingTime ≤ 30 * Minute) ∧
        t.IsInvalid p = false) ∧
    ∀ c, isParentMessageValid t EmptyMessageID c = true := by
  constructor
  · rw [areParentMessagesValid_iff]
    have hw : ∀ (c p : Int), InWindow c p ↔ (p ≤ c ∧ c - p ≤ 30 * Minute) := by
      intro c p
      simp only [InWindow, minParentsTimeDifference, maxParentsTimeDifference]
      unfold Duration Time at *
      constructor <;> intro h <;> constructor <;> omega
    constructor
    · intro h p hp hne
      rcases (isParentMessageValid_iff t p msg.issuingTime).mp (h p hp) with h1 | ⟨⟨pm, b, c⟩, d⟩
      · exact absurd h1 hne
      · exact ⟨⟨pm, b, (hw _ _).mp c⟩, d⟩
    · intro h p hp
      rw [isParentMessageValid_iff]
      by_cases e : p = EmptyMessageID
      · exact Or.inl e
      · obtain ⟨⟨pm, b, c⟩, d⟩ := h p hp e
        exact Or.inr ⟨⟨pm, b, (hw _ _).mpr c⟩, d⟩
  · intro c
    rw [isParentMessageValid_iff]
    exact Or.inl rfl

theorem isSolid_of_lookup {t : Tangle} {id : MessageID} {md : MessageMetadata}
    (h : Storage.MessageMetadata t id = some md) : t.IsSolid id = md.solid := by
  unfold Tangle.IsSolid; rw [h]

theorem isInvalid_of_lookup {t : Tangle} {id : MessageID} {md : MessageMetadata}
    (h : Storage.MessageMetadata t id = some md) : t.IsInvalid id = md.invalid := by
  unfold Tangle.IsInvalid; rw [h]

theorem hasMetadata_of_lookup {t : Tangle} {id : MessageID} {md : MessageMetadata}
    (h : Storage.MessageMetadata t id = some md) : t.HasMetadata id = true := by
  unfold Tangle.HasMetadata; rw [h]; rfl

theorem lookup_of_isSolid {t : Tangle} {id : MessageID} (h : t.IsSolid id = true) :
    ∃ md, Storage.MessageMetadata t id = some md ∧ md.solid = true := by
  unfold Tangle.IsSolid at h
  cases hm : Storage.MessageMetadata t id with
  | none => rw [hm] at h; cases h
  | some md => rw [hm] at h; exact ⟨md, rfl, h⟩

theorem hasMetadata_of_isSolid {t : Tangle} {id : MessageID} (h : t.IsSolid id = true) :
    t.HasMetadata id = true := by
  obtain ⟨md, hmd, _⟩ := lookup_of_isSolid h
  exact hasMetadata_of_lookup hmd

/-- C4, as stated, fails: in the store where the parent `m1` of `m2` is marked
solid and also invalid, `isMessageSolid` returns true on `m2`, although a parent
is marked invalid. -/
theorem isMessageSolid_invalid_parent_counterexample :
    Storage.Message Example.solidInvalidParent 2 = some Example.m2 ∧
    Storage.MessageMetadata Example.solidInvalidParent 2 = some ⟨2, false, false⟩ ∧
    ¬ ((isMessageSolid Example.solidInvalidParent (some Example.m2) (some 2)).1 = true ↔
        ∀ p ∈ Example.m2.strongParents ++ Example.m2.weakParents, p ≠ EmptyMessageID →
          (∃ pm, Storage.Message Example.solidInvalidParent p = some pm) ∧
            ∃ pmd, Storage.MessageMetadata Example.solidInvalidParent p = some pmd ∧
              pmd.solid = true ∧ pmd.invalid = false) := by
  refine ⟨by decide, by decide, ?_⟩
  intro h
  obtain ⟨_, pmd, hp, _, hi⟩ := h.mp (by decide) 1 (by decide) (by decide)
  have h1 : Storage.MessageMetadata Example.solidInvalidParent 1 = some ⟨1, true, true⟩ := by
    decide
  rw [h1] at hp
  cases hp
  cases hi

/-- C4, amended: for a message whose stored metadata is not yet marked solid,
`isMessageSolid` returns true exactly when every non-genesis strong and weak
parent has a stored metadata object that is marked solid, in every state; the
invalid flag of a parent and the presence of its message play no part. In a state
reached from a store without flags this is exactly when every such parent is
known locally (message and metadata stored), marked solid and not marked
invalid. -/
theorem isMessageSolid_iff_parents_solid (t : Tangle) (msg : Message)
    (md : MessageMetadata) (hmd : Storage.MessageMetadata t msg.id = some md)
    (hns : md.solid = false) :
    ((isMessageSolid t (some msg) (some msg.id)).1 = true ↔
      ∀ p ∈ msg.strongParents ++ msg.weakParents, p ≠ EmptyMessageID →
        ∃ pmd, Storage.MessageMetadata t p = some pmd ∧ pmd.solid = true) ∧
    (∀ t0 : Tangle, t0.NoFlags → Reachable t0 t →
      ((isMessageSolid t (some msg) (some msg.id)).1 = true ↔
        ∀ p ∈ msg.strongParents ++ msg.weakParents, p ≠ EmptyMessageID →
          (∃ pm, Storage.Message t p = some pm) ∧
            ∃ pmd, Storage.MessageMetadata t p = some pmd ∧
              pmd.solid = true ∧ pmd.invalid = false)) := by
  have hfst : (isMessageSolid t (some msg) (some msg.id)).1 = true ↔ t.ParentsSolid msg := by
    rw [isMessageSolid_fst, hasMetadata_of_lookup hmd, isSolid_of_lookup hmd, hns]
    simp only [Bool.true_and, Bool.false_or]
    rw [parentsSolid_iff]
  constructor
  · rw [hfst]
    constructor
    · intro h p hp hne
      exact lookup_of_isSolid (h p hp hne)
    · intro h p hp hne
      obtain ⟨pmd, hpmd, hsol⟩ := h p hp hne
      rw [isSolid_of_lookup hpmd]; exact hsol
  · intro t0 h0 hr
    have hj := reachable_flagsJustified h0 hr
    rw [hfst]
    constructor
    · intro h p hp hne
      have hs := h p hp hne
      obtain ⟨hi, pm, hpm, _⟩ := hj.solid p hs
      obtain ⟨pmd, hpmd, hsol⟩ := lookup_of_isSolid hs
      refine ⟨⟨pm, hpm⟩, pmd, hpmd, hsol, ?_⟩
      rw [isInvalid_of_lookup hpmd] at hi
      exact hi
    · intro h p hp hne
      obtain ⟨_, pmd, hpmd, hsol, _⟩ := h p hp hne
      rw [isSolid_of_lookup hpmd]; exact hsol

theorem isMessageSolid_iff_parents_solid_witness :
    Storage.MessageMetadata Example.solidInvalidParent 2 = some ⟨2, false, false⟩ ∧
    (isMessageSolid Example.solidInvalidParent (some Example.m2) (some 2)).1 = true ∧
    ((isMessageSolid Example.solidInvalidParent (some Example.m2) (some Example.m2.id)).1
        = true ↔
      ∀ p ∈ Example.m2.strongParents ++ Example.m2.weakParents, p ≠ EmptyMessageID →
        ∃ pmd, Storage.MessageMetadata Example.solidInvalidParent p = some pmd ∧
          pmd.solid = true) ∧
    Tangle.empty.NoFlags ∧ Reachable Tangle.empty Example.m1Solid ∧
    Storage.MessageMetadata Example.m1Solid Example.m2.id = some ⟨2, false, false⟩ ∧
    (isMessageSolid Example.m1Solid (some Example.m2) (some Example.m2.id)).1 = true ∧
    ((isMessageSolid Example.m1Solid (some Example.m2) (some Example.m2.id)).1 = true ↔
      ∀ p ∈ Example.m2.strongParents ++ Example.m2.weakParents, p ≠ EmptyMessageID →
        (∃ pm, Storage.Message Example.m1Solid p = some pm) ∧
          ∃ pmd, Storage.MessageMetadata Example.m1Solid p = some pmd ∧
            pmd.solid = true ∧ pmd.invalid = false) :=
  ⟨by decide, by decide,
    (isMessageSolid_iff_parents_solid Example.solidInvalidParent Example.m2
      ⟨2, false, false⟩ (by decide) rfl).1,
    by decide, Example.m1Solid_reachable, by decide, by decide,
    (isMessageSolid_iff_parents_solid Example.m1Solid Example.m2 ⟨2, false, false⟩
      (by decide) rfl).2 Tangle.empty (by decide) Example.m1Solid_reachable⟩

/-- C5: for a message whose metadata is not marked solid, `isMessageSolid` calls
`StoreIfMissingMessageMetadata` once for every non-empty parent identifier, strong
parents first, in order, whatever the flags of the other parents: the calls made
are exactly the non-empty strong and weak parent identifiers. -/
theorem isMessageSolid_queries_every_parent (t : Tangle) (msg : Message) (ref : MessageID)
    (md : MessageMetadata) (hmd : Storage.MessageMetadata t ref = some md)
    (hns : md.solid = false) :
    (isMessageSolid t (some msg) (some ref)).2.storeIfMissingCalls
      = t.storeIfMissingCalls ++
        (msg.strongParents ++ msg.weakParents).filter (fun p => p != EmptyMessageID) := by
  have hx := isMessageSolid_extends t msg ref
  rw [hasMetadata_of_lookup hmd, isSolid_of_lookup hmd, hns] at hx
  simpa [Message.parentIDs] using hx.calls

theorem isMessageSolid_queries_every_parent_witness :
    Storage.MessageMetadata Example.onlyTwoParents 9 = some ⟨9, false, false⟩ ∧
      (isMessageSolid Example.onlyTwoParents (some Example.twoParents) (some 9)).1 = false ∧
      (isMessageSolid Example.onlyTwoParents (some Example.twoParents)
          (some 9)).2.storeIfMissingCalls = [7, 8] :=
  ⟨by decide, by decide,
    isMessageSolid_queries_every_parent Example.onlyTwoParents Example.twoParents 9
      ⟨9, false, false⟩ (by decide) rfl⟩

theorem not_valid_of_bad_parent {t : Tangle} {msg : Message} {p : MessageID} {pm : Message}
    (hp : p ∈ msg.parentIDs) (hne : p ≠ EmptyMessageID)
    (hpm : Storage.Message t p = some pm)
    (hw : ¬ InWindow msg.issuingTime pm.issuingTime) :
    areParentMessagesValid t msg = false := by
  cases hv : areParentMessagesValid t msg with
  | false => rfl
  | true =>
    exfalso
    rw [areParentMessagesValid_iff] at hv
    rcases (isParentMessageValid_iff t p msg.issuingTime).mp (hv p hp) with h1 | ⟨⟨pm', h2, h3⟩, _⟩
    · exact hne h1
    · rw [hpm] at h2
      cases h2
      exact hw h3

theorem not_inWindow_iff (c p : Int) :
    ¬ InWindow c p ↔ (c < p ∨ c - p > 30 * Minute) := by
  simp only [InWindow, minParentsTimeDifference, maxParentsTimeDifference, Minute, Second]
  unfold Duration Time at *
  constructor
  · intro h
    by_contra hc
    apply h
    constructor <;> omega
  · intro h hc
    omega

/-- C6, as stated, fails: in the reachable store `lateInvalid` the message `late`
has its only non-genesis parent `m1` marked solid and was issued 31 minutes after
it, yet a call of `checkMessageSolidity` on it emits nothing, because the message
is already marked invalid. -/
theorem check_already_invalid_counterexample :
    Reachable Tangle.empty Example.lateInvalid ∧
      Storage.Message Example.lateInvalid Example.late.id = some Example.late ∧
      (∀ p ∈ Example.late.strongParents ++ Example.late.weakParents,
        p ≠ EmptyMessageID → Example.lateInvalid.IsSolid p = true) ∧
      Storage.Message Example.lateInvalid 1 = some Example.m1 ∧
      1 ∈ Example.late.strongParents ++ Example.late.weakParents ∧
      Example.late.issuingTime - Example.m1.issuingTime > 30 * Minute ∧
      (checkMessageSolidity Example.lateInvalid (some Example.late)
          (some Example.late.id)).2.events = Example.lateInvalid.events ∧
      Event.MessageInvalid Example.late.id ∉
        (checkMessageSolidity Example.lateInvalid (some Example.late)
          (some Example.late.id)).2.events.drop Example.lateInvalid.events.length :=
  ⟨Example.lateInvalid_reachable, by decide, by decide, by decide, by decide, by decide,
    by decide, by decide⟩

/-- C6, amended: for every message whose metadata is stored and not already marked
invalid, whose non-genesis parents are all marked solid, and for which some stored
non-genesis parent was issued later than the message or more than 30 minutes
earlier, `checkMessageSolidity` marks the message invalid, emits exactly
`MessageInvalid` for it (so no `MessageSolid`), changes no solid flag and returns
no approvers to visit. -/
theorem check_marks_invalid (t : Tangle) (msg : Message) (md : MessageMetadata)
    (hmd : Storage.MessageMetadata t msg.id = some md) (hni : md.invalid = false)
    (hps : ∀ p ∈ msg.strongParents ++ msg.weakParents, p ≠ EmptyMessageID →
      t.IsSolid p = true)
    (hbad : ∃ p ∈ msg.strongParents ++ msg.weakParents, p ≠ EmptyMessageID ∧
      ∃ pm, Storage.Message t p = some pm ∧
        (msg.issuingTime < pm.issuingTime ∨
          msg.issuingTime - pm.issuingTime > 30 * Minute)) :
    (checkMessageSolidity t (some msg) (some msg.id)).1 = [] ∧
      (checkMessageSolidity t (some msg) (some msg.id)).2.IsInvalid msg.id = true ∧
      (∀ j, (checkMessageSolidity t (some msg) (some msg.id)).2.IsSolid j = t.IsSolid j) ∧
      (checkMessageSolidity t (some msg) (some msg.id)).2.events
        = t.events ++ [Event.MessageInvalid msg.id] := by
  obtain ⟨p, hp, hne, pm, hpm, hw⟩ := hbad
  have hv : areParentMessagesValid t msg = false :=
    not_valid_of_bad_parent hp hne hpm ((not_inWindow_iff _ _).mpr hw)
  have hm := hasMetadata_of_lookup hmd
  have hi : t.IsInvalid msg.id = false := by rw [isInvalid_of_lookup hmd]; exact hni
  have hps' : t.ParentsSolid msg := hps
  have h1 : (isMessageSolid t (some msg) (some msg.id)).1 = true := by
    rw [isMessageSolid_fst, hm, (parentsSolid_iff t msg).mpr hps']; simp
  have hx := isMessageSolid_extends t msg msg.id
  have hsame := hx.same (by
    intro q hq
    split at hq
    · have hq' : q ∈ msg.parentIDs ∧ q ≠ EmptyMessageID := by simpa using hq
      exact hasMetadata_of_isSolid (hps' q hq'.1 hq'.2)
    · cases hq)
  obtain ⟨_, _, vs, vi, _, ve, _⟩ :=
    becameInvalid_views msg.id (Event.MessageInvalid msg.id) hx hm
  rw [checkMessageSolidity_eq, if_neg (by simp [h1]), if_pos hv, if_neg (by simp [hi])]
  refine ⟨rfl, ?_, vs, ?_⟩
  · show Tangle.IsInvalid _ msg.id = true
    rw [vi]; simp
  · show Tangle.events _ = _
    rw [ve, hsame.2]

theorem check_marks_invalid_witness :
    Storage.MessageMetadata Example.lateStored Example.late.id = some ⟨2, false, false⟩ ∧
      (checkMessageSolidity Example.lateStored (some Example.late) (some Example.late.id)).1
        = [] ∧
      (checkMessageSolidity Example.lateStored (some Example.late)
        (some Example.late.id)).2.IsInvalid Example.late.id = true ∧
      (∀ j, (checkMessageSolidity Example.lateStored (some Example.late)
        (some Example.late.id)).2.IsSolid j = Example.lateStored.IsSolid j) ∧
      (checkMessageSolidity Example.lateStored (some Example.late)
        (some Example.late.id)).2.events
        = Example.lateStored.events ++ [Event.MessageInvalid Example.late.id] :=
  ⟨by decide,
    check_marks_invalid Example.lateStored Example.late ⟨2, false, false⟩ (by decide) rfl
      (by decide) ⟨1, by decide, by decide, Example.m1, by decide, Or.inr (by decide)⟩⟩

/-- C7: in a reachable state, for a stored message (message and metadata) with a
non-empty parent whose metadata is not stored, `checkMessageSolidity` calls
`StoreIfMissingMessageMetadata` with that parent, which stores a stub for it and
emits `MissingMessage`; the message stays neither solid nor invalid, every event
emitted by the call is a `MissingMessage` (so neither `MessageSolid` nor
`MessageInvalid`), and no approvers are returned. -/
theorem check_missing_parent (t0 t : Tangle) (h0 : t0.NoFlags) (hr : Reachable t0 t)
    (msg : Message) (md : MessageMetadata) (p : MessageID)
    (hmsg : Storage.Message t msg.id = some msg)
    (hmd : Storage.MessageMetadata t msg.id = some md)
    (hp : p ∈ msg.strongParents ++ msg.weakParents) (hne : p ≠ EmptyMessageID)
    (hmiss : Storage.MessageMetadata t p = none) :
    (checkMessageSolidity t (some msg) (some msg.id)).1 = [] ∧
      Storage.MessageMetadata (checkMessageSolidity t (some msg) (some msg.id)).2 p
        = some ⟨p, false, false⟩ ∧
      (checkMessageSolidity t (some msg) (some msg.id)).2.storeIfMissingCalls
        = t.storeIfMissingCalls ++
          (msg.strongParents ++ msg.weakParents).filter (fun q => q != EmptyMessageID) ∧
      (checkMessageSolidity t (some msg) (some msg.id)).2.IsSolid msg.id = false ∧
      (checkMessageSolidity t (some msg) (some msg.id)).2.IsInvalid msg.id = false ∧
      ∃ ev, (checkMessageSolidity t (some msg) (some msg.id)).2.events = t.events ++ ev ∧
        Event.MissingMessage p ∈ ev ∧ ∀ e ∈ ev, ∃ q, e = Event.MissingMessage q := by
  have hj := reachable_flagsJustified h0 hr
  have hpn : t.IsSolid p = false := by unfold Tangle.IsSolid; rw [hmiss]
  have hns : t.IsSolid msg.id = false := by
    cases hh : t.IsSolid msg.id with
    | false => rfl
    | true =>
      obtain ⟨_, m, hm, hpar⟩ := hj.solid msg.id hh
      rw [hmsg] at hm; cases hm
      rw [(hpar p hp hne).1] at hpn; cases hpn
  have hni : t.IsInvalid msg.id = false := by
    cases hh : t.IsInvalid msg.id with
    | false => rfl
    | true =>
      obtain ⟨m, hm, hpar, _⟩ := hj.invalid msg.id hh
      rw [hmsg] at hm; cases hm
      rw [hpar p hp hne] at hpn; cases hpn
  have hm := hasMetadata_of_lookup hmd
  have hnot : ¬ t.ParentsSolid msg := by
    intro h; rw [h p hp hne] at hpn; cases hpn
  have h1 : (isMessageSolid t (some msg) (some msg.id)).1 = false := by
    rw [isMessageSolid_fst, hm, hns]
    cases hall : msg.parentIDs.all (fun p => p == EmptyMessageID || t.IsSolid p) with
    | false => rfl
    | true => exact absurd ((parentsSolid_iff t msg).mp hall) hnot
  have hx := isMessageSolid_extends t msg msg.id
  rw [hm, hns] at hx
  simp only [Bool.not_false, Bool.and_self, if_true] at hx
  have hpin : p ∈ msg.parentIDs.filter (fun q => q != EmptyMessageID) := by
    simp [Message.parentIDs, hne]
    simpa using hp
  rw [checkMessageSolidity_eq, if_pos h1]
  refine ⟨rfl, hx.stub p hmiss hpin, hx.calls, ?_, ?_, ?_⟩
  · show Tangle.IsSolid _ msg.id = false
    rw [hx.isSolid]; exact hns
  · show Tangle.IsInvalid _ msg.id = false
    rw [hx.isInvalid]; exact hni
  · obtain ⟨ev, hev, hall, hmissing⟩ := hx.events
    refine ⟨ev, hev, ?_, ?_⟩
    · exact hmissing p hpin (by unfold Tangle.HasMetadata; rw [hmiss]; rfl)
    · intro e he
      obtain ⟨q, hq, _⟩ := hall e he
      exact ⟨q, hq⟩

theorem check_missing_parent_witness :
    Tangle.empty.NoFlags ∧ Reachable Tangle.empty Example.onlyM2 ∧
      Storage.MessageMetadata Example.onlyM2 1 = none ∧
      (checkMessageSolidity Example.onlyM2 (some Example.m2) (some Example.m2.id)).1 = [] ∧
      Storage.MessageMetadata
        (checkMessageSolidity Example.onlyM2 (some Example.m2) (some Example.m2.id)).2 1
        = some ⟨1, false, false⟩ ∧
      (checkMessageSolidity Example.onlyM2 (some Example.m2)
        (some Example.m2.id)).2.storeIfMissingCalls
        = Example.onlyM2.storeIfMissingCalls ++
          (Example.m2.strongParents ++ Example.m2.weakParents).filter
            (fun q => q != EmptyMessageID) ∧
      (checkMessageSolidity Example.onlyM2 (some Example.m2)
        (some Example.m2.id)).2.IsSolid Example.m2.id = false ∧
      (checkMessageSolidity Example.onlyM2 (some Example.m2)
        (some Example.m2.id)).2.IsInvalid Example.m2.id = false ∧
      ∃ ev, (checkMessageSolidity Example.onlyM2 (some Example.m2)
          (some Example.m2.id)).2.events = Example.onlyM2.events ++ ev ∧
        Event.MissingMessage 1 ∈ ev ∧ ∀ e ∈ ev, ∃ q, e = Event.MissingMessage q :=
  ⟨by decide, Reachable.store _ _ Reachable.init, by decide,
    check_missing_parent Tangle.empty Example.onlyM2 (by decide)
      (Reachable.store _ _ Reachable.init) Example.m2 ⟨2, false, false⟩ 1
      (by decide) (by decide) (by decide) (by decide) (by decide)⟩

theorem pastCone_solid {t : Tangle} (hj : t.FlagsJustified) {id a : MessageID}
    (hs : t.IsSolid id = true) (hc : InPastCone t id a) :
    t.IsSolid a = true ∧ ∃ m, Storage.Message t a = some m := by
  induction hc with
  | parent p msg hm hp hne =>
    obtain ⟨_, m, hm', hpar⟩ := hj.solid id hs
    rw [hm] at hm'; cases hm'
    obtain ⟨h1, pm, h2, _⟩ := hpar p hp hne
    exact ⟨h1, pm, h2⟩
  | step a p msg _ hm hp hne ih =>
    obtain ⟨_, m, hm', hpar⟩ := hj.solid a ih.1
    rw [hm] at hm'; cases hm'
    obtain ⟨h1, pm, h2, _⟩ := hpar p hp hne
    exact ⟨h1, pm, h2⟩

theorem missing_ne_solid {ev : List Event} {id : MessageID}
    (h : ∀ e ∈ ev, ∃ q, e = Event.MissingMessage q) : Event.MessageSolid id ∉ ev := by
  intro hm
  obtain ⟨q, hq⟩ := h _ hm
  cases hq

/-- C9: in every reachable state a message marked solid is stored and has every
non-genesis parent marked solid, hence every message of its past cone is stored
and marked solid; and whenever a call of `checkMessageSolidity` on a stored
message emits `MessageSolid` for it, the whole past cone of that message is
stored and marked solid in the state the call leaves. -/
theorem solid_pastCone (t0 t : Tangle) (h0 : t0.NoFlags) (hr : Reachable t0 t) :
    (∀ id, t.IsSolid id = true →
      ∃ msg, Storage.Message t id = some msg ∧
        ∀ p ∈ msg.strongParents ++ msg.weakParents, p ≠ EmptyMessageID →
          t.IsSolid p = true) ∧
    (∀ id a, t.IsSolid id = true → InPastCone t id a →
      t.IsSolid a = true ∧ ∃ m, Storage.Message t a = some m) ∧
    (∀ msg ev, Storage.Message t msg.id = some msg →
      (checkMessageSolidity t (some msg) (some msg.id)).2.events = t.events ++ ev →
      Event.MessageSolid msg.id ∈ ev →
      ∀ a, InPastCone (checkMessageSolidity t (some msg) (some msg.id)).2 msg.id a →
        (checkMessageSolidity t (some msg) (some msg.id)).2.IsSolid a = true ∧
          ∃ m, Storage.Message (checkMessageSolidity t (some msg) (some msg.id)).2 a
            = some m) := by
  have hj := reachable_flagsJustified h0 hr
  refine ⟨?_, fun id a hs hc => pastCone_solid hj hs hc, ?_⟩
  · intro id hs
    obtain ⟨_, msg, hm, hpar⟩ := hj.solid id hs
    exact ⟨msg, hm, fun p hp hne => (hpar p hp hne).1⟩
  · intro msg ev hmsg hev hmem a hc
    have hj' := flagsJustified_check t msg hj hmsg
    refine pastCone_solid hj' ?_ hc
    have ho := checkMessageSolidity_outcome t msg msg.id
    generalize checkMessageSolidity t (some msg) (some msg.id) = r at ho hev
    cases ho with
    | unchanged t1 ids hx _ =>
      exfalso
      obtain ⟨ev1, hev1, hall, _⟩ := hx.events
      simp only at hev
      rw [hev1] at hev
      have := List.append_cancel_left hev
      subst this
      exact missing_ne_solid (fun e he => (hall e he).imp fun q hq => hq.1) hmem
    | becameInvalid t1 ids hx _ hm hni hs hv =>
      exfalso
      obtain ⟨ev1, hev1, hall, _⟩ := hx.events
      obtain ⟨_, _, _, _, _, ve, _⟩ :=
        becameInvalid_views msg.id (Event.MessageInvalid msg.id) hx hm
      simp only at hev
      rw [ve, hev1, List.append_assoc] at hev
      have := List.append_cancel_left hev
      subst this
      rcases List.mem_append.mp hmem with h | h
      · exact missing_ne_solid (fun e he => (hall e he).imp fun q hq => hq.1) h
      · simp at h
    | becameSolid t1 ids hx _ hm hns hps hv =>
      obtain ⟨_, _, vs, _⟩ := becameSolid_views msg.id (Event.MessageSolid msg.id) hx hm
      show Tangle.IsSolid _ msg.id = true
      rw [vs]; simp

theorem solid_pastCone_witness :
    Tangle.empty.NoFlags ∧ Reachable Tangle.empty Example.m1Solid ∧
    (∀ id, Example.m1Solid.IsSolid id = true →
      ∃ msg, Storage.Message Example.m1Solid id = some msg ∧
        ∀ p ∈ msg.strongParents ++ msg.weakParents, p ≠ EmptyMessageID →
          Example.m1Solid.IsSolid p = true) ∧
    (∀ id a, Example.m1Solid.IsSolid id = true → InPastCone Example.m1Solid id a →
      Example.m1Solid.IsSolid a = true ∧ ∃ m, Storage.Message Example.m1Solid a = some m) ∧
    (∀ msg ev, Storage.Message Example.m1Solid msg.id = some msg →
      (checkMessageSolidity Example.m1Solid (some msg) (some msg.id)).2.events
        = Example.m1Solid.events ++ ev →
      Event.MessageSolid msg.id ∈ ev →
      ∀ a, InPastCone (checkMessageSolidity Example.m1Solid (some msg) (some msg.id)).2
          msg.id a →
        (checkMessageSolidity Example.m1Solid (some msg) (some msg.id)).2.IsSolid a = true ∧
          ∃ m, Storage.Message (checkMessageSolidity Example.m1Solid (some msg)
            (some msg.id)).2 a = some m) :=
  ⟨by decide, Example.m1Solid_reachable,
    solid_pastCone Tangle.empty Example.m1Solid (by decide) Example.m1Solid_reachable⟩

theorem lookup_of_isInvalid {t : Tangle} {id : MessageID} (h : t.IsInvalid id = true) :
    ∃ md, Storage.MessageMetadata t id = some md ∧ md.invalid = true := by
  unfold Tangle.IsInvalid at h
  cases hm : Storage.MessageMetadata t id with
  | none => rw [hm] at h; cases h
  | some md => rw [hm] at h; exact ⟨md, rfl, h⟩

theorem walk_nil (fuel : Nat) (t : Tangle) :
    WalkMessages checkMessageSolidity fuel [] t = some t := by
  cases fuel <;> rfl

theorem walk_cons_visit (fuel : Nat) (id : MessageID) (stack : List MessageID) (t : Tangle)
    (msg : Message) (md : MessageMetadata) (hm : Storage.Message t id = some msg)
    (hd : Storage.MessageMetadata t id = some md) :
    WalkMessages checkMessageSolidity (fuel + 1) (id :: stack) t
      = WalkMessages checkMessageSolidity fuel
          (stack ++ (checkMessageSolidity t (some msg) (some id)).1)
          (checkMessageSolidity t (some msg) (some id)).2 := by
  rw [WalkMessages, hm, hd]

theorem walk_cons_skip (fuel : Nat) (id : MessageID) (stack : List MessageID) (t : Tangle)
    (h : Storage.Message t id = none ∨ Storage.MessageMetadata t id = none) :
    WalkMessages checkMessageSolidity (fuel + 1) (id :: stack) t
      = WalkMessages checkMessageSolidity fuel stack t := by
  rw [WalkMessages]
  rcases h with h | h
  · rw [h]
  · rw [h]
    cases Storage.Message t id <;> rfl

theorem check_flagged_noop {t : Tangle} (hj : t.FlagsJustified) {msg : Message}
    (hmsg : Storage.Message t msg.id = some msg)
    (hflag : t.IsSolid msg.id = true ∨ t.IsInvalid msg.id = true) :
    (checkMessageSolidity t (some msg) (some msg.id)).1 = [] ∧
      (checkMessageSolidity t (some msg) (some msg.id)).2.messageStorage
        = t.messageStorage ∧
      (checkMessageSolidity t (some msg) (some msg.id)).2.messageMetadataStorage
        = t.messageMetadataStorage ∧
      (checkMessageSolidity t (some msg) (some msg.id)).2.approverStorage
        = t.approverStorage ∧
      (checkMessageSolidity t (some msg) (some msg.id)).2.events = t.events := by
  have hx := isMessageSolid_extends t msg msg.id
  have hps : t.IsSolid msg.id = true ∨ t.ParentsSolid msg := by
    rcases hflag with h | h
    · exact Or.inl h
    · obtain ⟨m, hm, hp, _⟩ := hj.invalid msg.id h
      rw [hmsg] at hm; cases hm
      exact Or.inr hp
  have hm : t.HasMetadata msg.id = true := by
    rcases hflag with h | h
    · exact hasMetadata_of_isSolid h
    · obtain ⟨md, hmd, _⟩ := lookup_of_isInvalid h
      exact hasMetadata_of_lookup hmd
  have hsame := hx.same (by
    intro q hq
    split at hq
    · rename_i hc
      have hq' : q ∈ msg.parentIDs ∧ q ≠ EmptyMessageID := by simpa using hq
      rcases hps with h | h
      · rw [h] at hc; simp at hc
      · exact hasMetadata_of_isSolid (h q hq'.1 hq'.2)
    · cases hq)
  have h1 : (isMessageSolid t (some msg) (some msg.id)).1 = true := by
    rw [isMessageSolid_fst, hm]
    rcases hps with h | h
    · rw [h]; rfl
    · rw [(parentsSolid_iff t msg).mpr h]; simp
  rw [checkMessageSolidity_eq, if_neg (by simp [h1])]
  rcases hflag with h | h
  · have hv := valid_of_solid hj hmsg h
    rw [if_neg (by simp [hv]), if_pos h]
    exact ⟨rfl, hx.messages, hsame.1, hx.approvers, hsame.2⟩
  · have hv := not_valid_of_invalid hj hmsg h
    rw [if_pos hv, if_pos h]
    exact ⟨rfl, hx.messages, hsame.1, hx.approvers, hsame.2⟩

/-- C10: in a reachable state, `Solidify` on a message already marked solid or
already marked invalid finishes after the single visit of that message (one unit
of fuel suffices, so nothing was enqueued: the visit returns no approvers) and
leaves the stored messages, every metadata object (no flag changes, no stub is
added), the approvers and the event log (no `MessageSolid`, no `MessageInvalid`)
exactly as they were. -/
theorem solidify_replay_noop (t0 t : Tangle) (h0 : t0.NoFlags) (hr : Reachable t0 t)
    (id : MessageID) (hflag : t.IsSolid id = true ∨ t.IsInvalid id = true) (fuel : Nat) :
    ∃ t', Solidify (fuel + 1) t id = some t' ∧
      t'.messageStorage = t.messageStorage ∧
      t'.messageMetadataStorage = t.messageMetadataStorage ∧
      t'.approverStorage = t.approverStorage ∧
      t'.events = t.events ∧
      ∀ msg, Storage.Message t id = some msg →
        (checkMessageSolidity t (some msg) (some id)).1 = [] := by
  have hj := reachable_flagsJustified h0 hr
  have hstored : ∃ msg, Storage.Message t id = some msg := by
    rcases hflag with h | h
    · obtain ⟨_, m, hm, _⟩ := hj.solid id h
      exact ⟨m, hm⟩
    · obtain ⟨m, hm, _⟩ := hj.invalid id h
      exact ⟨m, hm⟩
  obtain ⟨msg, hmsg⟩ := hstored
  have hid := message_id_of_lookup t id msg hmsg
  subst hid
  have hmd : ∃ md, Storage.MessageMetadata t msg.id = some md := by
    rcases hflag with h | h
    · obtain ⟨md, hmd, _⟩ := lookup_of_isSolid h
      exact ⟨md, hmd⟩
    · obtain ⟨md, hmd, _⟩ := lookup_of_isInvalid h
      exact ⟨md, hmd⟩
  obtain ⟨md, hmd⟩ := hmd
  obtain ⟨n1, n2, n3, n4, n5⟩ := check_flagged_noop hj hmsg hflag
  refine ⟨(checkMessageSolidity t (some msg) (some msg.id)).2, ?_, n2, n3, n4, n5, ?_⟩
  · unfold Solidify
    rw [walk_cons_visit fuel msg.id [] t msg md hmsg hmd, n1]
    exact walk_nil fuel _
  · intro m hm
    rw [hmsg] at hm; cases hm
    exact n1

theorem solidify_replay_noop_witness :
    Tangle.empty.NoFlags ∧ Reachable Tangle.empty Example.lateInvalid ∧
      (Example.lateInvalid.IsSolid 1 = true ∨ Example.lateInvalid.IsInvalid 1 = true) ∧
      ∃ t', Solidify (0 + 1) Example.lateInvalid 1 = some t' ∧
        t'.messageStorage = Example.lateInvalid.messageStorage ∧
        t'.messageMetadataStorage = Example.lateInvalid.messageMetadataStorage ∧
        t'.approverStorage = Example.lateInvalid.approverStorage ∧
        t'.events = Example.lateInvalid.events ∧
        ∀ msg, Storage.Message Example.lateInvalid 1 = some msg →
          (checkMessageSolidity Example.lateInvalid (some msg) (some 1)).1 = [] :=
  ⟨by decide, Example.lateInvalid_reachable, by decide,
    solidify_replay_noop Tangle.empty Example.lateInvalid (by decide)
      Example.lateInvalid_reachable 1 (Or.inl (by decide)) 0⟩

/-! ## Termination of the walk -/

theorem pending_congr {t t' : Tangle} (ha : t'.approverStorage = t.approverStorage)
    (hs : ∀ j, t'.IsSolid j = t.IsSolid j) : t'.pendingApprovers = t.pendingApprovers := by
  unfold Tangle.pendingApprovers
  rw [ha]
  congr 1
  funext a
  rw [hs]

theorem pending_split (l : List Approver) (s : MessageID → Bool) (id : MessageID)
    (h : s id = false) :
    (l.filter (fun a => a.referencedMessageID == id)).length +
        l.countP (fun a => !(decide (a.referencedMessageID = id) || s a.referencedMessageID))
      = l.countP (fun a => !s a.referencedMessageID) := by
  induction l with
  | nil => rfl
  | cons a l ih =>
    by_cases e : a.referencedMessageID = id
    · simp only [List.filter_cons, List.countP_cons, e, beq_self_eq_true, if_true,
        List.length_cons, decide_True, Bool.true_or, Bool.not_true, h, Bool.not_false]
      simp only [e] at ih
      simp at ih ⊢
      omega
    · have e' : (a.referencedMessageID == id) = false := by simpa using e
      simp only [List.filter_cons, List.countP_cons, e', e, decide_False, Bool.false_or]
      simp at ih ⊢
      omega

theorem check_measure (t : Tangle) (msg : Message) :
    (checkMessageSolidity t (some msg) (some msg.id)).1.length +
        (checkMessageSolidity t (some msg) (some msg.id)).2.pendingApprovers
      ≤ t.pendingApprovers := by
  have ho := checkMessageSolidity_outcome t msg msg.id
  generalize checkMessageSolidity t (some msg) (some msg.id) = r at ho
  cases ho with
  | unchanged t1 ids hx _ =>
    simp [pending_congr hx.approvers hx.isSolid]
  | becameInvalid t1 ids hx _ hm hni hs hv =>
    obtain ⟨_, va, vs, _⟩ := becameInvalid_views msg.id (Event.MessageInvalid msg.id) hx hm
    simp [pending_congr va vs]
  | becameSolid t1 ids hx _ hm hns hps hv =>
    obtain ⟨_, va, vs, _⟩ := becameSolid_views msg.id (Event.MessageSolid msg.id) hx hm
    simp only [List.length_map]
    have hp : Tangle.pendingApprovers
        ((t1.updateMetadata msg.id (fun m => { m with solid := true })).Trigger
          (Event.MessageSolid msg.id))
        = t.approverStorage.countP
          (fun a => !(decide (a.referencedMessageID = msg.id) || t.IsSolid a.referencedMessageID)) := by
      unfold Tangle.pendingApprovers
      rw [va]
      congr 1
      funext a
      rw [vs]
    rw [hp]
    unfold Storage.Approvers Tangle.pendingApprovers
    exact le_of_eq (pending_split t.approverStorage t.IsSolid msg.id hns)

theorem walk_terminates (fuel : Nat) :
    ∀ (q : List MessageID) (t : Tangle), q.length + t.pendingApprovers ≤ fuel →
      ∃ t', WalkMessages checkMessageSolidity fuel q t = some t' := by
  induction fuel with
  | zero =>
    intro q t h
    cases q with
    | nil => exact ⟨t, walk_nil 0 t⟩
    | cons a q => simp at h
  | succ n ih =>
    intro q t h
    cases q with
    | nil => exact ⟨t, walk_nil _ t⟩
    | cons x rest =>
      simp only [List.length_cons] at h
      cases hm : Storage.Message t x with
      | none =>
        rw [walk_cons_skip n x rest t (Or.inl hm)]
        exact ih rest t (by omega)
      | some msg =>
        cases hd : Storage.MessageMetadata t x with
        | none =>
          rw [walk_cons_skip n x rest t (Or.inr hd)]
          exact ih rest t (by omega)
        | some md =>
          rw [walk_cons_visit n x rest t msg md hm hd]
          have hid := message_id_of_lookup t x msg hm
          subst hid
          have hc := check_measure t msg
          apply ih
          rw [List.length_append]
          omega

/-! ## Frame of one call of checkMessageSolidity -/

theorem check_summary (t : Tangle) (msg : Message) (ref : MessageID) :
    (checkMessageSolidity t (some msg) (some ref)).2.messageStorage = t.messageStorage ∧
    (checkMessageSolidity t (some msg) (some ref)).2.approverStorage = t.approverStorage ∧
    (∀ j, t.HasMetadata j = true →
      (checkMessageSolidity t (some msg) (some ref)).2.HasMetadata j = true) ∧
    (∀ j, t.IsSolid j = true →
      (checkMessageSolidity t (some msg) (some ref)).2.IsSolid j = true) ∧
    (∀ j, (checkMessageSolidity t (some msg) (some ref)).2.IsSolid j = true →
      t.IsSolid j = true ∨ (j = ref ∧ t.IsSolid ref = false ∧ t.ParentsSolid msg)) ∧
    ∃ ev, (checkMessageSolidity t (some msg) (some ref)).2.events = t.events ++ ev ∧
      ∀ e ∈ ev, (∃ q, e = Event.MissingMessage q) ∨ e = Event.MessageInvalid msg.id ∨
        (e = Event.MessageSolid msg.id ∧ t.IsSolid ref = false ∧ t.ParentsSolid msg) := by
  have ho := checkMessageSolidity_outcome t msg ref
  generalize checkMessageSolidity t (some msg) (some ref) = r at ho
  cases ho with
  | unchanged t1 ids hx _ =>
    obtain ⟨ev, hev, hall, _⟩ := hx.events
    refine ⟨hx.messages, hx.approvers, ?_, ?_, ?_, ev, hev, ?_⟩
    · intro j hj; show t1.HasMetadata j = true; rw [hx.hasMetadata, hj]; rfl
    · intro j hj; show t1.IsSolid j = true; rw [hx.isSolid]; exact hj
    · intro j hj; left; rw [← hx.isSolid]; exact hj
    · intro e he
      obtain ⟨q, hq, _⟩ := hall e he
      exact Or.inl ⟨q, hq⟩
  | becameInvalid t1 ids hx _ hm hni hs hv =>
    obtain ⟨vm, va, vs, _, vh, ve, _⟩ :=
      becameInvalid_views ref (Event.MessageInvalid msg.id) hx hm
    obtain ⟨ev, hev, hall, _⟩ := hx.events
    refine ⟨vm, va, ?_, ?_, ?_, ev ++ [Event.MessageInvalid msg.id], ?_, ?_⟩
    · intro j hj; show Tangle.HasMetadata _ j = true; rw [vh, hx.hasMetadata, hj]; rfl
    · intro j hj; show Tangle.IsSolid _ j = true; rw [vs]; exact hj
    · intro j hj; left; rw [← vs]; exact hj
    · show Tangle.events _ = _
      rw [ve, hev, List.append_assoc]
    · intro e he
      rcases List.mem_append.mp he with h | h
      · obtain ⟨q, hq, _⟩ := hall e h
        exact Or.inl ⟨q, hq⟩
      · right; left; simpa using h
  | becameSolid t1 ids hx _ hm hns hps hv =>
    obtain ⟨vm, va, vs, _, vh, ve, _⟩ :=
      becameSolid_views ref (Event.MessageSolid msg.id) hx hm
    obtain ⟨ev, hev, hall, _⟩ := hx.events
    refine ⟨vm, va, ?_, ?_, ?_, ev ++ [Event.MessageSolid msg.id], ?_, ?_⟩
    · intro j hj; show Tangle.HasMetadata _ j = true; rw [vh, hx.hasMetadata, hj]; rfl
    · intro j hj; show Tangle.IsSolid _ j = true; rw [vs, hj]; simp
    · intro j hj
      have hj' : Tangle.IsSolid _ j = true := hj
      rw [vs] at hj'
      by_cases e : j = ref
      · exact Or.inr ⟨e, hns, hps⟩
      · left; simpa [e] using hj'
    · show Tangle.events _ = _
      rw [ve, hev, List.append_assoc]
    · intro e he
      rcases List.mem_append.mp he with h | h
      · obtain ⟨q, hq, _⟩ := hall e h
        exact Or.inl ⟨q, hq⟩
      · right; right
        exact ⟨by simpa using h, hns, hps⟩

/-! ## Consistency of the storage -/

theorem storeMessage_stored (t : Tangle) (x m : Message)
    (h : Storage.Message t x.id = some m) : Storage.StoreMessage t x = t := by
  unfold Storage.StoreMessage; rw [h]

theorem storeMessage_fresh (t : Tangle) (x : Message) (h : Storage.Message t x.id = none) :
    (Storage.StoreMessage t x).messageStorage = t.messageStorage ++ [x] ∧
    (Storage.StoreMessage t x).approverStorage = t.approverStorage ++
      x.ForEachParent.map (fun p => ⟨p.parentType, p.ID, x.id⟩) ∧
    (Storage.StoreMessage t x).events = t.events ++ [Event.MessageStored x.id] := by
  unfold Storage.StoreMessage; rw [h]
  exact ⟨rfl, rfl, rfl⟩

theorem storeMessage_hasMetadata (t : Tangle) (x : Message) (j : MessageID) :
    (Storage.StoreMessage t x).HasMetadata j
      = (t.HasMetadata j || decide (j = x.id ∧ Storage.Message t x.id = none)) := by
  unfold Tangle.HasMetadata
  rw [storeMessage_metadata_lookup]
  cases h : Storage.MessageMetadata t j with
  | some md => simp
  | none =>
    by_cases e : j = x.id ∧ Storage.Message t x.id = none
    · simp [e]
    · simp only [e, if_false, decide_False]; rfl

theorem consistent_store (t : Tangle) (x : Message) (h : t.StorageConsistent) :
    (Storage.StoreMessage t x).StorageConsistent := by
  cases hx : Storage.Message t x.id with
  | some m => rw [storeMessage_stored t x m hx]; exact h
  | none =>
    obtain ⟨hm, ha, _⟩ := storeMessage_fresh t x hx
    intro m hmem
    rw [hm] at hmem
    rcases List.mem_append.mp hmem with hold | hnew
    · obtain ⟨h1, h2⟩ := h m hold
      refine ⟨by rw [storeMessage_hasMetadata, h1]; rfl, ?_⟩
      intro p hp
      obtain ⟨a, ha1, ha2⟩ := h2 p hp
      exact ⟨a, by rw [ha]; exact List.mem_append.mpr (Or.inl ha1), ha2⟩
    · have e : m = x := by simpa using hnew
      subst e
      refine ⟨by rw [storeMessage_hasMetadata]; simp [hx], ?_⟩
      intro p hp
      rw [← forEachParent_ids] at hp
      obtain ⟨q, hq, hqp⟩ := List.mem_map.mp hp
      refine ⟨⟨q.parentType, q.ID, m.id⟩, ?_, hqp, rfl⟩
      rw [ha]
      exact List.mem_append.mpr (Or.inr (List.mem_map.mpr ⟨q, hq, rfl⟩))

theorem consistent_check (t : Tangle) (msg : Message) (ref : MessageID)
    (h : t.StorageConsistent) :
    (checkMessageSolidity t (some msg) (some ref)).2.StorageConsistent := by
  obtain ⟨vm, va, vh, _⟩ := check_summary t msg ref
  intro m hmem
  rw [vm] at hmem
  obtain ⟨h1, h2⟩ := h m hmem
  refine ⟨vh _ h1, ?_⟩
  intro p hp
  obtain ⟨a, ha1, ha2⟩ := h2 p hp
  exact ⟨a, by rw [va]; exact ha1, ha2⟩

theorem reachable_consistent {t0 t : Tangle} (h0 : t0.StorageConsistent)
    (hr : Reachable t0 t) : t.StorageConsistent :=
  reachable_induction Tangle.StorageConsistent h0
    (fun t m h => consistent_store t m h)
    (fun t msg h _ => consistent_check t msg msg.id h) hr

/-! ## Chains -/

theorem chain_pred (b : Message) (rest : List Message)
    (h : List.Chain' ChainLink (b :: rest)) :
    ∀ m ∈ rest, ∃ a ∈ b :: rest, ChainLink a m := by
  induction rest generalizing b with
  | nil => intro m hm; cases hm
  | cons c rest ih =>
    rw [List.chain'_cons] at h
    intro m hm
    rcases List.mem_cons.mp hm with e | hm'
    · subst e
      exact ⟨b, List.mem_cons_self _ _, h.1⟩
    · obtain ⟨a, ha, hl⟩ := ih c h.2 m hm'
      exact ⟨a, List.mem_cons_of_mem _ ha, hl⟩

theorem valid_of_parents {t : Tangle} (hj : t.FlagsJustified) {b : Message}
    (hs : t.ParentsSolid b)
    (hw : ∀ p ∈ b.parentIDs, p ≠ EmptyMessageID →
      ∃ pm, Storage.Message t p = some pm ∧ InWindow b.issuingTime pm.issuingTime) :
    areParentMessagesValid t b = true := by
  rw [areParentMessagesValid_iff]
  intro p hp
  rw [isParentMessageValid_iff]
  by_cases e : p = EmptyMessageID
  · exact Or.inl e
  · exact Or.inr ⟨hw p hp e, (hj.solid p (hs p hp e)).1⟩

theorem isSolidEventOf_missing (ms : List Message) (q : MessageID) :
    isSolidEventOf ms (Event.MissingMessage q) = false := by
  simp [isSolidEventOf]

theorem isSolidEventOf_invalid (ms : List Message) (q : MessageID) :
    isSolidEventOf ms (Event.MessageInvalid q) = false := by
  simp [isSolidEventOf]

theorem isSolidEventOf_solid (ms : List Message) (q : MessageID) :
    isSolidEventOf ms (Event.MessageSolid q) = true ↔ ∃ m ∈ ms, m.id = q := by
  simp [isSolidEventOf]

theorem head_of_parentsSolid {base : List Event} {done todo : List Message}
    {q : List MessageID} {s : Tangle} (h : ChainProgress base done todo q s)
    {b m : Message} {rest : List Message} (ht : todo = b :: rest) (hm : m ∈ todo)
    (hps : s.ParentsSolid m) : m = b := by
  subst ht
  rcases List.mem_cons.mp hm with e | hm'
  · exact e
  · exfalso
    obtain ⟨a, ha, hne, hin, _⟩ := chain_pred b rest h.links m hm'
    have h1 := hps a.id hin hne
    rw [h.todoNotSolid a ha] at h1
    cases h1

theorem progress_skip {base : List Event} {done todo : List Message} {x : MessageID}
    {q : List MessageID} {s : Tangle} (h : ChainProgress base done todo (x :: q) s)
    (hs : Storage.Message s x = none ∨ Storage.MessageMetadata s x = none) :
    ChainProgress base done todo q s where
  justified := h.justified
  stored := h.stored
  registered := h.registered
  links := h.links
  doneSolid := h.doneSolid
  todoNotSolid := h.todoNotSolid
  events := h.events
  headReady := fun b rest ht => by
    obtain ⟨h1, h2, h3⟩ := h.headReady b rest ht
    refine ⟨?_, h2, h3⟩
    rcases List.mem_cons.mp h1 with e | h1'
    · exfalso
      obtain ⟨hm, hmd⟩ := h.stored b (by rw [ht]; exact List.mem_cons_self _ _)
      rw [e] at hm hmd
      rcases hs with hs | hs
      · rw [hs] at hm; cases hm
      · unfold Tangle.HasMetadata at hmd; rw [hs] at hmd; cases hmd
    · exact h1'

theorem progress_other {base : List Event} {done todo : List Message}
    {q : List MessageID} {s : Tangle} (msg : Message)
    (h : ChainProgress base done todo (msg.id :: q) s)
    (hm : Storage.Message s msg.id = some msg)
    (hne : ∀ b rest, todo = b :: rest → b.id ≠ msg.id) :
    ChainProgress base done todo
      (q ++ (checkMessageSolidity s (some msg) (some msg.id)).1)
      (checkMessageSolidity s (some msg) (some msg.id)).2 := by
  obtain ⟨vm, va, vh, vmono, vinv, ev, hev, hall⟩ := check_summary s msg msg.id
  have notInChain : s.IsSolid msg.id = false → s.ParentsSolid msg →
      ¬ ∃ m ∈ done ++ todo, m.id = msg.id := by
    intro hns hps ⟨m, hmem, hid⟩
    rcases List.mem_append.mp hmem with hd | ht
    · have := h.doneSolid m hd
      rw [hid, hns] at this; cases this
    · have hst := (h.stored m ht).1
      rw [hid, hm] at hst
      cases hst
      cases htodo : todo with
      | nil => rw [htodo] at ht; cases ht
      | cons b rest =>
        have := head_of_parentsSolid h htodo ht hps
        subst this
        exact hne _ rest htodo rfl
  constructor
  · exact flagsJustified_check s msg h.justified hm
  · intro m hmem
    obtain ⟨h1, h2⟩ := h.stored m hmem
    exact ⟨by rw [message_congr vm]; exact h1, vh _ h2⟩
  · intro m hmem p hp
    obtain ⟨a, ha1, ha2⟩ := h.registered m hmem p hp
    exact ⟨a, by rw [va]; exact ha1, ha2⟩
  · exact h.links
  · intro m hmem
    exact vmono _ (h.doneSolid m hmem)
  · intro m hmem
    cases hsol : (checkMessageSolidity s (some msg) (some msg.id)).2.IsSolid m.id with
    | false => rfl
    | true =>
      exfalso
      rcases vinv _ hsol with h1 | ⟨hid, hns, hps⟩
      · rw [h.todoNotSolid m hmem] at h1; cases h1
      · exact notInChain hns hps ⟨m, List.mem_append.mpr (Or.inr hmem), hid⟩
  · intro b rest ht
    obtain ⟨h1, h2, h3⟩ := h.headReady b rest ht
    refine ⟨?_, ?_, ?_⟩
    · rcases List.mem_cons.mp h1 with e | h1'
      · exact absurd e (hne b rest ht)
      · exact List.mem_append.mpr (Or.inl h1')
    · intro p hp hpne
      exact vmono _ (h2 p hp hpne)
    · intro p hp hpne
      obtain ⟨pm, a, c⟩ := h3 p hp hpne
      exact ⟨pm, by rw [message_congr vm]; exact a, c⟩
  · obtain ⟨ev0, h0, hf⟩ := h.events
    refine ⟨ev0 ++ ev, by rw [hev, h0, List.append_assoc], ?_⟩
    rw [List.filter_append, hf]
    have hnil : ev.filter (isSolidEventOf (done ++ todo)) = [] := by
      rw [List.filter_eq_nil_iff]
      intro e he
      rcases hall e he with ⟨q', hq⟩ | hq | ⟨hq, hns, hps⟩
      · rw [hq, isSolidEventOf_missing]; simp
      · rw [hq, isSolidEventOf_invalid]; simp
      · rw [hq]
        intro hc
        exact notInChain hns hps ((isSolidEventOf_solid _ _).mp hc)
    rw [hnil, List.append_nil]

theorem progress_head {base : List Event} {done rest : List Message} {b : Message}
    {q : List MessageID} {s : Tangle}
    (h : ChainProgress base done (b :: rest) (b.id :: q) s) :
    ChainProgress base (done ++ [b]) rest
      (q ++ (checkMessageSolidity s (some b) (some b.id)).1)
      (checkMessageSolidity s (some b) (some b.id)).2 := by
  obtain ⟨_, hps, hw⟩ := h.headReady b rest rfl
  obtain ⟨hmsg, hmeta⟩ := h.stored b (List.mem_cons_self _ _)
  have hns := h.todoNotSolid b (List.mem_cons_self _ _)
  have hv := valid_of_parents h.justified hps hw
  have hx := isMessageSolid_extends s b b.id
  have h1 : (isMessageSolid s (some b) (some b.id)).1 = true := by
    rw [isMessageSolid_fst, hmeta, (parentsSolid_iff s b).mpr hps]; simp
  have hsame := hx.same (by
    intro p hp
    split at hp
    · have hp' : p ∈ b.parentIDs ∧ p ≠ EmptyMessageID := by simpa using hp
      exact hasMetadata_of_isSolid (hps p hp'.1 hp'.2)
    · cases hp)
  obtain ⟨vm, va, vs, _, vh, ve, _⟩ :=
    becameSolid_views b.id (Event.MessageSolid b.id) hx hmeta
  have hj' := flagsJustified_check s b h.justified hmsg
  have heq : checkMessageSolidity s (some b) (some b.id)
      = ((Storage.Approvers s b.id).map (fun a => a.approverMessageID),
          ((isMessageSolid s (some b) (some b.id)).2.updateMetadata b.id
            (fun m => { m with solid := true })).Trigger (Event.MessageSolid b.id)) := by
    rw [checkMessageSolidity_eq, if_neg (by simp [h1]), if_neg (by simp [hv]),
      if_neg (by simp [hns])]
  rw [heq] at hj' ⊢
  have hne : ∀ m ∈ rest, m.id ≠ b.id := by
    intro m hm hid
    have hst := (h.stored m (List.mem_cons_of_mem _ hm)).1
    rw [hid, hmsg] at hst
    have e : b = m := Option.some.inj hst
    rw [← e] at hm
    obtain ⟨a, ha, hane, hin, _⟩ := chain_pred b rest h.links b hm
    have := hps a.id hin hane
    rw [h.todoNotSolid a ha] at this
    cases this
  constructor
  · exact hj'
  · intro m hm
    obtain ⟨a, c⟩ := h.stored m (List.mem_cons_of_mem _ hm)
    refine ⟨by rw [message_congr vm]; exact a, ?_⟩
    show Tangle.HasMetadata _ m.id = true
    rw [vh, hx.hasMetadata, c]; rfl
  · intro m hm p hp
    obtain ⟨a, ha1, ha2⟩ := h.registered m (List.mem_cons_of_mem _ hm) p hp
    exact ⟨a, by rw [va]; exact ha1, ha2⟩
  · exact (List.chain'_cons'.mp h.links).2
  · intro m hm
    show Tangle.IsSolid _ m.id = true
    rw [vs]
    rcases List.mem_append.mp hm with hd | hb
    · rw [h.doneSolid m hd]; simp
    · have e : m = b := by simpa using hb
      subst e; simp
  · intro m hm
    show Tangle.IsSolid _ m.id = false
    rw [vs, h.todoNotSolid m (List.mem_cons_of_mem _ hm)]
    simp [hne m hm]
  · intro c rest' ht
    subst ht
    have hl : ChainLink b c := by
      have := h.links
      rw [List.chain'_cons] at this
      exact this.1
    obtain ⟨hbne, hin, hsole, hwin⟩ := hl
    refine ⟨?_, ?_, ?_⟩
    · obtain ⟨a, ha1, ha2, ha3⟩ :=
        h.registered c (List.mem_cons_of_mem _ (List.mem_cons_self _ _)) b.id hin
      apply List.mem_append.mpr
      right
      apply List.mem_map.mpr
      refine ⟨a, ?_, ha3⟩
      unfold Storage.Approvers
      rw [List.mem_filter]
      exact ⟨ha1, by simpa using ha2⟩
    · intro p hp hpne
      show Tangle.IsSolid _ p = true
      rw [vs]
      rcases hsole p hp with e | e
      · exact absurd e hpne
      · simp [e]
    · intro p hp hpne
      rcases hsole p hp with e | e
      · exact absurd e hpne
      · subst e
        exact ⟨b, by rw [message_congr vm]; exact hmsg, hwin⟩
  · obtain ⟨ev0, h0, hf⟩ := h.events
    refine ⟨ev0 ++ [Event.MessageSolid b.id], ?_, ?_⟩
    · show Tangle.events _ = _
      rw [ve, hsame.2, h0, List.append_assoc]
    · have hl : (done ++ [b]) ++ rest = done ++ b :: rest := by simp
      rw [hl, List.filter_append, hf]
      have hb : isSolidEventOf (done ++ b :: rest) (Event.MessageSolid b.id) = true :=
        (isSolidEventOf_solid _ _).mpr ⟨b, by simp, rfl⟩
      simp [List.filter_cons, hb]

theorem walk_chain (base : List Event) (fuel : Nat) :
    ∀ (q : List MessageID) (s t' : Tangle) (done todo : List Message),
      ChainProgress base done todo q s →
      WalkMessages checkMessageSolidity fuel q s = some t' →
      (∀ m ∈ done ++ todo, t'.IsSolid m.id = true) ∧
        ∃ ev, t'.events = base ++ ev ∧
          ev.filter (isSolidEventOf (done ++ todo))
            = (done ++ todo).map (fun m => Event.MessageSolid m.id) := by
  induction fuel with
  | zero =>
    intro q s t' done todo h hw
    cases q with
    | cons a q => simp [WalkMessages] at hw
    | nil =>
      rw [walk_nil] at hw
      cases hw
      cases htodo : todo with
      | cons b rest => exact absurd (h.headReady b rest htodo).1 (List.not_mem_nil _)
      | nil =>
        subst htodo
        simp only [List.append_nil]
        refine ⟨h.doneSolid, ?_⟩
        simpa using h.events
  | succ n ih =>
    intro q s t' done todo h hw
    cases q with
    | nil =>
      rw [walk_nil] at hw
      cases hw
      cases htodo : todo with
      | cons b rest => exact absurd (h.headReady b rest htodo).1 (List.not_mem_nil _)
      | nil =>
        subst htodo
        simp only [List.append_nil]
        refine ⟨h.doneSolid, ?_⟩
        simpa using h.events
    | cons x q =>
      cases hm : Storage.Message s x with
      | none =>
        rw [walk_cons_skip n x q s (Or.inl hm)] at hw
        exact ih q s t' done todo (progress_skip h (Or.inl hm)) hw
      | some msg =>
        cases hd : Storage.MessageMetadata s x with
        | none =>
          rw [walk_cons_skip n x q s (Or.inr hd)] at hw
          exact ih q s t' done todo (progress_skip h (Or.inr hd)) hw
        | some md =>
          rw [walk_cons_visit n x q s msg md hm hd] at hw
          have hid := message_id_of_lookup s x msg hm
          subst hid
          by_cases hhead : ∃ b rest, todo = b :: rest ∧ b.id = msg.id
          · obtain ⟨b, rest, ht, hb⟩ := hhead
            subst ht
            have hst := (h.stored b (List.mem_cons_self _ _)).1
            rw [hb, hm] at hst
            cases hst
            have := ih _ _ t' (done ++ [msg]) rest (progress_head h) hw
            simpa using this
          · have hne : ∀ b rest, todo = b :: rest → b.id ≠ msg.id :=
              fun b rest ht hb => hhead ⟨b, rest, ht, hb⟩
            exact ih _ _ t' done todo (progress_other msg h hm hne) hw

theorem Example.chainStored_reachable : Reachable Tangle.empty Example.chainStored :=
  Reachable.store _ _ (Reachable.store _ _ (Reachable.store _ _ Reachable.init))

theorem Example.chain_links :
    List.Chain' ChainLink [Example.m1, Example.m2, Example.m3] :=
  List.chain'_cons.mpr ⟨by decide, List.chain'_cons.mpr ⟨by decide, List.chain'_singleton _⟩⟩

/-- C8, as stated, fails: in the store where `m1` is marked solid and also
invalid, the chain `m2`, `m3` is stored with parent timestamps inside the window,
each message has its predecessor as sole non-genesis parent, the parent `m1` of
`m2` is marked solid and stored, and neither `m2` nor `m3` is marked solid. Yet
`Solidify` on `m2` returns, with one unit of fuel or more, a state in which `m2`
is marked invalid and neither message is marked solid. -/
theorem solidify_chain_invalid_parent_counterexample :
    (∀ m ∈ [Example.m2, Example.m3],
      Storage.Message Example.solidInvalidParent m.id = some m) ∧
    (∀ m ∈ [Example.m2, Example.m3], Example.solidInvalidParent.IsSolid m.id = false) ∧
    List.Chain' ChainLink [Example.m2, Example.m3] ∧
    (∀ p ∈ Example.m2.strongParents ++ Example.m2.weakParents, p ≠ EmptyMessageID →
      Example.solidInvalidParent.IsSolid p = true ∧
        ∃ pm, Storage.Message Example.solidInvalidParent p = some pm ∧
          InWindow Example.m2.issuingTime pm.issuingTime) ∧
    (∃ t', Solidify 1 Example.solidInvalidParent Example.m2.id = some t') ∧
    (∀ fuel t', Solidify fuel Example.solidInvalidParent Example.m2.id = some t' →
      t'.IsSolid 2 = false ∧ t'.IsSolid 3 = false ∧ t'.IsInvalid 2 = true ∧
        t'.events = Example.solidInvalidParent.events ++ [Event.MessageInvalid 2]) := by
  refine ⟨by decide, by decide,
    List.chain'_cons.mpr ⟨by decide, List.chain'_singleton _⟩, ?_,
    ⟨(checkMessageSolidity Example.solidInvalidParent (some Example.m2) (some 2)).2, rfl⟩,
    ?_⟩
  · intro p hp hne
    have e : p = 1 := by
      have h1 : p = 1 ∨ p = 0 := by simpa [Example.m2] using hp
      rcases h1 with h1 | h1
      · exact h1
      · exact absurd h1 hne
    subst e
    exact ⟨by decide, Example.m1, by decide, by decide⟩
  · intro fuel t' h
    cases fuel with
    | zero => cases h
    | succ n =>
      have hv := walk_cons_visit n 2 [] Example.solidInvalidParent Example.m2
        ⟨2, false, false⟩ (by decide) (by decide)
      have hr : (checkMessageSolidity Example.solidInvalidParent (some Example.m2)
          (some 2)).1 = [] := by decide
      unfold Solidify at h
      rw [show Example.m2.id = 2 from rfl, hv, hr, List.append_nil, walk_nil] at h
      cases h
      exact ⟨by decide, by decide, by decide, by decide⟩

/-- C8, amended: in a state reached from a consistent store without flags by
storing messages and by calls of `checkMessageSolidity` and `Solidify`, let
`m1 :: rest` be a chain of stored messages, none marked solid, in which every
message references its predecessor as its sole non-genesis parent and was issued
inside the predecessor's time window, and let the non-genesis parents of `m1` be
marked solid, stored and inside the window. Then `Solidify m1.id`, given enough
fuel, returns a state in which every message of the chain is marked solid, and
the `MessageSolid` events emitted for messages of the chain are, in order of
emission, exactly those of `m1`, then of each message of `rest` in chain order. -/
theorem solidify_chain (t0 t : Tangle) (h0 : t0.NoFlags) (hc : t0.StorageConsistent)
    (hr : Reachable t0 t) (m1 : Message) (rest : List Message)
    (hstored : ∀ m ∈ m1 :: rest, Storage.Message t m.id = some m)
    (hnot : ∀ m ∈ m1 :: rest, t.IsSolid m.id = false)
    (hchain : List.Chain' ChainLink (m1 :: rest))
    (hfirst : ∀ p ∈ m1.strongParents ++ m1.weakParents, p ≠ EmptyMessageID →
      t.IsSolid p = true ∧
        ∃ pm, Storage.Message t p = some pm ∧ InWindow m1.issuingTime pm.issuingTime) :
    ∃ fuel t', Solidify fuel t m1.id = some t' ∧
      (∀ m ∈ m1 :: rest, t'.IsSolid m.id = true) ∧
      ∃ ev, t'.events = t.events ++ ev ∧
        ev.filter (isSolidEventOf (m1 :: rest))
          = (m1 :: rest).map (fun m => Event.MessageSolid m.id) := by
  have hj := reachable_flagsJustified h0 hr
  have hcons := reachable_consistent hc hr
  have hp : ChainProgress t.events [] (m1 :: rest) [m1.id] t := by
    constructor
    · exact hj
    · intro m hm
      have hs := hstored m hm
      exact ⟨hs, (hcons m (List.mem_of_find?_eq_some hs)).1⟩
    · intro m hm
      exact (hcons m (List.mem_of_find?_eq_some (hstored m hm))).2
    · exact hchain
    · intro m hm; cases hm
    · exact hnot
    · intro b rest' ht
      have e : m1 = b := (List.cons.inj ht).1
      subst e
      exact ⟨List.mem_cons_self _ _, fun p hp hne => (hfirst p hp hne).1,
        fun p hp hne => (hfirst p hp hne).2⟩
    · exact ⟨[], by simp, by simp⟩
  obtain ⟨t', ht'⟩ := walk_terminates (1 + t.pendingApprovers) [m1.id] t (by simp)
  have hres := walk_chain t.events _ [m1.id] t t' [] (m1 :: rest) hp ht'
  exact ⟨1 + t.pendingApprovers, t', ht', by simpa using hres.1, by simpa using hres.2⟩

theorem solidify_chain_witness :
    Tangle.empty.NoFlags ∧ Tangle.empty.StorageConsistent ∧
      Reachable Tangle.empty Example.chainStored ∧
      List.Chain' ChainLink [Example.m1, Example.m2, Example.m3] ∧
      ∃ fuel t', Solidify fuel Example.chainStored Example.m1.id = some t' ∧
        (∀ m ∈ [Example.m1, Example.m2, Example.m3], t'.IsSolid m.id = true) ∧
        ∃ ev, t'.events = Example.chainStored.events ++ ev ∧
          ev.filter (isSolidEventOf [Example.m1, Example.m2, Example.m3])
            = [Example.m1, Example.m2, Example.m3].map
                (fun m => Event.MessageSolid m.id) :=
  ⟨by decide, by decide, Example.chainStored_reachable, Example.chain_links,
    solidify_chain Tangle.empty Example.chainStored (by decide) (by decide)
      Example.chainStored_reachable Example.m1 [Example.m2, Example.m3]
      (by decide) (by decide) Example.chain_links
      (fun p hp hne => by
        have e : p = EmptyMessageID := by simpa [Example.m1, EmptyMessageID] using hp
        exact absurd e hne)⟩

/-! ## Events are emitted once, flags are never reset -/

theorem storeMessage_events (t : Tangle) (x : Message) :
    ∃ ev, (Storage.StoreMessage t x).events = t.events ++ ev ∧
      ∀ e ∈ ev, e = Event.MessageStored x.id := by
  cases hx : Storage.Message t x.id with
  | some m => rw [storeMessage_stored t x m hx]; exact ⟨[], by simp, by simp⟩
  | none =>
    obtain ⟨_, _, he⟩ := storeMessage_fresh t x hx
    exact ⟨[Event.MessageStored x.id], he, by simp⟩

theorem count_missing_solid {ev : List Event} (id : MessageID)
    (h : ∀ e ∈ ev, ∃ q, e = Event.MissingMessage q) :
    ev.count (Event.MessageSolid id) = 0 ∧ ev.count (Event.MessageInvalid id) = 0 := by
  constructor
  · apply List.count_eq_zero_of_not_mem
    intro hm
    obtain ⟨q, hq⟩ := h _ hm
    cases hq
  · apply List.count_eq_zero_of_not_mem
    intro hm
    obtain ⟨q, hq⟩ := h _ hm
    cases hq

/-- The events emitted since the log `base` contain, for each identifier, at most
as many `MessageSolid` events as its solid flag allows (none while the flag is
unset, at most one once it is set), and likewise for `MessageInvalid`. -/
theorem emittedOnce_check (base : List Event) (t : Tangle) (msg : Message)
    (h : ∃ ev, t.events = base ++ ev ∧ ∀ id,
      ev.count (Event.MessageSolid id) ≤ (t.IsSolid id).toNat ∧
      ev.count (Event.MessageInvalid id) ≤ (t.IsInvalid id).toNat) :
    ∃ ev, (checkMessageSolidity t (some msg) (some msg.id)).2.events = base ++ ev ∧
      ∀ id,
        ev.count (Event.MessageSolid id)
          ≤ ((checkMessageSolidity t (some msg) (some msg.id)).2.IsSolid id).toNat ∧
        ev.count (Event.MessageInvalid id)
          ≤ ((checkMessageSolidity t (some msg) (some msg.id)).2.IsInvalid id).toNat := by
  obtain ⟨ev, hev, hc⟩ := h
  have ho := checkMessageSolidity_outcome t msg msg.id
  generalize checkMessageSolidity t (some msg) (some msg.id) = r at ho
  cases ho with
  | unchanged t1 ids hx _ =>
    obtain ⟨evm, hevm, hall, _⟩ := hx.events
    have hmiss : ∀ e ∈ evm, ∃ q, e = Event.MissingMessage q :=
      fun e he => (hall e he).imp fun q hq => hq.1
    refine ⟨ev ++ evm, by show t1.events = _; rw [hevm, hev, List.append_assoc], ?_⟩
    intro id
    obtain ⟨c1, c2⟩ := count_missing_solid id hmiss
    have := hc id
    show _ ≤ (t1.IsSolid id).toNat ∧ _ ≤ (t1.IsInvalid id).toNat
    rw [hx.isSolid, hx.isInvalid, List.count_append, List.count_append, c1, c2]
    simpa using this
  | becameInvalid t1 ids hx _ hm hni hs hv =>
    obtain ⟨_, _, vs, vi, _, ve, _⟩ :=
      becameInvalid_views msg.id (Event.MessageInvalid msg.id) hx hm
    obtain ⟨evm, hevm, hall, _⟩ := hx.events
    have hmiss : ∀ e ∈ evm, ∃ q, e = Event.MissingMessage q :=
      fun e he => (hall e he).imp fun q hq => hq.1
    refine ⟨ev ++ evm ++ [Event.MessageInvalid msg.id], ?_, ?_⟩
    · show Tangle.events _ = _
      rw [ve, hevm, hev]; simp
    · intro id
      obtain ⟨c1, c2⟩ := count_missing_solid id hmiss
      obtain ⟨d1, d2⟩ := hc id
      show _ ≤ (Tangle.IsSolid _ id).toNat ∧ _ ≤ (Tangle.IsInvalid _ id).toNat
      rw [vs, vi]
      simp only [List.count_append, c1, c2, add_zero]
      constructor
      · simpa using d1
      · by_cases e : id = msg.id
        · subst e
          rw [hni] at d2
          simp at d2 ⊢
          omega
        · have hne : ¬ (msg.id = id) := fun h => e h.symm
          simp [e, hne]
          exact d2
  | becameSolid t1 ids hx _ hm hns hps hv =>
    obtain ⟨_, _, vs, vi, _, ve, _⟩ :=
      becameSolid_views msg.id (Event.MessageSolid msg.id) hx hm
    obtain ⟨evm, hevm, hall, _⟩ := hx.events
    have hmiss : ∀ e ∈ evm, ∃ q, e = Event.MissingMessage q :=
      fun e he => (hall e he).imp fun q hq => hq.1
    refine ⟨ev ++ evm ++ [Event.MessageSolid msg.id], ?_, ?_⟩
    · show Tangle.events _ = _
      rw [ve, hevm, hev]; simp
    · intro id
      obtain ⟨c1, c2⟩ := count_missing_solid id hmiss
      obtain ⟨d1, d2⟩ := hc id
      show _ ≤ (Tangle.IsSolid _ id).toNat ∧ _ ≤ (Tangle.IsInvalid _ id).toNat
      rw [vs, vi]
      simp only [List.count_append, c1, c2, add_zero]
      constructor
      · by_cases e : id = msg.id
        · subst e
          rw [hns] at d1
          simp at d1 ⊢
          omega
        · have hne : ¬ (msg.id = id) := fun h => e h.symm
          simp [e, hne]
          exact d1
      · simpa using d2

/-- C11: over every sequence of message insertions, `checkMessageSolidity` calls
and `Solidify` calls, the events emitted since the start contain `MessageSolid`
at most once per message identifier and `MessageInvalid` at most once per message
identifier. -/
theorem events_at_most_once (t0 t : Tangle) (hr : Reachable t0 t) :
    ∃ ev, t.events = t0.events ++ ev ∧
      ∀ id, ev.count (Event.MessageSolid id) ≤ 1 ∧
        ev.count (Event.MessageInvalid id) ≤ 1 := by
  have key : ∃ ev, t.events = t0.events ++ ev ∧ ∀ id,
      ev.count (Event.MessageSolid id) ≤ (t.IsSolid id).toNat ∧
      ev.count (Event.MessageInvalid id) ≤ (t.IsInvalid id).toNat := by
    refine reachable_induction
      (fun s => ∃ ev, s.events = t0.events ++ ev ∧ ∀ id,
        ev.count (Event.MessageSolid id) ≤ (s.IsSolid id).toNat ∧
        ev.count (Event.MessageInvalid id) ≤ (s.IsInvalid id).toNat)
      ⟨[], by simp, by simp⟩ ?_ ?_ hr
    · intro s m ⟨ev, hev, hc⟩
      obtain ⟨evs, hevs, hall⟩ := storeMessage_events s m
      refine ⟨ev ++ evs, by rw [hevs, hev, List.append_assoc], ?_⟩
      intro id
      have c1 : evs.count (Event.MessageSolid id) = 0 :=
        List.count_eq_zero_of_not_mem (fun hm => by cases hall _ hm)
      have c2 : evs.count (Event.MessageInvalid id) = 0 :=
        List.count_eq_zero_of_not_mem (fun hm => by cases hall _ hm)
      rw [storeMessage_isSolid, storeMessage_isInvalid, List.count_append, List.count_append,
        c1, c2]
      simpa using hc id
    · intro s msg h _
      exact emittedOnce_check t0.events s msg h
  obtain ⟨ev, hev, hc⟩ := key
  refine ⟨ev, hev, fun id => ⟨?_, ?_⟩⟩
  · exact le_trans (hc id).1 (Bool.toNat_le _)
  · exact le_trans (hc id).2 (Bool.toNat_le _)

theorem events_at_most_once_witness :
    Reachable Tangle.empty Example.lateInvalid ∧
      ∃ ev, Example.lateInvalid.events = Tangle.empty.events ++ ev ∧
        ∀ id, ev.count (Event.MessageSolid id) ≤ 1 ∧
          ev.count (Event.MessageInvalid id) ≤ 1 :=
  ⟨Example.lateInvalid_reachable,
    events_at_most_once Tangle.empty Example.lateInvalid Example.lateInvalid_reachable⟩

theorem check_flags_mono (t : Tangle) (msg : Message) (ref j : MessageID) :
    (t.IsSolid j = true →
      (checkMessageSolidity t (some msg) (some ref)).2.IsSolid j = true) ∧
    (t.IsInvalid j = true →
      (checkMessageSolidity t (some msg) (some ref)).2.IsInvalid j = true) := by
  have ho := checkMessageSolidity_outcome t msg ref
  generalize checkMessageSolidity t (some msg) (some ref) = r at ho
  cases ho with
  | unchanged t1 ids hx _ =>
    exact ⟨fun h => by show t1.IsSolid j = true; rw [hx.isSolid]; exact h,
      fun h => by show t1.IsInvalid j = true; rw [hx.isInvalid]; exact h⟩
  | becameInvalid t1 ids hx _ hm hni hs hv =>
    obtain ⟨_, _, vs, vi, _⟩ := becameInvalid_views ref (Event.MessageInvalid msg.id) hx hm
    exact ⟨fun h => by show Tangle.IsSolid _ j = true; rw [vs]; exact h,
      fun h => by show Tangle.IsInvalid _ j = true; rw [vi, h]; simp⟩
  | becameSolid t1 ids hx _ hm hns hps hv =>
    obtain ⟨_, _, vs, vi, _⟩ := becameSolid_views ref (Event.MessageSolid msg.id) hx hm
    exact ⟨fun h => by show Tangle.IsSolid _ j = true; rw [vs, h]; simp,
      fun h => by show Tangle.IsInvalid _ j = true; rw [vi]; exact h⟩

theorem check_none_left (t : Tangle) (messageMetadata : Option MessageID) :
    checkMessageSolidity t none messageMetadata = ([], t) := by
  unfold checkMessageSolidity isMessageSolid
  simp

theorem check_none_right (t : Tangle) (message : Option Message) :
    checkMessageSolidity t message none = ([], t) := by
  unfold checkMessageSolidity isMessageSolid
  cases message <;> simp

theorem isMessageSolid_none_left (t : Tangle) (messageMetadata : Option MessageID) :
    isMessageSolid t none messageMetadata = (false, t) := by
  unfold isMessageSolid
  simp

theorem isMessageSolid_none_right (t : Tangle) (message : Option Message) :
    isMessageSolid t message none = (false, t) := by
  unfold isMessageSolid
  cases message <;> simp

/-- C12: no Solidifier operation resets a flag. For every state `t` and message
identifier `j`, if the solid flag (respectively the invalid flag) of `j` is set in
`t`, it is still set after `isMessageMarkedAsSolid`, after `isMessageSolid` and
after `checkMessageSolidity` with any arguments, after every `Solidify` call that
returns, and in every state reachable from `t` by insertions,
`checkMessageSolidity` calls and `Solidify` calls. -/
theorem flags_never_reset (t : Tangle) (j : MessageID) :
    (∀ p, (t.IsSolid j = true → (isMessageMarkedAsSolid t p).2.IsSolid j = true) ∧
      (t.IsInvalid j = true → (isMessageMarkedAsSolid t p).2.IsInvalid j = true)) ∧
    (∀ message messageMetadata,
      (t.IsSolid j = true →
        (isMessageSolid t message messageMetadata).2.IsSolid j = true) ∧
      (t.IsInvalid j = true →
        (isMessageSolid t message messageMetadata).2.IsInvalid j = true)) ∧
    (∀ message messageMetadata,
      (t.IsSolid j = true →
        (checkMessageSolidity t message messageMetadata).2.IsSolid j = true) ∧
      (t.IsInvalid j = true →
        (checkMessageSolidity t message messageMetadata).2.IsInvalid j = true)) ∧
    (∀ fuel id t', Solidify fuel t id = some t' →
      (t.IsSolid j = true → t'.IsSolid j = true) ∧
      (t.IsInvalid j = true → t'.IsInvalid j = true)) ∧
    (∀ t', Reachable t t' →
      (t.IsSolid j = true → t'.IsSolid j = true) ∧
      (t.IsInvalid j = true → t'.IsInvalid j = true)) := by
  have hstep : ∀ s msg,
      ((t.IsSolid j = true → s.IsSolid j = true) ∧
        (t.IsInvalid j = true → s.IsInvalid j = true)) →
      Storage.Message s msg.id = some msg →
      ((t.IsSolid j = true →
          (checkMessageSolidity s (some msg) (some msg.id)).2.IsSolid j = true) ∧
        (t.IsInvalid j = true →
          (checkMessageSolidity s (some msg) (some msg.id)).2.IsInvalid j = true)) := by
    intro s msg h _
    obtain ⟨m1, m2⟩ := check_flags_mono s msg msg.id j
    exact ⟨fun hs => m1 (h.1 hs), fun hi => m2 (h.2 hi)⟩
  refine ⟨?_, ?_, ?_, ?_, ?_⟩
  · intro p
    have hx := isMessageMarkedAsSolid_extends t p
    exact ⟨fun h => by rw [hx.isSolid]; exact h, fun h => by rw [hx.isInvalid]; exact h⟩
  · intro message messageMetadata
    cases message with
    | none => rw [isMessageSolid_none_left]; exact ⟨id, id⟩
    | some msg =>
      cases messageMetadata with
      | none => rw [isMessageSolid_none_right]; exact ⟨id, id⟩
      | some ref =>
        have hx := isMessageSolid_extends t msg ref
        exact ⟨fun h => by rw [hx.isSolid]; exact h, fun h => by rw [hx.isInvalid]; exact h⟩
  · intro message messageMetadata
    cases message with
    | none => rw [check_none_left]; exact ⟨id, id⟩
    | some msg =>
      cases messageMetadata with
      | none => rw [check_none_right]; exact ⟨id, id⟩
      | some ref => exact check_flags_mono t msg ref j
  · intro fuel id t' hs
    exact walk_preserves
      (fun s => (t.IsSolid j = true → s.IsSolid j = true) ∧
        (t.IsInvalid j = true → s.IsInvalid j = true))
      hstep fuel [id] t t' ⟨fun h => h, fun h => h⟩ hs
  · intro t' hr
    refine reachable_induction
      (fun s => (t.IsSolid j = true → s.IsSolid j = true) ∧
        (t.IsInvalid j = true → s.IsInvalid j = true))
      ⟨fun h => h, fun h => h⟩ ?_ hstep hr
    intro s m h
    exact ⟨fun hs => by rw [storeMessage_isSolid]; exact h.1 hs,
      fun hi => by rw [storeMessage_isInvalid]; exact h.2 hi⟩

theorem flags_never_reset_witness :
    Example.lateInvalid.IsInvalid 2 = true ∧ Example.lateInvalid.IsSolid 1 = true ∧
      Solidify 3 Example.lateInvalid 2 = some
        { Example.lateInvalid with storeIfMissingCalls := [1, 1] } ∧
      ({ Example.lateInvalid with storeIfMissingCalls := [1, 1] } : Tangle).IsInvalid 2
        = true :=
  ⟨by decide, by decide, by decide,
    ((flags_never_reset Example.lateInvalid 2).2.2.2.1 3 2 _ (by decide)).2 (by decide)⟩

/-! ## Go maps -/

theorem GoMap.load_isSome_iff {K V : Type} [DecidableEq K] (m : GoMap K V) (k : K) :
    (GoMap.load m k).isSome = true ↔ k ∈ GoMap.keys m := by
  unfold GoMap.load GoMap.keys
  rw [Option.isSome_map']
  rw [List.find?_isSome]
  constructor
  · rintro ⟨e, he, hk⟩
    exact List.mem_map.mpr ⟨e, he, by simpa using hk⟩
  · intro h
    obtain ⟨e, he, hk⟩ := List.mem_map.mp h
    exact ⟨e, he, by simpa using hk⟩

theorem GoMap.load_store {K V : Type} [DecidableEq K] (m : GoMap K V) (k j : K) (v : V) :
    GoMap.load (GoMap.store m k v) j = if j = k then some v else GoMap.load m j := by
  unfold GoMap.store
  by_cases hp : (GoMap.load m k).isSome = true
  · rw [if_pos hp]
    unfold GoMap.load at hp ⊢
    rw [List.find?_map]
    have hf : ((fun e : K × V => decide (e.1 = j)) ∘ fun e => if e.1 = k then (k, v) else e)
        = fun e : K × V => decide (e.1 = j) := by
      funext e
      simp only [Function.comp]
      by_cases he : e.1 = k
      · simp [he]
      · simp [he]
    rw [hf]
    by_cases hj : j = k
    · subst hj
      rw [if_pos rfl]
      cases hfind : List.find? (fun e : K × V => decide (e.1 = j)) m with
      | none => rw [hfind] at hp; simp at hp
      | some e =>
        have : e.1 = j := by simpa using List.find?_some hfind
        simp [this]
    · rw [if_neg hj]
      cases hfind : List.find? (fun e : K × V => decide (e.1 = j)) m with
      | none => simp
      | some e =>
        have h1 : e.1 = j := by simpa using List.find?_some hfind
        have h2 : ¬ e.1 = k := fun h => hj (h1.symm.trans h)
        simp [h2]
  · rw [if_neg hp]
    have hn : GoMap.load m k = none := by
      cases h : GoMap.load m k with
      | none => rfl
      | some x => rw [h] at hp; simp at hp
    unfold GoMap.load at hn ⊢
    rw [find?_append_singleton]
    by_cases hj : j = k
    · subst hj
      rw [if_pos rfl]
      cases hfind : List.find? (fun e : K × V => decide (e.1 = j)) m with
      | none => simp
      | some e => rw [hfind] at hn; simp at hn
    · rw [if_neg hj]
      have hkj : ¬ k = j := fun h => hj h.symm
      cases hfind : List.find? (fun e : K × V => decide (e.1 = j)) m with
      | none => simp [hkj]
      | some e => simp

theorem GoMap.keys_store {K V : Type} [DecidableEq K] (m : GoMap K V) (k : K) (v : V) :
    GoMap.keys (GoMap.store m k v)
      = if (GoMap.load m k).isSome then GoMap.keys m else GoMap.keys m ++ [k] := by
  unfold GoMap.store GoMap.keys
  by_cases hp : (GoMap.load m k).isSome = true
  · rw [if_pos hp, if_pos hp, List.map_map]
    apply List.map_congr_left
    intro e _
    simp only [Function.comp]
    by_cases he : e.1 = k <;> simp [he]
  · rw [if_neg hp, if_neg hp]
    simp

theorem GoMap.load_of_mem {K V : Type} [DecidableEq K] (m : GoMap K V) (h : GoMap.IsMap m)
    (k : K) (v : V) : GoMap.load m k = some v ↔ (k, v) ∈ m := by
  unfold GoMap.IsMap GoMap.keys at h
  unfold GoMap.load
  induction m with
  | nil => simp
  | cons e m ih =>
    rw [List.map_cons, List.nodup_cons] at h
    rw [List.find?_cons]
    by_cases he : e.1 = k
    · simp only [he, decide_True, Option.map_some', Option.some.injEq, List.mem_cons]
      constructor
      · intro hv
        left
        rw [← hv, ← he]
      · rintro (hv | hv)
        · rw [← hv]
        · exfalso
          apply h.1
          rw [he]
          exact List.mem_map.mpr ⟨(k, v), hv, rfl⟩
    · simp only [he, decide_False, List.mem_cons]
      rw [ih h.2]
      constructor
      · intro hv; exact Or.inr hv
      · rintro (hv | hv)
        · exfalso; apply he; rw [← hv]
        · exact hv

theorem GoMap.load2_store {K T V : Type} [DecidableEq K] [DecidableEq T]
    (m : GoMap K (GoMap T V)) (k j : K) (inner : GoMap T V) (t : T) :
    GoMap.load2 (GoMap.store m k inner) j t
      = if j = k then GoMap.load inner t else GoMap.load2 m j t := by
  unfold GoMap.load2
  rw [GoMap.load_store]
  by_cases h : j = k <;> simp [h]

namespace Wallet

/-! ## Refresh -/

theorem refreshOutput_load2 (base58 : Address → String)
    (l : GoMap String (GoMap TransactionID Output)) (a : Address) (tx : TransactionID)
    (o : Output) (k : String) (t : TransactionID) :
    GoMap.load2 (refreshOutput base58 l a tx o) k t
      = if k = base58 a ∧ t = tx then some (mergeSpent o (GoMap.load2 l k t))
        else GoMap.load2 l k t := by
  have key : ∀ (local1 : GoMap String (GoMap TransactionID Output)),
      (∀ j s, GoMap.load2 local1 j s = GoMap.load2 l j s) →
      GoMap.load2
        (GoMap.store local1 (base58 a)
          (GoMap.store ((GoMap.load local1 (base58 a)).getD []) tx
            (match GoMap.load2 local1 (base58 a) tx with
              | some existingOutput =>
                if existingOutput.InclusionState.Spent then o.markSpent else o
              | none => o))) k t
        = if k = base58 a ∧ t = tx then some (mergeSpent o (GoMap.load2 l k t))
          else GoMap.load2 l k t := by
    intro local1 h1
    rw [GoMap.load2_store]
    by_cases hk : k = base58 a
    · subst hk
      rw [if_pos rfl, GoMap.load_store]
      by_cases ht : t = tx
      · subst ht
        rw [if_pos rfl, if_pos ⟨rfl, rfl⟩, h1]
        rfl
      · rw [if_neg ht, if_neg (fun h => ht h.2), ← h1]
        unfold GoMap.load2
        cases GoMap.load local1 (base58 a) <;> rfl
    · rw [if_neg hk, if_neg (fun h => hk h.1), h1]
  unfold refreshOutput
  simp only
  apply key
  intro j s
  by_cases hn : (GoMap.load l (base58 a)).isNone = true
  · rw [if_pos hn, GoMap.load2_store]
    by_cases hj : j = base58 a
    · subst hj
      rw [if_pos rfl]
      unfold GoMap.load2
      have : GoMap.load l (base58 a) = none := by simpa using hn
      rw [this]
      rfl
    · rw [if_neg hj]
  · rw [if_neg hn]

/-- The two loops of `Refresh` over a response. -/
theorem refresh_loop_invariant (base58 : Address → String)
    (P : GoMap String (GoMap TransactionID Output) → Prop)
    (hP : ∀ l a tx o, P l → P (refreshOutput base58 l a tx o)) (r : Response) :
    ∀ l, P l →
      P (r.foldl (fun acc entry =>
        entry.2.foldl (fun acc out => refreshOutput base58 acc entry.1 out.1 out.2) acc) l) := by
  induction r with
  | nil => intro l h; exact h
  | cons e r ih =>
    intro l h
    rw [List.foldl_cons]
    apply ih
    have inner : ∀ (outs : GoMap TransactionID Output) l', P l' →
        P (outs.foldl (fun acc out => refreshOutput base58 acc e.1 out.1 out.2) l') := by
      intro outs
      induction outs with
      | nil => intro l' h'; exact h'
      | cons x outs ih2 =>
        intro l' h'
        rw [List.foldl_cons]
        exact ih2 _ (hP _ _ _ _ h')
    exact inner e.2 l h

theorem refresh_loop_entries (base58 : Address → String) (r : Response) :
    ∀ l, r.foldl (fun acc entry =>
        entry.2.foldl (fun acc out => refreshOutput base58 acc entry.1 out.1 out.2) acc) l
      = (Response.entries base58 r).foldl
          (fun acc x => refreshOutput (fun _ => x.1) acc ⟨0, 0⟩ x.2.1 x.2.2) l := by
  induction r with
  | nil => intro l; rfl
  | cons e r ih =>
    intro l
    rw [List.foldl_cons, ih]
    unfold Response.entries
    rw [List.flatMap_cons, List.foldl_append, List.foldl_map]
    rfl

theorem entries_loop_other (es : List (String × TransactionID × Output)) (k : String)
    (t : TransactionID) (h : ∀ o, (k, t, o) ∉ es) :
    ∀ l, GoMap.load2
        (es.foldl (fun acc x => refreshOutput (fun _ => x.1) acc ⟨0, 0⟩ x.2.1 x.2.2) l) k t
      = GoMap.load2 l k t := by
  induction es with
  | nil => intro l; rfl
  | cons x es ih =>
    intro l
    rw [List.foldl_cons, ih (fun o ho => h o (List.mem_cons_of_mem _ ho)), refreshOutput_load2]
    rw [if_neg]
    rintro ⟨h1, h2⟩
    apply h x.2.2
    rw [h1, h2]
    exact List.mem_cons_self _ _

theorem entries_loop_entry (es : List (String × TransactionID × Output))
    (hn : (es.map (fun x => (x.1, x.2.1))).Nodup) (k : String) (t : TransactionID)
    (o : Output) (h : (k, t, o) ∈ es) :
    ∀ l, GoMap.load2
        (es.foldl (fun acc x => refreshOutput (fun _ => x.1) acc ⟨0, 0⟩ x.2.1 x.2.2) l) k t
      = some (mergeSpent o (GoMap.load2 l k t)) := by
  induction es with
  | nil => cases h
  | cons x es ih =>
    intro l
    rw [List.map_cons, List.nodup_cons] at hn
    rw [List.foldl_cons]
    rcases List.mem_cons.mp h with e | hmem
    · subst e
      rw [entries_loop_other es k t, refreshOutput_load2, if_pos ⟨rfl, rfl⟩]
      intro o' ho'
      exact hn.1 (List.mem_map.mpr ⟨(k, t, o'), ho', rfl⟩)
    · rw [ih hn.2 hmem, refreshOutput_load2, if_neg]
      rintro ⟨h1, h2⟩
      apply hn.1
      exact List.mem_map.mpr ⟨(k, t, o), hmem, by rw [h1, h2]⟩

theorem refresh_ok (base58 : Address → String)
    (connector : List Address → Except String Response) (m : UnspentOutputManager)
    (args : List Bool) (r : Response)
    (h : connector (addressesToRefresh m args) = Except.ok r) :
    (Refresh base58 connector m args).1 = none ∧
    (Refresh base58 connector m args).2.unspentOutputs
      = r.foldl (fun acc entry =>
          entry.2.foldl (fun acc out => refreshOutput base58 acc entry.1 out.1 out.2) acc)
        m.unspentOutputs := by
  unfold Refresh
  simp only
  rw [h]
  exact ⟨rfl, rfl⟩

theorem refresh_error (base58 : Address → String)
    (connector : List Address → Except String Response) (m : UnspentOutputManager)
    (args : List Bool) (err : String)
    (h : connector (addressesToRefresh m args) = Except.error err) :
    (Refresh base58 connector m args).1 = some err ∧
    (Refresh base58 connector m args).2.unspentOutputs = m.unspentOutputs := by
  unfold Refresh
  simp only
  rw [h]
  exact ⟨rfl, rfl⟩

theorem refresh_fields (base58 : Address → String)
    (connector : List Address → Except String Response) (m : UnspentOutputManager)
    (args : List Bool) :
    (Refresh base58 connector m args).2.addressManager = m.addressManager ∧
    (Refresh base58 connector m args).2.connectorCalls
      = m.connectorCalls ++ [addressesToRefresh m args] := by
  unfold Refresh
  simp only
  cases connector (addressesToRefresh m args) <;> exact ⟨rfl, rfl⟩

/-! ## MarkOutputSpent -/

theorem mark_unknown (base58 : Address → String) (m : UnspentOutputManager) (a : Address)
    (tx : TransactionID) (h : GoMap.load2 m.unspentOutputs (base58 a) tx = none) :
    MarkOutputSpent base58 m a tx = m := by
  unfold MarkOutputSpent
  unfold GoMap.load2 at h
  cases ho : GoMap.load m.unspentOutputs (base58 a) with
  | none => rfl
  | some outputs =>
    rw [ho] at h
    change GoMap.load outputs tx = none at h
    simp only
    rw [h]

theorem mark_known (base58 : Address → String) (m : UnspentOutputManager) (a : Address)
    (tx : TransactionID) (o : Output)
    (h : GoMap.load2 m.unspentOutputs (base58 a) tx = some o) :
    ∃ outputs, GoMap.load m.unspentOutputs (base58 a) = some outputs ∧
      GoMap.load outputs tx = some o ∧
      MarkOutputSpent base58 m a tx
        = { m with unspentOutputs :=
            (GoMap.store m.unspentOutputs (base58 a)
              (GoMap.store outputs tx o.markSpent)) } := by
  unfold MarkOutputSpent
  unfold GoMap.load2 at h
  cases ho : GoMap.load m.unspentOutputs (base58 a) with
  | none => rw [ho] at h; cases h
  | some outputs =>
    rw [ho] at h
    change GoMap.load outputs tx = some o at h
    refine ⟨outputs, rfl, h, ?_⟩
    simp only
    rw [h]

theorem mark_load2 (base58 : Address → String) (m : UnspentOutputManager) (a : Address)
    (tx : TransactionID) (k : String) (t : TransactionID) :
    GoMap.load2 (MarkOutputSpent base58 m a tx).unspentOutputs k t
      = if k = base58 a ∧ t = tx then (GoMap.load2 m.unspentOutputs k t).map Output.markSpent
        else GoMap.load2 m.unspentOutputs k t := by
  cases h : GoMap.load2 m.unspentOutputs (base58 a) tx with
  | none =>
    rw [mark_unknown base58 m a tx h]
    by_cases hk : k = base58 a ∧ t = tx
    · rw [if_pos hk, hk.1, hk.2, h]; rfl
    · rw [if_neg hk]
  | some o =>
    obtain ⟨outputs, ho, hi, heq⟩ := mark_known base58 m a tx o h
    rw [heq]
    simp only
    rw [GoMap.load2_store, GoMap.load_store]
    by_cases hk : k = base58 a
    · subst hk
      rw [if_pos rfl]
      by_cases ht : t = tx
      · subst ht
        rw [if_pos rfl, if_pos ⟨rfl, rfl⟩, h]; rfl
      · rw [if_neg ht, if_neg (fun hh => ht hh.2)]
        unfold GoMap.load2
        rw [ho]; rfl
    · rw [if_neg hk, if_neg (fun hh => hk hh.1)]

theorem mark_keys (base58 : Address → String) (m : UnspentOutputManager) (a : Address)
    (tx : TransactionID) :
    GoMap.keys (MarkOutputSpent base58 m a tx).unspentOutputs = GoMap.keys m.unspentOutputs ∧
    ∀ k, (GoMap.load (MarkOutputSpent base58 m a tx).unspentOutputs k).map GoMap.keys
      = (GoMap.load m.unspentOutputs k).map GoMap.keys := by
  cases h : GoMap.load2 m.unspentOutputs (base58 a) tx with
  | none => rw [mark_unknown base58 m a tx h]; exact ⟨rfl, fun _ => rfl⟩
  | some o =>
    obtain ⟨outputs, ho, hi, heq⟩ := mark_known base58 m a tx o h
    rw [heq]
    simp only
    constructor
    · rw [GoMap.keys_store, ho]; rfl
    · intro k
      rw [GoMap.load_store]
      by_cases hk : k = base58 a
      · subst hk
        rw [if_pos rfl, ho]
        simp only [Option.map_some', Option.some.injEq]
        rw [GoMap.keys_store, hi]; rfl
      · rw [if_neg hk]

theorem mergeSpent_eq (o : Output) (existing : Option Output) :
    mergeSpent o existing
      = { o with InclusionState := { o.InclusionState with
            Spent := o.InclusionState.Spent ||
              (match existing with
                | some e => e.InclusionState.Spent
                | none => false) } } := by
  obtain ⟨b, ⟨l, c, rj, cf, sp⟩⟩ := o
  unfold mergeSpent Output.markSpent
  cases existing with
  | none => simp
  | some e =>
    cases hs : e.InclusionState.Spent <;> simp [hs]

theorem mem_entries (base58 : Address → String) (r : Response) (k : String)
    (t : TransactionID) (o : Output) :
    (k, t, o) ∈ Response.entries base58 r ↔
      ∃ addr outs, (addr, outs) ∈ r ∧ (t, o) ∈ outs ∧ base58 addr = k := by
  unfold Response.entries
  rw [List.mem_flatMap]
  constructor
  · rintro ⟨e, he, hm⟩
    obtain ⟨x, hx, hxe⟩ := List.mem_map.mp hm
    simp only [Prod.mk.injEq] at hxe
    obtain ⟨h1, h2, h3⟩ := hxe
    refine ⟨e.1, e.2, he, ?_, h1⟩
    rw [← h2, ← h3]
    exact hx
  · rintro ⟨addr, outs, hr, ho, hk⟩
    exact ⟨(addr, outs), hr, List.mem_map.mpr ⟨(t, o), ho, by rw [hk]⟩⟩

theorem refresh_keeps_spent (base58 : Address → String)
    (connector : List Address → Except String Response) (m : UnspentOutputManager)
    (args : List Bool) (k : String) (t : TransactionID)
    (h : ∃ o', GoMap.load2 m.unspentOutputs k t = some o' ∧ o'.InclusionState.Spent = true) :
    ∃ o', GoMap.load2 (Refresh base58 connector m args).2.unspentOutputs k t = some o' ∧
      o'.InclusionState.Spent = true := by
  cases hc : connector (addressesToRefresh m args) with
  | error err =>
    rw [(refresh_error base58 connector m args err hc).2]
    exact h
  | ok r =>
    rw [(refresh_ok base58 connector m args r hc).2]
    refine refresh_loop_invariant base58
      (fun l => ∃ o', GoMap.load2 l k t = some o' ∧ o'.InclusionState.Spent = true)
      ?_ r _ h
    intro l a tx out ⟨o', ho', hs⟩
    rw [refreshOutput_load2]
    by_cases hk : k = base58 a ∧ t = tx
    · rw [if_pos hk, ho']
      refine ⟨_, rfl, ?_⟩
      unfold mergeSpent
      simp only [hs, if_true]
      rfl
    · rw [if_neg hk]
      exact ⟨o', ho', hs⟩

theorem mark_keeps_spent (base58 : Address → String) (m : UnspentOutputManager)
    (a : Address) (tx : TransactionID) (k : String) (t : TransactionID)
    (h : ∃ o', GoMap.load2 m.unspentOutputs k t = some o' ∧ o'.InclusionState.Spent = true) :
    ∃ o', GoMap.load2 (MarkOutputSpent base58 m a tx).unspentOutputs k t = some o' ∧
      o'.InclusionState.Spent = true := by
  obtain ⟨o', ho', hs⟩ := h
  rw [mark_load2]
  by_cases hk : k = base58 a ∧ t = tx
  · rw [if_pos hk, ho']
    exact ⟨o'.markSpent, rfl, rfl⟩
  · rw [if_neg hk]
    exact ⟨o', ho', hs⟩

theorem applyOps_keeps_spent (base58 : Address → String) (ops : List Op) (k : String)
    (t : TransactionID) :
    ∀ m : UnspentOutputManager,
      (∃ o', GoMap.load2 m.unspentOutputs k t = some o' ∧ o'.InclusionState.Spent = true) →
      ∃ o', GoMap.load2 (applyOps base58 m ops).unspentOutputs k t = some o' ∧
        o'.InclusionState.Spent = true := by
  induction ops with
  | nil => intro m h; exact h
  | cons op ops ih =>
    intro m h
    unfold applyOps at ih ⊢
    rw [List.foldl_cons]
    apply ih
    cases op with
    | refresh connector args => exact refresh_keeps_spent base58 connector m args k t h
    | markOutputSpent a tx => exact mark_keeps_spent base58 m a tx k t h

/-- C13: for every manager state and every output stored locally under
`(addr, txID)`: after `MarkOutputSpent(addr, txID)`, then any sequence of further
`Refresh` and `MarkOutputSpent` calls, then a `Refresh` with any arguments and
any connector behaviour (a failure, or a response that reports the output with
any spent flag), the output stored locally under `(addr, txID)` has
`Spent = true`. -/
theorem spent_survives_refresh (base58 : Address → String)
    (connector : List Address → Except String Response) (m : UnspentOutputManager)
    (addr : Address) (txID : TransactionID) (o : Output) (between : List Op)
    (args : List Bool)
    (hstored : GoMap.load2 m.unspentOutputs (base58 addr) txID = some o) :
    ∃ o', GoMap.load2
        (Refresh base58 connector
          (applyOps base58 (MarkOutputSpent base58 m addr txID) between)
          args).2.unspentOutputs
        (base58 addr) txID = some o' ∧
      o'.InclusionState.Spent = true := by
  have hmark : ∃ o', GoMap.load2 (MarkOutputSpent base58 m addr txID).unspentOutputs
      (base58 addr) txID = some o' ∧ o'.InclusionState.Spent = true := by
    rw [mark_load2, if_pos ⟨rfl, rfl⟩, hstored]
    exact ⟨o.markSpent, rfl, rfl⟩
  exact refresh_keeps_spent base58 connector _ args _ _
    (applyOps_keeps_spent base58 between _ _ _ hmark)

theorem spent_survives_refresh_witness :
    GoMap.load2 Example.manager.unspentOutputs (Example.base58 Example.addrA) 7
        = some Example.unspent ∧
      Example.unspent.InclusionState.Spent = false ∧
      ∃ o', GoMap.load2
          (Refresh Example.base58 Example.connector
            (applyOps Example.base58
              (MarkOutputSpent Example.base58 Example.manager Example.addrA 7)
              [Op.refresh Example.failing [true], Op.markOutputSpent Example.addrB 8])
            [false]).2.unspentOutputs
          (Example.base58 Example.addrA) 7 = some o' ∧
        o'.InclusionState.Spent = true :=
  ⟨by decide, by decide,
    spent_survives_refresh Example.base58 Example.connector Example.manager Example.addrA 7
      Example.unspent [Op.refresh Example.failing [true], Op.markOutputSpent Example.addrB 8]
      [false] (by decide)⟩

/-- C17: `Refresh` asks the connector for `addressManager.Addresses()` exactly when
its first argument is present and true, and for `addressManager.UnspentAddresses()`
otherwise, also when it is called without argument; the arguments after the first
play no part. -/
theorem refresh_asks_connector (base58 : Address → String)
    (connector : List Address → Except String Response) (m : UnspentOutputManager)
    (args : List Bool) :
    (Refresh base58 connector m args).2.connectorCalls
      = m.connectorCalls ++
        [match args with
          | true :: _ => m.addressManager.Addresses
          | _ => m.addressManager.UnspentAddresses] ∧
    (∀ err, (Refresh base58 connector m args).1 = some err →
      connector (match args with
          | true :: _ => m.addressManager.Addresses
          | _ => m.addressManager.UnspentAddresses) = Except.error err) := by
  have ha : addressesToRefresh m args
      = (match args with
          | true :: _ => m.addressManager.Addresses
          | _ => m.addressManager.UnspentAddresses) := by
    unfold addressesToRefresh
    cases args with
    | nil => simp
    | cons b rest => cases b <;> simp
  rw [← ha]
  refine ⟨(refresh_fields base58 connector m args).2, ?_⟩
  intro err herr
  cases hc : connector (addressesToRefresh m args) with
  | error e =>
    rw [(refresh_error base58 connector m args e hc).1] at herr
    cases herr
    rfl
  | ok r =>
    rw [(refresh_ok base58 connector m args r hc).1] at herr
    cases herr

/-! ## UnspentOutputs -/

theorem result_store_load2 (acc : GoMap Address (GoMap TransactionID Output)) (a : Address)
    (t : TransactionID) (o : Output) (a' : Address) (t' : TransactionID) :
    GoMap.load2
        (GoMap.store (if (GoMap.load acc a).isNone then GoMap.store acc a [] else acc) a
          (GoMap.store
            ((GoMap.load (if (GoMap.load acc a).isNone then GoMap.store acc a [] else acc)
              a).getD []) t o)) a' t'
      = if a' = a ∧ t' = t then some o else GoMap.load2 acc a' t' := by
  have h1 : ∀ j s, GoMap.load2
      (if (GoMap.load acc a).isNone then GoMap.store acc a [] else acc) j s
        = GoMap.load2 acc j s := by
    intro j s
    by_cases hn : (GoMap.load acc a).isNone = true
    · rw [if_pos hn, GoMap.load2_store]
      by_cases hj : j = a
      · subst hj
        rw [if_pos rfl]
        unfold GoMap.load2
        have : GoMap.load acc j = none := by simpa using hn
        rw [this]
        rfl
      · rw [if_neg hj]
    · rw [if_neg hn]
  generalize (if (GoMap.load acc a).isNone then GoMap.store acc a [] else acc) = r1 at h1 ⊢
  rw [GoMap.load2_store]
  by_cases hk : a' = a
  · subst hk
    rw [if_pos rfl, GoMap.load_store]
    by_cases ht : t' = t
    · rw [if_pos ht, if_pos ⟨rfl, ht⟩]
    · rw [if_neg ht, if_neg (fun h => ht h.2), ← h1]
      unfold GoMap.load2
      cases GoMap.load r1 a' <;> rfl
  · rw [if_neg hk, if_neg (fun h => hk h.1), h1]

theorem unspent_inner_loop (a : Address) (outs : GoMap TransactionID Output)
    (hmap : GoMap.IsMap outs) (a' : Address) (t' : TransactionID) :
    ∀ acc : GoMap Address (GoMap TransactionID Output),
      GoMap.load2
        (outs.foldl
          (fun unspentOutputs out =>
            if out.2.InclusionState.Spent then unspentOutputs
            else
              GoMap.store
                (if (GoMap.load unspentOutputs a).isNone
                  then GoMap.store unspentOutputs a [] else unspentOutputs) a
                (GoMap.store
                  ((GoMap.load (if (GoMap.load unspentOutputs a).isNone
                    then GoMap.store unspentOutputs a [] else unspentOutputs) a).getD [])
                  out.1 out.2))
          acc) a' t'
      = ((if a' = a then
            (GoMap.load outs t').filter (fun o => !o.InclusionState.Spent)
          else none).or (GoMap.load2 acc a' t')) := by
  induction outs with
  | nil => intro acc; by_cases h : a' = a <;> simp [h, GoMap.load]
  | cons x rest ih =>
    intro acc
    have hn : x.1 ∉ GoMap.keys rest ∧ GoMap.IsMap rest := by
      unfold GoMap.IsMap GoMap.keys at hmap ⊢
      rw [List.map_cons, List.nodup_cons] at hmap
      exact hmap
    have hrest : GoMap.load rest x.1 = none := by
      cases h : GoMap.load rest x.1 with
      | none => rfl
      | some v =>
        exfalso
        apply hn.1
        rw [← GoMap.load_isSome_iff, h]; rfl
    have hcons : GoMap.load (x :: rest) t'
        = if x.1 = t' then some x.2 else GoMap.load rest t' := by
      unfold GoMap.load
      rw [List.find?_cons]
      by_cases h : x.1 = t' <;> simp [h]
    rw [List.foldl_cons, ih hn.2, hcons]
    by_cases hs : x.2.InclusionState.Spent = true
    · rw [if_pos hs]
      by_cases ha : a' = a
      · simp only [ha, if_true]
        by_cases ht : x.1 = t'
        · subst ht
          rw [hrest, if_pos rfl]
          simp [Option.filter, hs]
        · rw [if_neg ht]
      · simp only [ha, if_false]
    · rw [if_neg hs, result_store_load2]
      have hs' : x.2.InclusionState.Spent = false := by simpa using hs
      by_cases ha : a' = a
      · simp only [ha, if_true, true_and]
        by_cases ht : x.1 = t'
        · subst ht
          rw [hrest, if_pos rfl, if_pos rfl]
          simp [Option.filter, hs']
        · have ht' : ¬ t' = x.1 := fun h => ht h.symm
          rw [if_neg ht, if_neg ht']
      · simp only [ha, if_false, false_and]

theorem unspent_outer_loop (base58 : Address → String)
    (local0 : GoMap String (GoMap TransactionID Output))
    (hmap : ∀ k inner, GoMap.load local0 k = some inner → GoMap.IsMap inner)
    (addrs : List Address) (a' : Address) (t' : TransactionID) :
    ∀ acc : GoMap Address (GoMap TransactionID Output),
      GoMap.load2
        (addrs.foldl
          (fun unspentOutputs addr =>
            match GoMap.load local0 (base58 addr) with
            | none => unspentOutputs
            | some unspentOutputsOnAddress =>
              unspentOutputsOnAddress.foldl
                (fun unspentOutputs out =>
                  if out.2.InclusionState.Spent then unspentOutputs
                  else
                    let result1 :=
                      if (GoMap.load unspentOutputs addr).isNone
                      then GoMap.store unspentOutputs addr []
                      else unspentOutputs
                    GoMap.store result1 addr
                      (GoMap.store ((GoMap.load result1 addr).getD []) out.1 out.2))
                unspentOutputs)
          acc) a' t'
      = ((if a' ∈ addrs then
            (GoMap.load2 local0 (base58 a') t').filter (fun o => !o.InclusionState.Spent)
          else none).or (GoMap.load2 acc a' t')) := by
  induction addrs with
  | nil => intro acc; simp
  | cons addr rest ih =>
    intro acc
    rw [List.foldl_cons, ih]
    have hstep : GoMap.load2
        (match GoMap.load local0 (base58 addr) with
          | none => acc
          | some unspentOutputsOnAddress =>
            unspentOutputsOnAddress.foldl
              (fun unspentOutputs out =>
                if out.2.InclusionState.Spent then unspentOutputs
                else
                  let result1 :=
                    if (GoMap.load unspentOutputs addr).isNone
                    then GoMap.store unspentOutputs addr []
                    else unspentOutputs
                  GoMap.store result1 addr
                    (GoMap.store ((GoMap.load result1 addr).getD []) out.1 out.2))
              acc) a' t'
        = ((if a' = addr then
              (GoMap.load2 local0 (base58 a') t').filter (fun o => !o.InclusionState.Spent)
            else none).or (GoMap.load2 acc a' t')) := by
      cases hl : GoMap.load local0 (base58 addr) with
      | none =>
        simp only
        by_cases ha : a' = addr
        · subst ha
          unfold GoMap.load2
          rw [hl]
          simp
        · simp [ha]
      | some outs =>
        simp only
        rw [unspent_inner_loop addr outs (hmap _ _ hl)]
        by_cases ha : a' = addr
        · subst ha
          simp only [if_true]
          unfold GoMap.load2
          rw [hl]
          rfl
        · simp only [ha, if_false]
    rw [hstep]
    by_cases h1 : a' = addr
    · subst h1
      by_cases h2 : a' ∈ rest
      · simp only [h2, if_true, List.mem_cons, true_or, or_true]
        cases (Option.filter (fun o => !o.InclusionState.Spent)
          (GoMap.load2 local0 (base58 a') t')) <;> simp
      · simp [h2]
    · by_cases h2 : a' ∈ rest
      · simp [h1, h2]
      · simp [h1, h2]

/-- C14: for every manager whose inner maps are maps (one entry per transaction)
and every non-empty list of addresses, `UnspentOutputs` returns `o` under
`(addr, txID)` exactly when `addr` is in the list, `o` is stored locally under
`(addr.Base58(), txID)` and `o.InclusionState.Spent` is false; so no returned
output has `Spent = true`. -/
theorem unspentOutputs_spec (base58 : Address → String) (m : UnspentOutputManager)
    (addresses : List Address) (hne : addresses ≠ [])
    (hmap : ∀ k inner, GoMap.load m.unspentOutputs k = some inner → GoMap.IsMap inner)
    (addr : Address) (txID : TransactionID) (o : Output) :
    (GoMap.load2 (UnspentOutputs base58 m addresses) addr txID = some o ↔
      addr ∈ addresses ∧
        GoMap.load2 m.unspentOutputs (base58 addr) txID = some o ∧
        o.InclusionState.Spent = false) ∧
    (GoMap.load2 (UnspentOutputs base58 m addresses) addr txID = some o →
      o.InclusionState.Spent ≠ true) := by
  have hlen : ¬ addresses.length = 0 := by
    intro h; exact hne (List.length_eq_zero.mp h)
  have key : GoMap.load2 (UnspentOutputs base58 m addresses) addr txID = some o ↔
      addr ∈ addresses ∧
        GoMap.load2 m.unspentOutputs (base58 addr) txID = some o ∧
        o.InclusionState.Spent = false := by
    unfold UnspentOutputs
    simp only [hlen, if_false]
    rw [unspent_outer_loop base58 m.unspentOutputs hmap addresses addr txID []]
    have hnil : GoMap.load2 ([] : GoMap Address (GoMap TransactionID Output)) addr txID
        = none := rfl
    rw [hnil]
    by_cases ha : addr ∈ addresses
    · simp only [ha, if_true, true_and, Option.or_none]
      cases hl : GoMap.load2 m.unspentOutputs (base58 addr) txID with
      | none => simp
      | some o' =>
        cases hs : o'.InclusionState.Spent with
        | false =>
          simp only [Option.filter, hs, Bool.not_false, if_true, Option.some.injEq]
          constructor
          · intro h; subst h; exact ⟨rfl, hs⟩
          · intro h; exact h.1
        | true =>
          simp only [Option.filter, hs, Bool.not_true, Option.some.injEq]
          constructor
          · intro h; simp at h
          · rintro ⟨h1, h2⟩
            subst h1
            rw [hs] at h2
            cases h2
    · simp [ha]
  refine ⟨key, ?_⟩
  intro h
  rw [(key.mp h).2.2]
  simp

theorem unspentOutputs_spec_witness :
    [Example.addrA, Example.addrB] ≠ [] ∧
      UnspentOutputs Example.base58
          (MarkOutputSpent Example.base58 Example.manager Example.addrA 7)
          [Example.addrA, Example.addrB]
        = [(Example.addrB, [(8, Example.unspent)])] ∧
      ((GoMap.load2
          (UnspentOutputs Example.base58
            (MarkOutputSpent Example.base58 Example.manager Example.addrA 7)
            [Example.addrA, Example.addrB]) Example.addrB 8 = some Example.unspent ↔
        Example.addrB ∈ [Example.addrA, Example.addrB] ∧
          GoMap.load2 (MarkOutputSpent Example.base58 Example.manager Example.addrA
            7).unspentOutputs (Example.base58 Example.addrB) 8 = some Example.unspent ∧
          Example.unspent.InclusionState.Spent = false) ∧
      (GoMap.load2
          (UnspentOutputs Example.base58
            (MarkOutputSpent Example.base58 Example.manager Example.addrA 7)
            [Example.addrA, Example.addrB]) Example.addrB 8 = some Example.unspent →
        Example.unspent.InclusionState.Spent ≠ true)) :=
  ⟨by decide, by decide,
    unspentOutputs_spec Example.base58
      (MarkOutputSpent Example.base58 Example.manager Example.addrA 7)
      [Example.addrA, Example.addrB] (by decide)
      (by
        intro k inner h
        have hin : (k, inner) ∈ (MarkOutputSpent Example.base58 Example.manager
            Example.addrA 7).unspentOutputs := by
          unfold GoMap.load at h
          cases hf : List.find? (fun e => decide (e.1 = k))
              (MarkOutputSpent Example.base58 Example.manager Example.addrA 7).unspentOutputs with
          | none => rw [hf] at h; cases h
          | some e =>
            rw [hf] at h
            have h1 : e.1 = k := by simpa using List.find?_some hf
            have h2 : e.2 = inner := by simpa using h
            have := List.mem_of_find?_eq_some hf
            rw [← h1, ← h2]
            exact this
        have hall : ∀ e ∈ (MarkOutputSpent Example.base58 Example.manager
            Example.addrA 7).unspentOutputs, GoMap.IsMap e.2 := by decide
        exact hall _ hin)
      Example.addrB 8 Example.unspent⟩

end Wallet

namespace MessageLayer

/-! ## The SyncChanged handler -/

theorem onSyncChanged_unsynced (rate : Duration) (s : PluginState) :
    onSyncChanged rate s false
      = ⟨s.syncedOnce, rate - Int.tdiv rate 2,
          s.calls ++ [Call.LogInfoSyncChanged false,
            Call.SchedulerSetRate (rate - Int.tdiv rate 2),
            Call.LogInfofSchedulerRate (rate - Int.tdiv rate 2)]⟩ := by
  simp [onSyncChanged, SetRate, PluginState.call]

theorem onSyncChanged_synced_first (rate : Duration) (s : PluginState)
    (h : s.syncedOnce = false) :
    onSyncChanged rate s true
      = ⟨true, rate,
          s.calls ++ [Call.LogInfoSyncChanged true, Call.SchedulerSetup,
            Call.FifoSchedulerDetach, Call.FifoSchedulerShutdown, Call.SchedulerStart,
            Call.SchedulerSetRate rate, Call.LogInfofSchedulerRate rate]⟩ := by
  simp [onSyncChanged, SetRate, PluginState.call, h]

theorem onSyncChanged_synced_later (rate : Duration) (s : PluginState)
    (h : s.syncedOnce = true) :
    onSyncChanged rate s true
      = ⟨true, rate,
          s.calls ++ [Call.LogInfoSyncChanged true,
            Call.SchedulerSetRate rate, Call.LogInfofSchedulerRate rate]⟩ := by
  simp [onSyncChanged, SetRate, PluginState.call, h]

theorem handleAll_unsynced (rate : Duration) (pre : List Bool)
    (hpre : ∀ e ∈ pre, e = false) :
    ∀ s : PluginState, (handleAll rate s pre).syncedOnce = s.syncedOnce ∧
      (handleAll rate s pre).calls.filter Call.isHandoff
        = s.calls.filter Call.isHandoff := by
  induction pre with
  | nil => intro s; exact ⟨rfl, rfl⟩
  | cons e pre ih =>
    intro s
    have he : e = false := hpre e (List.mem_cons_self _ _)
    subst he
    obtain ⟨h1, h2⟩ := ih (fun e he => hpre e (List.mem_cons_of_mem _ he))
      (onSyncChanged rate s false)
    unfold handleAll at h1 h2 ⊢
    rw [List.foldl_cons, h1, h2, onSyncChanged_unsynced]
    simp [List.filter_append, List.filter_cons, Call.isHandoff]

theorem handleAll_after_synced (rate : Duration) (post : List Bool) :
    ∀ s : PluginState, s.syncedOnce = true →
      (handleAll rate s post).syncedOnce = true ∧
      (handleAll rate s post).calls.filter Call.isHandoff
        = s.calls.filter Call.isHandoff := by
  induction post with
  | nil => intro s h; exact ⟨h, rfl⟩
  | cons e post ih =>
    intro s h
    unfold handleAll at ih ⊢
    rw [List.foldl_cons]
    cases e with
    | false =>
      obtain ⟨h1, h2⟩ := ih (onSyncChanged rate s false)
        (by rw [onSyncChanged_unsynced]; exact h)
      rw [h1, h2, onSyncChanged_unsynced]
      simp [List.filter_append, List.filter_cons, Call.isHandoff]
    | true =>
      obtain ⟨h1, h2⟩ := ih (onSyncChanged rate s true)
        (by rw [onSyncChanged_synced_later rate s h])
      rw [h1, h2, onSyncChanged_synced_later rate s h]
      simp [List.filter_append, List.filter_cons, Call.isHandoff]

theorem split_first_synced (events : List Bool) (h : true ∈ events) :
    ∃ pre post, events = pre ++ true :: post ∧ ∀ e ∈ pre, e = false := by
  induction events with
  | nil => cases h
  | cons e rest ih =>
    cases e with
    | true => exact ⟨[], rest, rfl, fun e he => by cases he⟩
    | false =>
      have h' : true ∈ rest := by
        rcases List.mem_cons.mp h with h1 | h1
        · cases h1
        · exact h1
      obtain ⟨pre, post, heq, hpre⟩ := ih h'
      refine ⟨false :: pre, post, by rw [heq]; rfl, ?_⟩
      intro x hx
      rcases List.mem_cons.mp hx with h1 | h1
      · exact h1
      · exact hpre x h1

/-- C18: for every sequence of `SyncChanged` events processed by the handler,
starting before `syncedOnce` has run: the handoff calls made in total are none if
no event has `Synced = true`, and otherwise exactly `Scheduler.Setup`,
`FifoScheduler.Detach`, `FifoScheduler.Shutdown`, `Scheduler.Start`, once and in
this order; they are made while the first event with `Synced = true` is handled
(the events before it, all with `Synced = false`, make none, and the calls of
that event are the log line, the four handoff calls, `SetRate` and a log line);
the events after it, whatever their `Synced`, make none. -/
theorem handoff_once (rate rate0 : Duration) :
    (∀ events, (handleAll rate (PluginState.initial rate0) events).calls.filter
        Call.isHandoff
      = if true ∈ events then
          [Call.SchedulerSetup, Call.FifoSchedulerDetach, Call.FifoSchedulerShutdown,
            Call.SchedulerStart]
        else []) ∧
    (∀ pre, (∀ e ∈ pre, e = false) →
      (handleAll rate (PluginState.initial rate0) pre).calls.filter Call.isHandoff = [] ∧
      (handleAll rate (PluginState.initial rate0) (pre ++ [true])).calls
        = (handleAll rate (PluginState.initial rate0) pre).calls ++
          [Call.LogInfoSyncChanged true, Call.SchedulerSetup, Call.FifoSchedulerDetach,
            Call.FifoSchedulerShutdown, Call.SchedulerStart, Call.SchedulerSetRate rate,
            Call.LogInfofSchedulerRate rate] ∧
      ∀ post,
        (handleAll rate (PluginState.initial rate0) (pre ++ true :: post)).calls.filter
            Call.isHandoff
          = (handleAll rate (PluginState.initial rate0) (pre ++ [true])).calls.filter
            Call.isHandoff) := by
  have hfirst : ∀ pre, (∀ e ∈ pre, e = false) →
      (handleAll rate (PluginState.initial rate0) (pre ++ [true]))
        = ⟨true, rate, (handleAll rate (PluginState.initial rate0) pre).calls ++
          [Call.LogInfoSyncChanged true, Call.SchedulerSetup, Call.FifoSchedulerDetach,
            Call.FifoSchedulerShutdown, Call.SchedulerStart, Call.SchedulerSetRate rate,
            Call.LogInfofSchedulerRate rate]⟩ := by
    intro pre hpre
    obtain ⟨h1, _⟩ := handleAll_unsynced rate pre hpre (PluginState.initial rate0)
    have : handleAll rate (PluginState.initial rate0) (pre ++ [true])
        = onSyncChanged rate (handleAll rate (PluginState.initial rate0) pre) true := by
      unfold handleAll
      rw [List.foldl_append]; rfl
    rw [this, onSyncChanged_synced_first rate _ (by rw [h1]; rfl)]
  have hsplit : ∀ pre post,
      handleAll rate (PluginState.initial rate0) (pre ++ true :: post)
        = handleAll rate (handleAll rate (PluginState.initial rate0) (pre ++ [true])) post := by
    intro pre post
    unfold handleAll
    rw [List.foldl_append, List.foldl_append]
    rfl
  have hlater : ∀ pre post, (∀ e ∈ pre, e = false) →
      (handleAll rate (PluginState.initial rate0) (pre ++ true :: post)).calls.filter
          Call.isHandoff
        = (handleAll rate (PluginState.initial rate0) (pre ++ [true])).calls.filter
          Call.isHandoff := by
    intro pre post hpre
    rw [hsplit]
    exact (handleAll_after_synced rate post _ (by rw [hfirst pre hpre])).2
  have hnone : ∀ pre, (∀ e ∈ pre, e = false) →
      (handleAll rate (PluginState.initial rate0) pre).calls.filter Call.isHandoff = [] := by
    intro pre hpre
    rw [(handleAll_unsynced rate pre hpre (PluginState.initial rate0)).2]
    rfl
  refine ⟨?_, fun pre hpre => ⟨hnone pre hpre, by rw [hfirst pre hpre], fun post =>
    hlater pre post hpre⟩⟩
  intro events
  by_cases h : true ∈ events
  · rw [if_pos h]
    obtain ⟨pre, post, heq, hpre⟩ := split_first_synced events h
    rw [heq, hlater pre post hpre, hfirst pre hpre]
    simp only [List.filter_append, hnone pre hpre]
    rfl
  · rw [if_neg h]
    apply hnone
    intro e he
    cases e with
    | false => rfl
    | true => exact absurd he h

theorem handoff_once_witness :
    (∀ e ∈ [false, false], e = false) ∧
      (handleAll 5000000 (PluginState.initial 5000000) [false, false]).calls.filter
        Call.isHandoff = [] ∧
      (handleAll 5000000 (PluginState.initial 5000000) ([false, false] ++ [true])).calls
        = (handleAll 5000000 (PluginState.initial 5000000) [false, false]).calls ++
          [Call.LogInfoSyncChanged true, Call.SchedulerSetup, Call.FifoSchedulerDetach,
            Call.FifoSchedulerShutdown, Call.SchedulerStart,
            Call.SchedulerSetRate 5000000, Call.LogInfofSchedulerRate 5000000] ∧
      ∀ post,
        (handleAll 5000000 (PluginState.initial 5000000)
            ([false, false] ++ true :: post)).calls.filter Call.isHandoff
          = (handleAll 5000000 (PluginState.initial 5000000)
            ([false, false] ++ [true])).calls.filter Call.isHandoff :=
  ⟨by decide, (handoff_once 5000000 5000000).2 [false, false] (by decide)⟩

/-- C19, on the code: with a configured time per message of 6 ms, a `SyncChanged`
event with `Synced = false` sets the scheduler to 3 ms per message, that is
twice the configured number of messages per unit of time; 1.5 times as many would
be 4 ms, so three times the value set is not twice the configured value. -/
theorem unsynced_rate_is_doubled (s : PluginState) :
    (onSyncChanged 6000000 s false).schedulerRate = 3000000 ∧
      2 * (onSyncChanged 6000000 s false).schedulerRate = 6000000 ∧
      3 * (onSyncChanged 6000000 s false).schedulerRate ≠ 2 * 6000000 := by
  rw [onSyncChanged_unsynced]
  refine ⟨?_, ?_, ?_⟩
  · show (6000000 : Int) - Int.tdiv 6000000 2 = 3000000
    decide
  · show 2 * ((6000000 : Int) - Int.tdiv 6000000 2) = 6000000
    decide
  · show 3 * ((6000000 : Int) - Int.tdiv 6000000 2) ≠ 2 * 6000000
    decide

/-- C20: on every `SyncChanged` event with `Synced = true`, whether `syncedOnce`
has already run or not and whatever rate was set before, the handler sets the
scheduler rate to exactly the configured rate: the rate after the event is the
configured one and the last `SetRate` call made has it as argument. -/
theorem synced_sets_configured_rate (configuredRate : Duration) (s : PluginState) :
    (onSyncChanged configuredRate s true).schedulerRate = configuredRate ∧
      ∃ before, (onSyncChanged configuredRate s true).calls
        = s.calls ++ before ++
          [Call.SchedulerSetRate configuredRate,
            Call.LogInfofSchedulerRate configuredRate] ∧
        ∀ c ∈ before, ∀ r, c ≠ Call.SchedulerSetRate r := by
  cases h : s.syncedOnce with
  | false =>
    rw [onSyncChanged_synced_first configuredRate s h]
    refine ⟨rfl, [Call.LogInfoSyncChanged true, Call.SchedulerSetup,
      Call.FifoSchedulerDetach, Call.FifoSchedulerShutdown, Call.SchedulerStart], ?_, ?_⟩
    · simp
    · intro c hc r
      simp at hc
      rcases hc with h | h | h | h | h <;> rw [h] <;> simp
  | true =>
    rw [onSyncChanged_synced_later configuredRate s h]
    refine ⟨rfl, [Call.LogInfoSyncChanged true], ?_, ?_⟩
    · simp
    · intro c hc r
      simp at hc
      rw [hc]; simp

end MessageLayer

/-! ## Invalid parents, termination and absent parents -/

theorem blocked_by_invalid_parent {t : Tangle} (hj : t.FlagsJustified) {msg : Message}
    (hm : Storage.Message t msg.id = some msg) {p : MessageID}
    (hp : p ∈ msg.parentIDs) (hne : p ≠ EmptyMessageID) (hinv : t.IsInvalid p = true) :
    t.IsSolid p = false ∧ t.IsSolid msg.id = false ∧ t.IsInvalid msg.id = false := by
  have hps : t.IsSolid p = false := by
    cases h : t.IsSolid p with
    | false => rfl
    | true =>
      have h1 := (hj.solid p h).1
      rw [hinv] at h1
      cases h1
  refine ⟨hps, ?_, ?_⟩
  · cases h : t.IsSolid msg.id with
    | false => rfl
    | true =>
      obtain ⟨_, msg', hm', hall⟩ := hj.solid msg.id h
      rw [hm] at hm'
      cases hm'
      have h1 := (hall p hp hne).1
      rw [hps] at h1
      cases h1
  · cases h : t.IsInvalid msg.id with
    | false => rfl
    | true =>
      obtain ⟨msg', hm', hall, _⟩ := hj.invalid msg.id h
      rw [hm] at hm'
      cases hm'
      have h1 := hall p hp hne
      rw [hps] at h1
      cases h1

theorem storeMessage_keeps_message (t : Tangle) (x msg : Message) (j : MessageID)
    (h : Storage.Message t j = some msg) :
    Storage.Message (Storage.StoreMessage t x) j = some msg := by
  cases hx : Storage.Message t x.id with
  | some m => rw [storeMessage_stored t x m hx]; exact h
  | none =>
    unfold Storage.Message at h ⊢
    rw [(storeMessage_fresh t x hx).1, List.find?_append, h]
    rfl

theorem no_invalid_parent_of_solid_check {t : Tangle} (hj : t.FlagsJustified) {msg : Message}
    (hm : Storage.Message t msg.id = some msg)
    (hs : (isMessageSolid t (some msg) (some msg.id)).1 = true) :
    ∀ q ∈ msg.parentIDs, q ≠ EmptyMessageID → t.IsInvalid q = false := by
  intro q hq hne
  rw [isMessageSolid_fst] at hs
  simp only [Bool.and_eq_true, Bool.or_eq_true] at hs
  have hqs : t.IsSolid q = true := by
    rcases hs.2 with h | h
    · obtain ⟨_, msg', hm', hall⟩ := hj.solid msg.id h
      rw [hm] at hm'
      cases hm'
      exact (hall q hq hne).1
    · exact (parentsSolid_iff t msg).mp h q hq hne
  exact (hj.solid q hqs).1

/-- C24: in a state reached from a store without flags, a stored message `msg`
that has a non-genesis parent `p` marked invalid is neither marked solid nor
marked invalid; `p` is not marked solid, `isMessageSolid` returns false on `msg`,
`checkMessageSolidity` returns nothing to visit, and after every `Solidify` call
and in every state reached later `msg` still carries neither flag. Whenever
`isMessageSolid` returns true on a stored message, none of its parents is marked
invalid, so the invalid test of `isParentMessageValid` never decides. -/
theorem invalid_parent_never_flags_child (t0 t : Tangle) (h0 : t0.NoFlags)
    (hr : Reachable t0 t) (msg : Message) (hm : Storage.Message t msg.id = some msg)
    (p : MessageID) (hp : p ∈ msg.strongParents ++ msg.weakParents)
    (hne : p ≠ EmptyMessageID) (hinv : t.IsInvalid p = true) :
    t.IsSolid p = false ∧ t.IsSolid msg.id = false ∧ t.IsInvalid msg.id = false ∧
    (isMessageSolid t (some msg) (some msg.id)).1 = false ∧
    (checkMessageSolidity t (some msg) (some msg.id)).1 = [] ∧
    (∀ fuel id t', Solidify fuel t id = some t' →
      t'.IsSolid msg.id = false ∧ t'.IsInvalid msg.id = false) ∧
    (∀ t', Reachable t t' → t'.IsSolid msg.id = false ∧ t'.IsInvalid msg.id = false) ∧
    (∀ m, Storage.Message t m.id = some m →
      (isMessageSolid t (some m) (some m.id)).1 = true →
      ∀ q ∈ m.strongParents ++ m.weakParents, q ≠ EmptyMessageID →
        t.IsInvalid q = false) := by
  have hj := reachable_flagsJustified h0 hr
  obtain ⟨b1, b2, b3⟩ := blocked_by_invalid_parent hj hm hp hne hinv
  have hsol : (isMessageSolid t (some msg) (some msg.id)).1 = false := by
    cases h : (isMessageSolid t (some msg) (some msg.id)).1 with
    | false => rfl
    | true =>
      have h1 := no_invalid_parent_of_solid_check hj hm h p hp hne
      rw [hinv] at h1
      cases h1
  have hlater : ∀ t', Reachable t t' →
      t'.FlagsJustified ∧ Storage.Message t' msg.id = some msg ∧ t'.IsInvalid p = true := by
    intro t' hr'
    refine reachable_induction
      (fun s => s.FlagsJustified ∧ Storage.Message s msg.id = some msg ∧
        s.IsInvalid p = true) ⟨hj, hm, hinv⟩ ?_ ?_ hr'
    · intro s x ⟨f1, f2, f3⟩
      exact ⟨flagsJustified_store s x f1, storeMessage_keeps_message s x msg msg.id f2,
        by rw [storeMessage_isInvalid]; exact f3⟩
    · intro s x ⟨f1, f2, f3⟩ hx
      refine ⟨flagsJustified_check s x f1 hx, ?_, (check_flags_mono s x x.id p).2 f3⟩
      rw [message_congr (check_summary s x x.id).1]
      exact f2
  have hfin : ∀ t', Reachable t t' →
      t'.IsSolid msg.id = false ∧ t'.IsInvalid msg.id = false := by
    intro t' hr'
    obtain ⟨f1, f2, f3⟩ := hlater t' hr'
    exact (blocked_by_invalid_parent f1 f2 hp hne f3).2
  refine ⟨b1, b2, b3, hsol, ?_, ?_, hfin, ?_⟩
  · rw [checkMessageSolidity_eq, if_pos hsol]
  · intro fuel id t' hs
    exact hfin t' (Reachable.solidify t t' fuel id Reachable.init hs)
  · intro m hmm hs q hq hqne
    exact no_invalid_parent_of_solid_check hj hmm hs q hq hqne

theorem Example.invalidParent_reachable : Reachable Tangle.empty Example.invalidParent :=
  Reachable.check _ Example.late
    (Reachable.check _ Example.m1
      (Reachable.store _ _ (Reachable.store _ _ (Reachable.store _ _ Reachable.init)))
      (by decide))
    (by decide)

theorem invalid_parent_never_flags_child_witness :
    Tangle.empty.NoFlags ∧ Example.invalidParent.IsInvalid 2 = true ∧
    Storage.Message Example.invalidParent 3 = some Example.m3 ∧
    Example.invalidParent.IsSolid 3 = false ∧ Example.invalidParent.IsInvalid 3 = false ∧
    (∀ fuel id t', Solidify fuel Example.invalidParent id = some t' →
      t'.IsSolid 3 = false ∧ t'.IsInvalid 3 = false) :=
  have h := invalid_parent_never_flags_child Tangle.empty Example.invalidParent (by decide)
    Example.invalidParent_reachable Example.m3 (by decide) 2 (by decide) (by decide)
    (by decide)
  ⟨by decide, by decide, by decide, h.2.1, h.2.2.1, h.2.2.2.2.2.1⟩

/-- C25: `Solidify` returns a state on every store, with `1 + pendingApprovers`
units of fuel or more, one unit paying for one visited identifier.
`checkMessageSolidity` returns identifiers to visit only in the call that turns
the solid flag of its message from false to true, what it returns are then the
approvers of that message, and the identifiers it returns together with the
approver entries still pending afterwards never exceed the entries pending
before. -/
theorem solidify_terminates (t : Tangle) (messageID : MessageID) :
    (∀ extra, ∃ t', Solidify (1 + t.pendingApprovers + extra) t messageID = some t') ∧
    (∀ s msg ref, (checkMessageSolidity s (some msg) (some ref)).1 ≠ [] →
      s.IsSolid ref = false ∧
      (checkMessageSolidity s (some msg) (some ref)).2.IsSolid ref = true ∧
      (checkMessageSolidity s (some msg) (some ref)).1
        = (Storage.Approvers s msg.id).map (fun a => a.approverMessageID)) ∧
    (∀ s message messageMetadata, (checkMessageSolidity s message none).1 = [] ∧
      (checkMessageSolidity s none messageMetadata).1 = []) ∧
    (∀ s msg,
      (checkMessageSolidity s (some msg) (some msg.id)).1.length +
          (checkMessageSolidity s (some msg) (some msg.id)).2.pendingApprovers
        ≤ s.pendingApprovers) := by
  refine ⟨?_, ?_, ?_, fun s msg => check_measure s msg⟩
  · intro extra
    exact walk_terminates _ [messageID] t (by simp)
  · intro s msg ref hne
    have ho := checkMessageSolidity_outcome s msg ref
    generalize checkMessageSolidity s (some msg) (some ref) = r at ho hne
    cases ho with
    | unchanged t1 ids hx _ => exact absurd rfl hne
    | becameInvalid t1 ids hx _ hm hni hs hv => exact absurd rfl hne
    | becameSolid t1 ids hx _ hm hns hps hv =>
      obtain ⟨_, _, vs, _⟩ := becameSolid_views ref (Event.MessageSolid msg.id) hx hm
      refine ⟨hns, ?_, rfl⟩
      show Tangle.IsSolid _ ref = true
      rw [vs]
      simp
  · intro s message messageMetadata
    constructor
    · rw [check_none_right]
    · rw [check_none_left]

/-- C26: `isParentMessageValid` returns false for a non-genesis parent whose
message is not stored, whatever metadata is stored for it; and when the metadata
of `msg` is stored, all its non-genesis parents are marked solid and the message
of one of them is not stored, `checkMessageSolidity` returns nothing to visit and
leaves `msg` marked invalid, not changing any solid flag; if `msg` was not marked
invalid before, the call emits `MessageInvalid` for it. -/
theorem absent_parent_invalidates (t : Tangle) :
    (∀ p c, p ≠ EmptyMessageID → Storage.Message t p = none →
      isParentMessageValid t p c = false) ∧
    (∀ msg : Message, t.HasMetadata msg.id = true →
      (∀ p ∈ msg.strongParents ++ msg.weakParents, p ≠ EmptyMessageID →
        t.IsSolid p = true) →
      (∃ p ∈ msg.strongParents ++ msg.weakParents, p ≠ EmptyMessageID ∧
        Storage.Message t p = none) →
      areParentMessagesValid t msg = false ∧
      (checkMessageSolidity t (some msg) (some msg.id)).1 = [] ∧
      (checkMessageSolidity t (some msg) (some msg.id)).2.IsInvalid msg.id = true ∧
      (∀ j, (checkMessageSolidity t (some msg) (some msg.id)).2.IsSolid j = t.IsSolid j) ∧
      (t.IsInvalid msg.id = false →
        (checkMessageSolidity t (some msg) (some msg.id)).2.events
          = t.events ++ [Event.MessageInvalid msg.id])) := by
  have hpart : ∀ p c, p ≠ EmptyMessageID → Storage.Message t p = none →
      isParentMessageValid t p c = false := by
    intro p c hne habs
    rw [isParentMessageValid_eq, habs]
    simpa using hne
  refine ⟨hpart, ?_⟩
  intro msg hm hps ⟨p, hp, hne, habs⟩
  have hv : areParentMessagesValid t msg = false := by
    cases h : areParentMessagesValid t msg with
    | false => rfl
    | true =>
      have h1 := (areParentMessagesValid_iff t msg).mp h p hp
      rw [hpart p _ hne habs] at h1
      cases h1
  have hps' : t.ParentsSolid msg := hps
  have h1 : (isMessageSolid t (some msg) (some msg.id)).1 = true := by
    rw [isMessageSolid_fst, hm, (parentsSolid_iff t msg).mpr hps']; simp
  have hx := isMessageSolid_extends t msg msg.id
  have hsame := hx.same (by
    intro q hq
    split at hq
    · have hq' : q ∈ msg.parentIDs ∧ q ≠ EmptyMessageID := by simpa using hq
      exact hasMetadata_of_isSolid (hps' q hq'.1 hq'.2)
    · cases hq)
  obtain ⟨_, _, vs, vi, _, ve, _⟩ :=
    becameInvalid_views msg.id (Event.MessageInvalid msg.id) hx hm
  refine ⟨hv, ?_⟩
  rw [checkMessageSolidity_eq, if_neg (by simp [h1]), if_pos hv]
  cases hi : t.IsInvalid msg.id with
  | true =>
    simp only [if_true]
    refine ⟨trivial, ?_, ?_, ?_⟩
    · show Tangle.IsInvalid _ msg.id = true
      rw [hx.isInvalid]; exact hi
    · intro j
      show Tangle.IsSolid _ j = _
      rw [hx.isSolid]
    · intro h; cases h
  | false =>
    simp only [Bool.false_eq_true, if_false]
    refine ⟨trivial, ?_, vs, ?_⟩
    · show Tangle.IsInvalid _ msg.id = true
      rw [vi]; simp
    · intro _
      show Tangle.events _ = _
      rw [ve, hsame.2]

theorem absent_parent_invalidates_witness :
    isParentMessageValid Example.orphanParent 1 10 = false ∧
    Example.orphanParent.IsSolid 1 = true ∧ Storage.Message Example.orphanParent 1 = none ∧
    (checkMessageSolidity Example.orphanParent (some Example.m2) (some 2)).2.IsInvalid 2
      = true ∧
    (checkMessageSolidity Example.orphanParent (some Example.m2) (some 2)).2.events
      = [Event.MessageInvalid 2] :=
  have h := (absent_parent_invalidates Example.orphanParent).2 Example.m2 (by decide)
    (by decide) ⟨1, by decide, by decide, by decide⟩
  ⟨(absent_parent_invalidates Example.orphanParent).1 1 10 (by decide) (by decide),
    by decide, by decide, h.2.2.1, h.2.2.2.2 (by decide)⟩

/-! ## Refresh with a failing connector -/

namespace Wallet

/-- C27: when the connector call of `Refresh` fails with `err`, `Refresh` returns
`err` and the manager it leaves has the same local output map as before, entry
for entry, and the same address manager. -/
theorem refresh_failure_keeps_outputs (base58 : Address → String)
    (connector : List Address → Except String Response) (m : UnspentOutputManager)
    (args : List Bool) (err : String)
    (h : connector (addressesToRefresh m args) = Except.error err) :
    (Refresh base58 connector m args).1 = some err ∧
    (Refresh base58 connector m args).2.unspentOutputs = m.unspentOutputs ∧
    (∀ addr tx, GoMap.load2 (Refresh base58 connector m args).2.unspentOutputs addr tx
      = GoMap.load2 m.unspentOutputs addr tx) ∧
    (Refresh base58 connector m args).2.addressManager = m.addressManager := by
  obtain ⟨h1, h2⟩ := refresh_error base58 connector m args err h
  refine ⟨h1, h2, ?_, (refresh_fields base58 connector m args).1⟩
  intro addr tx
  rw [h2]

theorem refresh_failure_keeps_outputs_witness :
    (Refresh Example.base58 Example.failing Example.manager [true]).1
      = some "connection refused" ∧
    (Refresh Example.base58 Example.failing Example.manager [true]).2.unspentOutputs
      = [("x", [(7, Example.unspent)]), ("xx", [(8, Example.unspent)])] :=
  have h := refresh_failure_keeps_outputs Example.base58 Example.failing Example.manager
    [true] "connection refused" rfl
  ⟨h.1, h.2.1⟩

end Wallet

/-! ## Thresholds, the sync monitor and the unsynced rate -/

namespace MessageLayer

theorem wrap64_id (x : Int) (h1 : -(2 ^ 63) ≤ x) (h2 : x ≤ 2 ^ 63 - 1) : wrap64 x = x := by
  unfold wrap64
  omega

/-- C21: for a configured delay `d` whose double in nanoseconds fits the duration
type, `configure` sets `LikedThreshold` to `d` seconds and
`LocallyFinalizedThreshold` to `2 * d` seconds, twice `LikedThreshold`. -/
theorem thresholds_one_and_two (d : Int) (hlo : minDuration ≤ 2 * d * Second)
    (hhi : 2 * d * Second ≤ maxDuration) :
    LikedThreshold d = d * Second ∧
    LocallyFinalizedThreshold d = 2 * d * Second ∧
    LocallyFinalizedThreshold d = 2 * LikedThreshold d := by
  unfold minDuration at hlo
  unfold maxDuration at hhi
  unfold Second Duration at *
  have e1 : LikedThreshold d = d * 1000000000 := by
    unfold LikedThreshold Second
    rw [wrap64_id d (by omega) (by omega), wrap64_id _ (by omega) (by omega)]
  have e2 : LocallyFinalizedThreshold d = 2 * d * 1000000000 := by
    unfold LocallyFinalizedThreshold Second
    rw [wrap64_id (d * 2) (by omega) (by omega), wrap64_id (d * 2) (by omega) (by omega),
      wrap64_id _ (by omega) (by omega)]
    ring
  refine ⟨e1, e2, ?_⟩
  rw [e1, e2]
  omega

theorem thresholds_one_and_two_witness :
    LikedThreshold 5 = 5 * Second ∧ LocallyFinalizedThreshold 5 = 10 * Second :=
  have h := thresholds_one_and_two 5 (by decide) (by decide)
  ⟨h.1, h.2.1⟩

/-- C29: for a configured time per message `d ≥ 0`, a `Synced = false` event sets
the scheduler to `d - d / 2` with the truncating division, which is `d / 2`
rounded up: it is at most `d`, positive when `d` is positive, and 1 for `d = 1`. -/
theorem unsynced_rate_is_half_rounded_up (d : Duration) (s : PluginState) (hd : 0 ≤ d) :
    (onSyncChanged d s false).schedulerRate = d - Int.tdiv d 2 ∧
    (onSyncChanged d s false).schedulerRate = (d + 1) / 2 ∧
    d ≤ 2 * (onSyncChanged d s false).schedulerRate ∧
    2 * (onSyncChanged d s false).schedulerRate ≤ d + 1 ∧
    (onSyncChanged d s false).schedulerRate ≤ d ∧
    (0 < d → 0 < (onSyncChanged d s false).schedulerRate) ∧
    (d = 1 → (onSyncChanged d s false).schedulerRate = 1) ∧
    minDuration ≤ (onSyncChanged d s false).schedulerRate := by
  rw [onSyncChanged_unsynced]
  show d - Int.tdiv d 2 = d - Int.tdiv d 2 ∧ d - Int.tdiv d 2 = (d + 1) / 2 ∧
    d ≤ 2 * (d - Int.tdiv d 2) ∧ 2 * (d - Int.tdiv d 2) ≤ d + 1 ∧ d - Int.tdiv d 2 ≤ d ∧
    (0 < d → 0 < d - Int.tdiv d 2) ∧ (d = 1 → d - Int.tdiv d 2 = 1) ∧
    minDuration ≤ d - Int.tdiv d 2
  have e : Int.tdiv d 2 = d / 2 := Int.tdiv_eq_ediv hd (by decide)
  rw [e]
  unfold minDuration
  unfold Duration at *
  refine ⟨rfl, ?_, ?_, ?_, ?_, ?_, ?_, ?_⟩ <;> omega

theorem unsynced_rate_is_half_rounded_up_witness :
    (onSyncChanged 1 (PluginState.initial 1) false).schedulerRate = 1 ∧
    (0 : Int) < (onSyncChanged 1 (PluginState.initial 1) false).schedulerRate :=
  have h := unsynced_rate_is_half_rounded_up 1 (PluginState.initial 1) (by decide)
  ⟨h.2.2.2.2.2.2.1 rfl, h.2.2.2.2.2.1 (by decide)⟩

end MessageLayer

namespace MessageLayer

/-! ## The sync monitor -/

theorem syncTick_eq (s : MonitorState) (newSync : Bool) :
    syncTick s newSync
      = if newSync ≠ s.sync then ⟨newSync, s.emitted ++ [newSync]⟩ else s := by
  unfold syncTick
  by_cases h : newSync = s.sync <;> simp [h]

theorem syncTick_inv (s : MonitorState) (newSync : Bool) (h : s.Inv) :
    (syncTick s newSync).Inv := by
  rw [syncTick_eq]
  by_cases hd : newSync = s.sync
  · rw [if_neg (by simpa using hd)]
    exact h
  · rw [if_pos hd]
    constructor
    · simp
    · show List.Chain' (fun a b => a ≠ b) (s.emitted ++ [newSync])
      rw [List.chain'_append]
      refine ⟨h.alternate, List.chain'_singleton _, ?_⟩
      intro x hx y hy
      have hy' : y = newSync := by simpa using hy.symm
      have hx' : s.emitted.getLast? = some x := hx
      have hl := h.last
      rw [hx'] at hl
      subst hy'
      intro e
      apply hd
      rw [hl, ← e]
      rfl
    · show (s.emitted ++ [newSync]).head?.getD true = true
      cases he : s.emitted with
      | nil =>
        have hl := h.last
        rw [he] at hl
        have hs : s.sync = false := hl
        rw [hs] at hd
        cases newSync with
        | true => rfl
        | false => exact absurd rfl hd
      | cons a rest =>
        have hf := h.first
        rw [he] at hf
        exact hf

theorem foldl_syncTick_inv (ticks : List Bool) :
    ∀ s : MonitorState, s.Inv → (ticks.foldl syncTick s).Inv := by
  induction ticks with
  | nil => intro s h; exact h
  | cons x rest ih => intro s h; exact ih _ (syncTick_inv s x h)

theorem syncMonitor_inv (ticks : List Bool) : (syncMonitor ticks).Inv :=
  foldl_syncTick_inv ticks MonitorState.initial
    ⟨rfl, List.chain'_nil, rfl⟩

theorem syncMonitor_snoc (ticks : List Bool) (newSync : Bool) :
    syncMonitor (ticks ++ [newSync]) = syncTick (syncMonitor ticks) newSync := by
  unfold syncMonitor
  rw [List.foldl_append]
  rfl

theorem handleAll_cons_true (rate : Duration) (s : PluginState) (rest : List Bool) :
    (handleAll rate s (true :: rest)).syncedOnce = true := by
  have h1 : (onSyncChanged rate s true).syncedOnce = true := by
    cases h : s.syncedOnce with
    | false => rw [onSyncChanged_synced_first rate s h]
    | true => rw [onSyncChanged_synced_later rate s h]
  exact (handleAll_after_synced rate rest (onSyncChanged rate s true) h1).1

/-- C28: the loop of `run` starts with `sync = false` and nothing triggered; at a
tick it triggers a `SyncChanged` event, carrying the new value, exactly when
`Synced()` differs from the value of the last event triggered, or from false when
none was. So consecutive events triggered differ, the first one has
`Synced = true`, before a `Synced = false` event a `Synced = true` event was
triggered, and the handler, run on the events in the order they are triggered,
has completed the handoff of `syncedOnce` before it handles a `Synced = false`
event. -/
theorem sync_monitor_alternates (ticks : List Bool) :
    syncMonitor [] = ⟨false, []⟩ ∧
    (∀ newSync, (syncMonitor (ticks ++ [newSync])).emitted
      = if newSync ≠ (syncMonitor ticks).emitted.getLast?.getD false
        then (syncMonitor ticks).emitted ++ [newSync]
        else (syncMonitor ticks).emitted) ∧
    List.Chain' (fun a b => a ≠ b) (syncMonitor ticks).emitted ∧
    (∀ e rest, (syncMonitor ticks).emitted = e :: rest → e = true) ∧
    (∀ pre post, (syncMonitor ticks).emitted = pre ++ false :: post → true ∈ pre) ∧
    (∀ rate s pre post, (syncMonitor ticks).emitted = pre ++ false :: post →
      (handleAll rate s pre).syncedOnce = true) := by
  have hinv := syncMonitor_inv ticks
  have hfirst : ∀ e rest, (syncMonitor ticks).emitted = e :: rest → e = true := by
    intro e rest he
    have hf := hinv.first
    rw [he] at hf
    exact hf
  have hpre : ∀ pre post, (syncMonitor ticks).emitted = pre ++ false :: post →
      ∃ rest, pre = true :: rest := by
    intro pre post he
    cases pre with
    | nil => exact absurd (hfirst false post he) (by decide)
    | cons a rest =>
      have ha := hfirst a (rest ++ false :: post) he
      exact ⟨rest, by rw [ha]⟩
  refine ⟨rfl, ?_, hinv.alternate, hfirst, ?_, ?_⟩
  · intro newSync
    rw [syncMonitor_snoc, syncTick_eq, ← hinv.last]
    by_cases hd : newSync = (syncMonitor ticks).sync
    · rw [if_neg (by simpa using hd), if_neg (by simpa using hd)]
    · rw [if_pos hd, if_pos hd]
  · intro pre post he
    obtain ⟨rest, hr⟩ := hpre pre post he
    rw [hr]
    exact List.mem_cons_self _ _
  · intro rate s pre post he
    obtain ⟨rest, hr⟩ := hpre pre post he
    rw [hr]
    exact handleAll_cons_true rate s rest

theorem sync_monitor_alternates_witness :
    (syncMonitor [false, true, true, false, true]).emitted = [true, false, true] ∧
    (handleAll 6000000 (PluginState.initial 6000000) [true]).syncedOnce = true :=
  ⟨by decide,
    (sync_monitor_alternates [false, true, true, false, true]).2.2.2.2.2
      6000000 (PluginState.initial 6000000) [true] [true] (by decide)⟩

end MessageLayer

/-! ## The message identifier of a request and the explorer search -/

namespace WebAPI

/-- C23: for the parameter `"EmptyMessageID"`, `messageIDFromContext` returns
`EmptyMessageID` and a nil error, without calling `NewMessageID`; for every other
parameter it returns the identifier and the error `NewMessageID` returns on it. -/
theorem messageIDFromContext_spec (NewMessageID : String → MessageID × Option String) :
    messageIDFromContext NewMessageID "EmptyMessageID" = (EmptyMessageID, none) ∧
    (∀ param, param ≠ "EmptyMessageID" →
      messageIDFromContext NewMessageID param = NewMessageID param) := by
  constructor
  · unfold messageIDFromContext
    rw [if_pos rfl]
  · intro param h
    unfold messageIDFromContext
    rw [if_neg h]

theorem messageIDFromContext_spec_witness :
    messageIDFromContext (fun _ => (7, some "checked")) "EmptyMessageID" = (0, none) ∧
    messageIDFromContext (fun _ => (7, some "checked")) "emptyMessageID"
      = (7, some "checked") :=
  ⟨(messageIDFromContext_spec (fun _ => (7, some "checked"))).1,
    (messageIDFromContext_spec (fun _ => (7, some "checked"))).2 "emptyMessageID"
      (by decide)⟩

end WebAPI

namespace Dashboard

theorem findAddress_fst (env : Env) (s : String) :
    (findAddress env s).1
      = match env.AddressFromBase58EncodedString s with
        | none => none
        | some a =>
          if (env.OutputsOnAddress a).length = 0 then none
          else some ⟨s, env.OutputsOnAddress a⟩ := by
  unfold findAddress
  cases h : env.AddressFromBase58EncodedString s with
  | none => rfl
  | some a =>
    by_cases h0 : (env.OutputsOnAddress a).length = 0
    · simp [h0]
    · simp [h0]

theorem findAddress_error (env : Env) (s : String) :
    ((findAddress env s).2.isNone = false → (findAddress env s).1 = none) := by
  unfold findAddress
  cases h : env.AddressFromBase58EncodedString s with
  | none => intro _; rfl
  | some a =>
    by_cases h0 : (env.OutputsOnAddress a).length = 0
    · simp [h0]
    · simp [h0]

theorem findMessage_error (env : Env) (t : Tangle) (id : MessageID) :
    ((findMessage env t id).2.isNone = false → (findMessage env t id).1 = none) := by
  unfold findMessage
  cases h : Storage.Message t id with
  | none => intro _; rfl
  | some m => simp

theorem search_address (env : Env) (t : Tangle) (s : String) (b : List Nat)
    (hb : env.base58Decode s = some b) (hl : b.length = env.AddressLength) :
    search env t s = Except.ok ⟨none, (findAddress env s).1⟩ := by
  unfold search
  simp only [hb, hl, if_true]
  cases h : (findAddress env s).2.isNone with
  | true => simp
  | false => simp [findAddress_error env s h]

theorem search_message (env : Env) (t : Tangle) (s : String) (b : List Nat)
    (hb : env.base58Decode s = some b) (hl : b.length ≠ env.AddressLength)
    (hm : b.length = env.MessageIDLength) (hn : (env.NewMessageID s).2 = false) :
    search env t s = Except.ok ⟨(findMessage env t (env.NewMessageID s).1).1, none⟩ := by
  unfold search
  simp only [hb]
  rw [if_neg hl, if_pos hm]
  simp only [hn]
  cases h : (findMessage env t (env.NewMessageID s).1).2.isNone with
  | true => simp [h]
  | false => simp [h, findMessage_error env t _ h]

theorem search_invalid (env : Env) (t : Tangle) (s : String)
    (h : env.base58Decode s = none ∨
      (∃ b, env.base58Decode s = some b ∧ b.length ≠ env.AddressLength ∧
        (b.length ≠ env.MessageIDLength ∨ (env.NewMessageID s).2 = true))) :
    search env t s = Except.error (Error.ErrInvalidParameter ("search ID " ++ s)) := by
  unfold search
  rcases h with h | ⟨b, hb, hl, h⟩
  · simp only [h]
  · simp only [hb, if_neg hl]
    rcases h with h | h
    · rw [if_neg h]
    · by_cases hm : b.length = env.MessageIDLength
      · rw [if_pos hm]
        simp [h]
      · rw [if_neg hm]

theorem findAddress_nothing (env : Env) (s : String)
    (h : env.AddressFromBase58EncodedString s = none ∨
      ∃ a, env.AddressFromBase58EncodedString s = some a ∧ env.OutputsOnAddress a = []) :
    findAddress env s = (none, some (Error.ErrNotFound ("address " ++ s))) := by
  unfold findAddress
  rcases h with h | ⟨a, ha, ho⟩
  · rw [h]
  · rw [ha]
    simp [ho]

theorem findMessage_nothing (env : Env) (t : Tangle) (id : MessageID)
    (h : Storage.Message t id = none) :
    findMessage env t id
      = (none, some (Error.ErrNotFound ("message " ++ env.Base58 id))) := by
  unfold findMessage
  rw [h]

/-- C30: the search handler fails, with an error that wraps `ErrInvalidParameter`,
for a string that `base58.Decode` rejects or decodes to a length that is neither
`AddressLength` nor `MessageIDLength`. For a string decoded to `AddressLength`
bytes it succeeds with only `Address` possibly set, and with an empty result when
the address does not parse or holds no output, where `findAddress` reports
`ErrNotFound`. For a string decoded to `MessageIDLength` bytes that
`NewMessageID` accepts it succeeds with only `Message` possibly set, and with an
empty result when no message is stored under the identifier; if `NewMessageID`
rejects the string, the handler fails with `ErrInvalidParameter`. A result never
has both fields set and an error is never `ErrNotFound`. -/
theorem search_outcome (env : Env) (t : Tangle) (s : String) :
    ((env.base58Decode s = none ∨
        ∃ b, env.base58Decode s = some b ∧ b.length ≠ env.AddressLength ∧
          b.length ≠ env.MessageIDLength) →
      search env t s = Except.error (Error.ErrInvalidParameter ("search ID " ++ s))) ∧
    (∀ b, env.base58Decode s = some b → b.length = env.AddressLength →
      search env t s = Except.ok ⟨none, (findAddress env s).1⟩ ∧
      ((env.AddressFromBase58EncodedString s = none ∨
          ∃ a, env.AddressFromBase58EncodedString s = some a ∧
            env.OutputsOnAddress a = []) →
        (findAddress env s).2 = some (Error.ErrNotFound ("address " ++ s)) ∧
        search env t s = Except.ok ⟨none, none⟩)) ∧
    (∀ b, env.base58Decode s = some b → b.length ≠ env.AddressLength →
      b.length = env.MessageIDLength →
      ((env.NewMessageID s).2 = true →
        search env t s = Except.error (Error.ErrInvalidParameter ("search ID " ++ s))) ∧
      ((env.NewMessageID s).2 = false →
        search env t s = Except.ok ⟨(findMessage env t (env.NewMessageID s).1).1, none⟩ ∧
        (Storage.Message t (env.NewMessageID s).1 = none →
          (findMessage env t (env.NewMessageID s).1).2
            = some (Error.ErrNotFound ("message " ++ env.Base58 (env.NewMessageID s).1)) ∧
          search env t s = Except.ok ⟨none, none⟩))) ∧
    (∀ r, search env t s = Except.ok r → r.Message = none ∨ r.Address = none) ∧
    (∀ e, search env t s = Except.error e → e.isInvalidParameter = true) := by
  have hinv : (env.base58Decode s = none ∨
        ∃ b, env.base58Decode s = some b ∧ b.length ≠ env.AddressLength ∧
          (b.length ≠ env.MessageIDLength ∨ (env.NewMessageID s).2 = true)) →
      search env t s = Except.error (Error.ErrInvalidParameter ("search ID " ++ s)) :=
    search_invalid env t s
  have hcases : (∃ d, search env t s = Except.error (Error.ErrInvalidParameter d)) ∨
      (∃ a, search env t s = Except.ok ⟨none, a⟩) ∨
      (∃ m, search env t s = Except.ok ⟨m, none⟩) := by
    cases hb : env.base58Decode s with
    | none => exact Or.inl ⟨_, hinv (Or.inl hb)⟩
    | some b =>
      by_cases hl : b.length = env.AddressLength
      · exact Or.inr (Or.inl ⟨_, search_address env t s b hb hl⟩)
      · by_cases hm : b.length = env.MessageIDLength
        · cases hn : (env.NewMessageID s).2 with
          | true => exact Or.inl ⟨_, hinv (Or.inr ⟨b, hb, hl, Or.inr hn⟩)⟩
          | false => exact Or.inr (Or.inr ⟨_, search_message env t s b hb hl hm hn⟩)
        · exact Or.inl ⟨_, hinv (Or.inr ⟨b, hb, hl, Or.inl hm⟩)⟩
  refine ⟨?_, ?_, ?_, ?_, ?_⟩
  · intro h
    rcases h with h | ⟨b, hb, hl, hm⟩
    · exact hinv (Or.inl h)
    · exact hinv (Or.inr ⟨b, hb, hl, Or.inl hm⟩)
  · intro b hb hl
    refine ⟨search_address env t s b hb hl, ?_⟩
    intro hnone
    have hf := findAddress_nothing env s hnone
    refine ⟨by rw [hf], ?_⟩
    rw [search_address env t s b hb hl, hf]
  · intro b hb hl hm
    refine ⟨fun hn => hinv (Or.inr ⟨b, hb, hl, Or.inr hn⟩), ?_⟩
    intro hn
    refine ⟨search_message env t s b hb hl hm hn, ?_⟩
    intro hnone
    have hf := findMessage_nothing env t _ hnone
    refine ⟨by rw [hf], ?_⟩
    rw [search_message env t s b hb hl hm hn, hf]
  · intro r hr
    rcases hcases with ⟨d, h⟩ | ⟨a, h⟩ | ⟨m, h⟩
    · rw [h] at hr; cases hr
    · rw [h] at hr; cases hr; exact Or.inl rfl
    · rw [h] at hr; cases hr; exact Or.inr rfl
  · intro e he
    rcases hcases with ⟨d, h⟩ | ⟨a, h⟩ | ⟨m, h⟩
    · rw [h] at he; cases he; rfl
    · rw [h] at he; cases he
    · rw [h] at he; cases he

theorem search_outcome_witness :
    search Example.env Example.m1Solid "0"
      = Except.error (Error.ErrInvalidParameter "search ID 0") ∧
    search Example.env Example.m1Solid "toolong"
      = Except.error (Error.ErrInvalidParameter "search ID toolong") ∧
    search Example.env Example.m1Solid "abc"
      = Except.ok ⟨none, some ⟨"abc", [⟨1⟩]⟩⟩ ∧
    search Example.env Example.m1Solid "xyz" = Except.ok ⟨none, none⟩ ∧
    search Example.env Example.m1Solid "zz" = Except.ok ⟨none, none⟩ :=
  ⟨(search_outcome Example.env Example.m1Solid "0").1 (Or.inl rfl),
    (search_outcome Example.env Example.m1Solid "toolong").1
      (Or.inr ⟨List.replicate 7 0, rfl, by decide, by decide⟩),
    ((search_outcome Example.env Example.m1Solid "abc").2.1 (List.replicate 3 0) rfl
      rfl).1,
    (((search_outcome Example.env Example.m1Solid "xyz").2.1 (List.replicate 3 0) rfl
      rfl).2 (Or.inr ⟨4, rfl, rfl⟩)).2,
    ((((search_outcome Example.env Example.m1Solid "zz").2.2.1 (List.replicate 2 0) rfl
      (by decide) rfl).2 rfl).2 (by decide)).2⟩

end Dashboard

namespace MessageLayer

/-! ## AwaitMessageToBeBooked -/

theorem bookedSent_iff (transactionOf : Message → Option Wallet.TransactionID)
    (txID : Wallet.TransactionID) (observed : List (Tangle × MessageID)) :
    bookedSent transactionOf txID observed = true ↔
      ∃ e ∈ observed, ∃ message, Storage.Message e.1 e.2 = some message ∧
        transactionOf message = some txID := by
  unfold bookedSent
  rw [List.any_eq_true]
  have hone : ∀ e : Tangle × MessageID,
      bookedMatch transactionOf e.1 txID e.2 = true ↔
        ∃ message, Storage.Message e.1 e.2 = some message ∧
          transactionOf message = some txID := by
    intro e
    unfold bookedMatch
    cases h1 : Storage.Message e.1 e.2 with
    | none => simp
    | some message =>
      cases h2 : transactionOf message with
      | none => simp [h2]
      | some id => simp [h2]
  constructor
  · intro ⟨e, he, hm⟩
    exact ⟨e, he, (hone e).mp hm⟩
  · intro ⟨e, he, h⟩
    exact ⟨e, he, (hone e).mpr h⟩

theorem await_failed (transactionOf : Message → Option Wallet.TransactionID)
    (f : Option Message × Option String) (txID : Wallet.TransactionID)
    (moment : SelectMoment) (h : f.2.isSome = true ∨ f.1 = none) :
    AwaitMessageToBeBooked transactionOf f txID moment
      = some (none, some (AwaitError.FailedToIssue txID f.2)) := by
  unfold AwaitMessageToBeBooked
  have hc : (f.2.isSome || f.1.isNone) = true := by
    rcases h with h | h
    · simp [h]
    · simp [h]
  simp only [hc, if_true]

theorem await_issued (transactionOf : Message → Option Wallet.TransactionID)
    (msg : Message) (txID : Wallet.TransactionID) (moment : SelectMoment) :
    AwaitMessageToBeBooked transactionOf (some msg, none) txID moment
      = match selectCase moment.timerFired
          (bookedSent transactionOf txID moment.observed) moment.pick with
        | some SelectCase.timeAfter =>
          some (none, some AwaitError.ErrMessageWasNotBookedInTime)
        | some SelectCase.booked => some (some msg, none)
        | none => none := by
  unfold AwaitMessageToBeBooked
  simp

/-- C22: `AwaitMessageToBeBooked` returns a nil message and the error built
around the error of `f` whenever `f` returns an error or a nil message. When `f`
returns the message `msg` and no error, the final `select` decides: if
`maxAwait` has expired and the closure has not matched any observed
`MessageBooked` event on a stored message carrying `txID`, the result is a nil
message and `ErrMessageWasNotBookedInTime`; if the closure has matched and
`maxAwait` has not expired, the result is `msg` and a nil error; if both hold
when the `select` is evaluated, the result is the one of these two that the
runtime picks; if neither holds the `select` keeps waiting. The function never
returns both a message and an error, nor neither; it returns a message only
when a matching event was observed, and `ErrMessageWasNotBookedInTime` only
when `maxAwait` has expired. -/
theorem awaitMessageToBeBooked_outcome
    (transactionOf : Message → Option Wallet.TransactionID)
    (f : Option Message × Option String) (txID : Wallet.TransactionID)
    (moment : SelectMoment) :
    ((f.2.isSome = true ∨ f.1 = none) →
      AwaitMessageToBeBooked transactionOf f txID moment
        = some (none, some (AwaitError.FailedToIssue txID f.2))) ∧
    (∀ msg, f = (some msg, none) →
      (bookedSent transactionOf txID moment.observed = false →
        moment.timerFired = true →
        AwaitMessageToBeBooked transactionOf f txID moment
          = some (none, some AwaitError.ErrMessageWasNotBookedInTime)) ∧
      (bookedSent transactionOf txID moment.observed = true →
        moment.timerFired = false →
        AwaitMessageToBeBooked transactionOf f txID moment = some (some msg, none)) ∧
      (bookedSent transactionOf txID moment.observed = true →
        moment.timerFired = true →
        AwaitMessageToBeBooked transactionOf f txID moment
          = match moment.pick with
            | SelectCase.timeAfter =>
              some (none, some AwaitError.ErrMessageWasNotBookedInTime)
            | SelectCase.booked => some (some msg, none)) ∧
      (bookedSent transactionOf txID moment.observed = false →
        moment.timerFired = false →
        AwaitMessageToBeBooked transactionOf f txID moment = none)) ∧
    (∀ r, AwaitMessageToBeBooked transactionOf f txID moment = some r →
      (r.1 = none ∧ r.2 ≠ none) ∨ (r.1 ≠ none ∧ r.2 = none)) ∧
    (∀ r msg, AwaitMessageToBeBooked transactionOf f txID moment = some r →
      r.1 = some msg →
      f = (some msg, none) ∧ r.2 = none ∧
        ∃ e ∈ moment.observed, ∃ message, Storage.Message e.1 e.2 = some message ∧
          transactionOf message = some txID) ∧
    (∀ r, AwaitMessageToBeBooked transactionOf f txID moment = some r →
      r.2 = some AwaitError.ErrMessageWasNotBookedInTime →
      r.1 = none ∧ moment.timerFired = true ∧ ∃ msg, f = (some msg, none)) := by
  have hfail := await_failed transactionOf f txID moment
  have hcases : (f.2.isSome = true ∨ f.1 = none) ∨ ∃ msg, f = (some msg, none) := by
    obtain ⟨m, e⟩ := f
    cases m with
    | none => exact Or.inl (Or.inr rfl)
    | some msg =>
      cases e with
      | none => exact Or.inr ⟨msg, rfl⟩
      | some err => exact Or.inl (Or.inl rfl)
  refine ⟨hfail, ?_, ?_, ?_, ?_⟩
  · intro msg hf
    subst hf
    rw [await_issued]
    refine ⟨?_, ?_, ?_, ?_⟩
    · intro h1 h2; rw [h1, h2]; rfl
    · intro h1 h2; rw [h1, h2]; rfl
    · intro h1 h2; rw [h1, h2]
      cases moment.pick <;> rfl
    · intro h1 h2; rw [h1, h2]; rfl
  · intro r hr
    rcases hcases with h | ⟨msg, hf⟩
    · rw [hfail h] at hr
      cases hr
      exact Or.inl ⟨rfl, by simp⟩
    · subst hf
      rw [await_issued] at hr
      cases h1 : moment.timerFired <;>
        cases h2 : bookedSent transactionOf txID moment.observed <;>
        cases h3 : moment.pick <;>
        simp [h1, h2, h3, selectCase] at hr <;> subst hr <;> simp
  · intro r msg hr hm
    rcases hcases with h | ⟨msg', hf⟩
    · rw [hfail h] at hr
      cases hr
      cases hm
    · subst hf
      rw [await_issued] at hr
      cases h1 : moment.timerFired <;>
        cases h2 : bookedSent transactionOf txID moment.observed <;>
        cases h3 : moment.pick <;>
        simp [h1, h2, h3, selectCase] at hr <;> subst hr <;>
        simp at hm <;> subst hm <;>
        exact ⟨rfl, rfl, (bookedSent_iff transactionOf txID moment.observed).mp h2⟩
  · intro r hr he
    rcases hcases with h | ⟨msg', hf⟩
    · rw [hfail h] at hr
      cases hr
      cases he
    · subst hf
      rw [await_issued] at hr
      cases h1 : moment.timerFired <;>
        cases h2 : bookedSent transactionOf txID moment.observed <;>
        cases h3 : moment.pick <;>
        simp [h1, h2, h3, selectCase] at hr <;> subst hr <;>
        simp at he <;> exact ⟨rfl, rfl, msg', rfl⟩

theorem awaitMessageToBeBooked_outcome_witness :
    AwaitMessageToBeBooked Example.transactionOf (none, some "rejected") 7
        ⟨[], false, SelectCase.booked⟩
      = some (none, some (AwaitError.FailedToIssue 7 (some "rejected"))) ∧
    AwaitMessageToBeBooked Example.transactionOf (some Example.m2, none) 7
        ⟨[(Example.m1Solid, 1)], true, SelectCase.booked⟩
      = some (none, some AwaitError.ErrMessageWasNotBookedInTime) ∧
    AwaitMessageToBeBooked Example.transactionOf (some Example.m2, none) 7
        ⟨[(Example.m1Solid, 1), (Example.m1Solid, 2)], false, SelectCase.timeAfter⟩
      = some (some Example.m2, none) :=
  ⟨(awaitMessageToBeBooked_outcome Example.transactionOf (none, some "rejected") 7
      ⟨[], false, SelectCase.booked⟩).1 (Or.inl rfl),
    ((awaitMessageToBeBooked_outcome Example.transactionOf (some Example.m2, none) 7
      ⟨[(Example.m1Solid, 1)], true, SelectCase.booked⟩).2.1 Example.m2 rfl).1
        (by decide) rfl,
    ((awaitMessageToBeBooked_outcome Example.transactionOf (some Example.m2, none) 7
      ⟨[(Example.m1Solid, 1), (Example.m1Solid, 2)], false, SelectCase.timeAfter⟩).2.1
        Example.m2 rfl).2.1 (by decide) rfl⟩

end MessageLayer

/-! ## The manager with its pointers: MarkOutputSpent -/

theorem GoMap.load2_ensure_store {K T V : Type} [DecidableEq K] [DecidableEq T]
    (acc : GoMap K (GoMap T V)) (a : K) (t : T) (o : V) (a' : K) (t' : T) :
    GoMap.load2
        (GoMap.store (if (GoMap.load acc a).isNone then GoMap.store acc a [] else acc) a
          (GoMap.store
            ((GoMap.load (if (GoMap.load acc a).isNone then GoMap.store acc a [] else acc)
              a).getD []) t o)) a' t'
      = if a' = a ∧ t' = t then some o else GoMap.load2 acc a' t' := by
  have h1 : ∀ j s, GoMap.load2
      (if (GoMap.load acc a).isNone then GoMap.store acc a [] else acc) j s
        = GoMap.load2 acc j s := by
    intro j s
    by_cases hn : (GoMap.load acc a).isNone = true
    · rw [if_pos hn, GoMap.load2_store]
      by_cases hj : j = a
      · subst hj
        rw [if_pos rfl]
        unfold GoMap.load2
        have : GoMap.load acc j = none := by simpa using hn
        rw [this]
        rfl
      · rw [if_neg hj]
    · rw [if_neg hn]
  generalize (if (GoMap.load acc a).isNone then GoMap.store acc a [] else acc) = r1 at h1 ⊢
  rw [GoMap.load2_store]
  by_cases hk : a' = a
  · subst hk
    rw [if_pos rfl, GoMap.load_store]
    by_cases ht : t' = t
    · rw [if_pos ht, if_pos ⟨rfl, ht⟩]
    · rw [if_neg ht, if_neg (fun h => ht h.2), ← h1]
      unfold GoMap.load2
      cases GoMap.load r1 a' <;> rfl
  · rw [if_neg hk, if_neg (fun h => hk h.1), h1]

theorem GoMap.keys_store_of_load {K V : Type} [DecidableEq K] (m : GoMap K V) (k : K)
    (v w : V) (h : GoMap.load m k = some w) :
    GoMap.keys (GoMap.store m k v) = GoMap.keys m := by
  rw [GoMap.keys_store, h]
  rfl

namespace Wallet

namespace Pointers

theorem markPtr_unknown (base58 : Address → String) (m : UnspentOutputManager) (addr : Address)
    (txID : TransactionID) (h : GoMap.load2 m.unspentOutputs (base58 addr) txID = none) :
    MarkOutputSpent base58 m addr txID = some m := by
  unfold MarkOutputSpent
  unfold GoMap.load2 at h
  cases h1 : GoMap.load m.unspentOutputs (base58 addr) with
  | none => rfl
  | some outputs =>
    rw [h1] at h
    have h2 : GoMap.load outputs txID = none := h
    simp only [h2]

theorem markPtr_known (base58 : Address → String) (m : UnspentOutputManager) (addr : Address)
    (txID : TransactionID) (p : OutputPtr)
    (h : GoMap.load2 m.unspentOutputs (base58 addr) txID = some p) :
    MarkOutputSpent base58 m addr txID
      = match GoMap.load m.heap p with
        | none => none
        | some o => some { m with heap := GoMap.store m.heap p o.markSpent } := by
  unfold MarkOutputSpent
  unfold GoMap.load2 at h
  cases h1 : GoMap.load m.unspentOutputs (base58 addr) with
  | none => rw [h1] at h; cases h
  | some outputs =>
    rw [h1] at h
    have h2 : GoMap.load outputs txID = some p := h
    simp only [h2]

/-- C15, as stated, fails: a `Refresh` answered with one `*Output` under the
transactions 7 and 9 of `addrA` leaves that object stored under both; then
`MarkOutputSpent(addrA, 7)` also changes the output stored under transaction 9,
from unspent to spent. -/
theorem markOutputSpent_aliased_counterexample :
    Refresh Example.base58 Example.aliasing Example.emptyManager [true]
      = some (none, Example.aliased) ∧
    Example.aliased.outputAt (Example.base58 Example.addrA) 9 = some Example.unspent ∧
    Example.unspent.InclusionState.Spent = false ∧
    (MarkOutputSpent Example.base58 Example.aliased Example.addrA 7).bind
        (fun m => m.outputAt (Example.base58 Example.addrA) 9)
      = some Example.unspent.markSpent ∧
    (MarkOutputSpent Example.base58 Example.aliased Example.addrA 7).bind
        (fun m => m.outputAt (Example.base58 Example.addrA) 9)
      ≠ Example.aliased.outputAt (Example.base58 Example.addrA) 9 :=
  ⟨by decide, by decide, by decide, by decide, by decide⟩

/-- C15, amended: `MarkOutputSpent(addr, txID)` returns with the whole manager
unchanged when no pointer is stored under `(addr.Base58(), txID)`; it panics when
the pointer stored there is nil; otherwise it sets the `Spent` flag of the object
the pointer refers to and changes nothing else: the map with its keys and
pointers, the other fields and every other object are unchanged, so an output
stored under another key is unchanged when it is a different object, and is
marked spent too when the same pointer is stored there. -/
theorem markOutputSpent_frame (base58 : Address → String) (m : UnspentOutputManager)
    (addr : Address) (txID : TransactionID) :
    (GoMap.load2 m.unspentOutputs (base58 addr) txID = none →
      MarkOutputSpent base58 m addr txID = some m) ∧
    (∀ p, GoMap.load2 m.unspentOutputs (base58 addr) txID = some p →
      GoMap.load m.heap p = none → MarkOutputSpent base58 m addr txID = none) ∧
    (∀ p o, GoMap.load2 m.unspentOutputs (base58 addr) txID = some p →
      GoMap.load m.heap p = some o →
      ∃ m', MarkOutputSpent base58 m addr txID = some m' ∧
        m'.unspentOutputs = m.unspentOutputs ∧
        m'.addressManager = m.addressManager ∧
        m'.connectorCalls = m.connectorCalls ∧
        GoMap.keys m'.heap = GoMap.keys m.heap ∧
        GoMap.load m'.heap p
          = some { o with InclusionState := { o.InclusionState with Spent := true } } ∧
        (∀ q, q ≠ p → GoMap.load m'.heap q = GoMap.load m.heap q) ∧
        m'.outputAt (base58 addr) txID
          = some { o with InclusionState := { o.InclusionState with Spent := true } } ∧
        (∀ k t q, GoMap.load2 m.unspentOutputs k t = some q → q ≠ p →
          m'.outputAt k t = m.outputAt k t) ∧
        (∀ k t, GoMap.load2 m.unspentOutputs k t = some p →
          m'.outputAt k t
            = some { o with InclusionState := { o.InclusionState with Spent := true } })) := by
  refine ⟨markPtr_unknown base58 m addr txID, ?_, ?_⟩
  · intro p hp hnil
    rw [markPtr_known base58 m addr txID p hp, hnil]
  · intro p o hp ho
    refine ⟨{ m with heap := GoMap.store m.heap p o.markSpent }, ?_, rfl, rfl, rfl, ?_, ?_,
      ?_, ?_, ?_, ?_⟩
    · rw [markPtr_known base58 m addr txID p hp, ho]
    · exact GoMap.keys_store_of_load m.heap p _ o ho
    · show GoMap.load (GoMap.store m.heap p o.markSpent) p = _
      rw [GoMap.load_store, if_pos rfl]
      rfl
    · intro q hq
      show GoMap.load (GoMap.store m.heap p o.markSpent) q = _
      rw [GoMap.load_store, if_neg hq]
    · show (GoMap.load2 m.unspentOutputs (base58 addr) txID).bind
        (GoMap.load (GoMap.store m.heap p o.markSpent)) = _
      rw [hp]
      show GoMap.load (GoMap.store m.heap p o.markSpent) p = _
      rw [GoMap.load_store, if_pos rfl]
      rfl
    · intro k t q hq hne
      show (GoMap.load2 m.unspentOutputs k t).bind
        (GoMap.load (GoMap.store m.heap p o.markSpent))
          = (GoMap.load2 m.unspentOutputs k t).bind (GoMap.load m.heap)
      rw [hq]
      show GoMap.load (GoMap.store m.heap p o.markSpent) q = GoMap.load m.heap q
      rw [GoMap.load_store, if_neg hne]
    · intro k t hq
      show (GoMap.load2 m.unspentOutputs k t).bind
        (GoMap.load (GoMap.store m.heap p o.markSpent)) = _
      rw [hq]
      show GoMap.load (GoMap.store m.heap p o.markSpent) p = _
      rw [GoMap.load_store, if_pos rfl]
      rfl

theorem markOutputSpent_frame_witness :
    MarkOutputSpent Example.base58 Example.manager Example.addrA 8 = some Example.manager ∧
    ∃ m', MarkOutputSpent Example.base58 Example.manager Example.addrA 9 = some m' ∧
      m'.unspentOutputs = Example.manager.unspentOutputs ∧
      m'.outputAt "x" 9 = some Example.unspent.markSpent ∧
      m'.outputAt "x" 7 = Example.manager.outputAt "x" 7 :=
  have h := markOutputSpent_frame Example.base58 Example.manager Example.addrA
  ⟨(h 8).1 (by decide),
    match (h 9).2.2 2 Example.unspent (by decide) (by decide) with
    | ⟨m', h1, h2, _, _, _, _, _, h3, h4, _⟩ =>
      ⟨m', h1, h2, h3, h4 "x" 7 1 (by decide) (by decide)⟩⟩

end Pointers

end Wallet

namespace Wallet

namespace Pointers

/-! ## The manager with its pointers: Refresh -/

theorem refreshPtr_loop_entries (base58 : Address → String) (r : Response) :
    ∀ s : Option (GoMap String (GoMap TransactionID OutputPtr) × Heap),
      r.foldl (fun acc entry =>
        entry.2.foldl
          (fun acc out => acc.bind (fun s => refreshOutput base58 s entry.1 out.1 out.2))
          acc) s
      = (Response.entries base58 r).foldl
          (fun acc x => acc.bind
            (fun s => refreshOutput (fun _ => x.1) s ⟨0, 0⟩ x.2.1 x.2.2)) s := by
  induction r with
  | nil => intro s; rfl
  | cons e r ih =>
    intro s
    rw [List.foldl_cons, ih]
    unfold Response.entries
    rw [List.flatMap_cons, List.foldl_append, List.foldl_map]
    rfl

theorem memPtr_entries (base58 : Address → String) (r : Response) (k : String)
    (t : TransactionID) (q : OutputPtr) :
    (k, t, q) ∈ Response.entries base58 r ↔
      ∃ addr outs, (addr, outs) ∈ r ∧ (t, q) ∈ outs ∧ base58 addr = k := by
  unfold Response.entries
  rw [List.mem_flatMap]
  constructor
  · rintro ⟨e, he, hm⟩
    obtain ⟨x, hx, hxe⟩ := List.mem_map.mp hm
    simp only [Prod.mk.injEq] at hxe
    obtain ⟨h1, h2, h3⟩ := hxe
    refine ⟨e.1, e.2, he, ?_, h1⟩
    rw [← h2, ← h3]
    exact hx
  · rintro ⟨addr, outs, hr, ho, hk⟩
    exact ⟨(addr, outs), hr, List.mem_map.mpr ⟨(t, q), ho, by rw [hk]⟩⟩

theorem load2_ensure {K T V : Type} [DecidableEq K] [DecidableEq T]
    (acc : GoMap K (GoMap T V)) (a j : K) (s : T) :
    GoMap.load2 (if (GoMap.load acc a).isNone then GoMap.store acc a [] else acc) j s
      = GoMap.load2 acc j s := by
  by_cases hn : (GoMap.load acc a).isNone = true
  · rw [if_pos hn, GoMap.load2_store]
    by_cases hj : j = a
    · subst hj
      rw [if_pos rfl]
      unfold GoMap.load2
      have : GoMap.load acc j = none := by simpa using hn
      rw [this]
      rfl
    · rw [if_neg hj]
  · rw [if_neg hn]

theorem refreshOutput_eq (base58 : Address → String)
    (L : GoMap String (GoMap TransactionID OutputPtr)) (H : Heap) (addr : Address)
    (tx : TransactionID) (q : OutputPtr) :
    refreshOutput base58 (L, H) addr tx q
      = (match GoMap.load2 L (base58 addr) tx with
          | some existingOutput =>
            match GoMap.load H existingOutput with
            | none => none
            | some existing =>
              if existing.InclusionState.Spent then
                match GoMap.load H q with
                | none => none
                | some o => some (GoMap.store H q o.markSpent)
              else some H
          | none => some H).map
        (fun h =>
          (GoMap.store
            (if (GoMap.load L (base58 addr)).isNone then GoMap.store L (base58 addr) []
              else L) (base58 addr)
            (GoMap.store
              ((GoMap.load
                (if (GoMap.load L (base58 addr)).isNone then GoMap.store L (base58 addr) []
                  else L) (base58 addr)).getD []) tx q), h)) := by
  unfold refreshOutput
  simp only
  rw [load2_ensure]

theorem refreshOutput_step (base58 : Address → String)
    (L : GoMap String (GoMap TransactionID OutputPtr)) (H : Heap) (addr : Address)
    (tx : TransactionID) (q : OutputPtr) (o : Output) (hq : GoMap.load H q = some o)
    (hloc : ∀ p, GoMap.load2 L (base58 addr) tx = some p → (GoMap.load H p).isSome = true) :
    ∃ L' H', refreshOutput base58 (L, H) addr tx q = some (L', H') ∧
      (∀ k t, GoMap.load2 L' k t
        = if k = base58 addr ∧ t = tx then some q else GoMap.load2 L k t) ∧
      GoMap.load H' q
        = some (mergeSpent o ((GoMap.load2 L (base58 addr) tx).bind (GoMap.load H))) ∧
      (∀ j, j ≠ q → GoMap.load H' j = GoMap.load H j) := by
  rw [refreshOutput_eq]
  have hL := fun k t => GoMap.load2_ensure_store L (base58 addr) tx q k t
  generalize (GoMap.store
      (if (GoMap.load L (base58 addr)).isNone then GoMap.store L (base58 addr) [] else L)
      (base58 addr)
      (GoMap.store
        ((GoMap.load
          (if (GoMap.load L (base58 addr)).isNone then GoMap.store L (base58 addr) []
            else L) (base58 addr)).getD []) tx q)) = Lnew at hL ⊢
  cases hex : GoMap.load2 L (base58 addr) tx with
  | none =>
    refine ⟨Lnew, H, rfl, hL, ?_, fun j _ => rfl⟩
    rw [hq]; rfl
  | some p =>
    have hp := hloc p hex
    cases hpe : GoMap.load H p with
    | none => rw [hpe] at hp; cases hp
    | some e =>
      have hb : (some p).bind (GoMap.load H) = some e := hpe
      rw [hb]
      cases hs : e.InclusionState.Spent with
      | false =>
        refine ⟨Lnew, H, by simp [hpe, hs], hL, ?_, fun j _ => rfl⟩
        rw [hq]
        unfold mergeSpent
        simp [hs]
      | true =>
        refine ⟨Lnew, GoMap.store H q o.markSpent, by simp [hpe, hs, hq], hL, ?_, ?_⟩
        · rw [GoMap.load_store, if_pos rfl]
          unfold mergeSpent
          simp [hs]
        · intro j hj
          rw [GoMap.load_store, if_neg hj]

theorem entriesPtr_loop (es : List (String × TransactionID × OutputPtr)) :
    ∀ (L : GoMap String (GoMap TransactionID OutputPtr)) (H : Heap),
      (es.map (fun x => (x.1, x.2.1))).Nodup →
      (es.map (fun x => x.2.2)).Nodup →
      (∀ x ∈ es, ∀ k t, GoMap.load2 L k t ≠ some x.2.2) →
      (∀ k t p, GoMap.load2 L k t = some p → (GoMap.load H p).isSome = true) →
      (∀ x ∈ es, (GoMap.load H x.2.2).isSome = true) →
      ∃ L' H',
        es.foldl (fun acc x => acc.bind
          (fun s => refreshOutput (fun _ => x.1) s ⟨0, 0⟩ x.2.1 x.2.2)) (some (L, H))
          = some (L', H') ∧
        (∀ x ∈ es, GoMap.load2 L' x.1 x.2.1 = some x.2.2 ∧
          ∃ o, GoMap.load H x.2.2 = some o ∧
            GoMap.load H' x.2.2
              = some (mergeSpent o ((GoMap.load2 L x.1 x.2.1).bind (GoMap.load H)))) ∧
        (∀ k t, (∀ x ∈ es, ¬ (x.1 = k ∧ x.2.1 = t)) →
          GoMap.load2 L' k t = GoMap.load2 L k t) ∧
        (∀ j, (∀ x ∈ es, x.2.2 ≠ j) → GoMap.load H' j = GoMap.load H j) := by
  induction es with
  | nil =>
    intro L H _ _ _ _ _
    exact ⟨L, H, rfl, by simp, by simp, by simp⟩
  | cons e rest ih =>
    intro L H hkeys hptrs hfresh hlocal hresp
    obtain ⟨k0, t0, q0⟩ := e
    simp only [List.map_cons, List.nodup_cons] at hkeys hptrs
    obtain ⟨hk0, hkeys'⟩ := hkeys
    obtain ⟨hq0, hptrs'⟩ := hptrs
    have hq0v := hresp (k0, t0, q0) (List.mem_cons_self _ _)
    cases hqo : GoMap.load H q0 with
    | none => rw [hqo] at hq0v; cases hq0v
    | some o0 =>
      obtain ⟨L1, H1, hstep, hL1, hH1q, hH1⟩ :=
        refreshOutput_step (fun _ => k0) L H ⟨0, 0⟩ t0 q0 o0 hqo
          (fun p hp => hlocal k0 t0 p hp)
      have hrest_q : ∀ x ∈ rest, x.2.2 ≠ q0 := by
        intro x hx heq
        exact hq0 (List.mem_map.mpr ⟨x, hx, heq⟩)
      have hrest_k : ∀ x ∈ rest, ¬ (x.1 = k0 ∧ x.2.1 = t0) := by
        intro x hx heq
        apply hk0
        refine List.mem_map.mpr ⟨x, hx, ?_⟩
        rw [heq.1, heq.2]
      have hH1some : ∀ j, (GoMap.load H j).isSome = true →
          (GoMap.load H1 j).isSome = true := by
        intro j hj
        by_cases e : j = q0
        · rw [e, hH1q]; rfl
        · rw [hH1 j e]; exact hj
      obtain ⟨L', H', hfold, hent, hother, hheap⟩ := ih L1 H1 hkeys' hptrs'
        (by
          intro x hx k t
          rw [hL1]
          by_cases hc : k = k0 ∧ t = t0
          · rw [if_pos hc]
            intro heq
            exact hrest_q x hx (Option.some.inj heq).symm
          · rw [if_neg hc]
            exact hfresh x (List.mem_cons_of_mem _ hx) k t)
        (by
          intro k t p hp
          rw [hL1] at hp
          by_cases hc : k = k0 ∧ t = t0
          · rw [if_pos hc] at hp
            cases hp
            rw [hH1q]; rfl
          · rw [if_neg hc] at hp
            exact hH1some p (hlocal k t p hp))
        (by
          intro x hx
          exact hH1some _ (hresp x (List.mem_cons_of_mem _ hx)))
      refine ⟨L', H', ?_, ?_, ?_, ?_⟩
      · rw [List.foldl_cons]
        show List.foldl _ ((some (L, H)).bind _) rest = _
        rw [show (some (L, H)).bind
          (fun s => refreshOutput (fun _ => k0) s ⟨0, 0⟩ t0 q0)
            = refreshOutput (fun _ => k0) (L, H) ⟨0, 0⟩ t0 q0 from rfl, hstep]
        exact hfold
      · intro x hx
        rcases List.mem_cons.mp hx with hx | hx
        · subst hx
          refine ⟨?_, o0, hqo, ?_⟩
          · show GoMap.load2 L' k0 t0 = some q0
            rw [hother k0 t0 hrest_k, hL1, if_pos ⟨rfl, rfl⟩]
          · show GoMap.load H' q0 = _
            rw [hheap q0 hrest_q, hH1q]
        · obtain ⟨h1, o, ho, h2⟩ := hent x hx
          have hne : x.2.2 ≠ q0 := hrest_q x hx
          have hkne : ¬ (x.1 = k0 ∧ x.2.1 = t0) := hrest_k x hx
          have ho' : GoMap.load H x.2.2 = some o := by rw [← hH1 _ hne]; exact ho
          refine ⟨h1, o, ho', ?_⟩
          rw [h2, hL1, if_neg hkne]
          cases hl : GoMap.load2 L x.1 x.2.1 with
          | none => rfl
          | some p =>
            have hpq : p ≠ q0 := by
              intro heq
              exact hfresh (k0, t0, q0) (List.mem_cons_self _ _) x.1 x.2.1 (by rw [hl, heq])
            show some (mergeSpent o (GoMap.load H1 p)) = some (mergeSpent o (GoMap.load H p))
            rw [hH1 p hpq]
      · intro k t hno
        rw [hother k t (fun x hx => hno x (List.mem_cons_of_mem _ hx)), hL1, if_neg]
        intro hc
        exact hno (k0, t0, q0) (List.mem_cons_self _ _) ⟨hc.1.symm, hc.2.symm⟩
      · intro j hno
        rw [hheap j (fun x hx => hno x (List.mem_cons_of_mem _ hx))]
        exact hH1 j (fun heq => hno (k0, t0, q0) (List.mem_cons_self _ _) heq.symm)

end Pointers

end Wallet

theorem GoMap.mem_of_load {K V : Type} [DecidableEq K] (m : GoMap K V) (k : K) (v : V)
    (h : GoMap.load m k = some v) : (k, v) ∈ m := by
  unfold GoMap.load at h
  cases hf : m.find? (fun e => decide (e.1 = k)) with
  | none => rw [hf] at h; cases h
  | some e =>
    rw [hf] at h
    have h1 : e.2 = v := Option.some.inj h
    have h2 : e.1 = k := by simpa using List.find?_some hf
    have h3 := List.mem_of_find?_eq_some hf
    rw [← h1, ← h2]
    exact h3

namespace Wallet

namespace Pointers

theorem load2_mem_storedPointers (L : GoMap String (GoMap TransactionID OutputPtr))
    (k : String) (t : TransactionID) (p : OutputPtr) (h : GoMap.load2 L k t = some p) :
    p ∈ storedPointers L := by
  unfold GoMap.load2 at h
  cases h1 : GoMap.load L k with
  | none => rw [h1] at h; cases h
  | some inner =>
    rw [h1] at h
    have h2 : GoMap.load inner t = some p := h
    unfold storedPointers
    rw [List.mem_flatMap]
    exact ⟨(k, inner), GoMap.mem_of_load L k inner h1,
      List.mem_map.mpr ⟨(t, p), GoMap.mem_of_load inner t p h2, rfl⟩⟩

/-- C16, as stated, fails. The manager holds a spent output under transaction 7
of `addrA` and an unspent one under transaction 9. The connector answers with
one new `*Output`, unspent, under both transactions: after the `Refresh` the
entry of transaction 9 is that output marked spent, in either iteration order,
where the claim has it unspent. And a response with two different objects for two
addresses of the same Base58 form leaves the second one marked spent because
the first one was. -/
theorem refresh_aliased_counterexample :
    Example.manager.outputAt (Example.base58 Example.addrA) 9 = some Example.unspent ∧
    Example.unspent.InclusionState.Spent = false ∧
    (Refresh Example.base58 Example.aliasingFresh Example.manager [true]).bind
        (fun r => r.2.outputAt (Example.base58 Example.addrA) 9)
      = some Example.unspent.markSpent ∧
    (Refresh Example.base58 Example.aliasingFreshRev Example.manager [true]).bind
        (fun r => r.2.outputAt (Example.base58 Example.addrA) 9)
      = some Example.unspent.markSpent ∧
    (Refresh Example.base58 Example.aliasingFresh Example.manager [true]).bind
        (fun r => r.2.outputAt (Example.base58 Example.addrA) 9)
      ≠ some { Example.unspent with InclusionState :=
          { Example.unspent.InclusionState with
            Spent := Example.unspent.InclusionState.Spent ||
              (match Example.manager.outputAt (Example.base58 Example.addrA) 9 with
                | some e => e.InclusionState.Spent
                | none => false) } } ∧
    Example.emptyManager.outputAt (Example.base58 Example.addrA1) 7 = none ∧
    (Refresh Example.base58 Example.colliding Example.emptyManager [true]).bind
        (fun r => r.2.outputAt (Example.base58 Example.addrA1) 7)
      = some Example.unspent.markSpent :=
  ⟨by decide, by decide, by decide, by decide, by decide, by decide, by decide⟩

/-- C16, amended: let the connector call of `Refresh` succeed with a response in
which no two entries share the Base58 form of the address and the transaction
ID, and whose `*Output` values are non-nil, pairwise different objects, none of
them stored by the manager before; let the pointers the manager stores be
non-nil and their objects be left as they are by the connector. Then `Refresh`
returns no error and does not panic; for every `(addr, txID, o)` of the response
the local entry at `(addr.Base58(), txID)` is the server's object, holding `o`
with `Spent` set to `o.Spent` or, when a local entry existed before, to its
`Spent` flag if that was true; every local entry at a place the response does
not mention is unchanged; and every place that held an entry still holds one. -/
theorem refresh_merges (base58 : Address → String)
    (connector : List Address → Heap → Except String (Response × Heap))
    (m : UnspentOutputManager) (args : List Bool) (r : Response) (heap1 : Heap)
    (hok : connector (addressesToRefresh m args) m.heap = Except.ok (r, heap1))
    (hdistinct : ((Response.entries base58 r).map (fun x => (x.1, x.2.1))).Nodup)
    (hobjects : ((Response.entries base58 r).map (fun x => x.2.2)).Nodup)
    (hfresh : ∀ x ∈ Response.entries base58 r, x.2.2 ∉ storedPointers m.unspentOutputs)
    (hnonnil : ∀ x ∈ Response.entries base58 r, (GoMap.load heap1 x.2.2).isSome = true)
    (hkept : ∀ p ∈ storedPointers m.unspentOutputs,
      (GoMap.load m.heap p).isSome = true ∧ GoMap.load heap1 p = GoMap.load m.heap p) :
    ∃ m', Refresh base58 connector m args = some (none, m') ∧
      (∀ addr outs txID q, (addr, outs) ∈ r → (txID, q) ∈ outs →
        GoMap.load2 m'.unspentOutputs (base58 addr) txID = some q ∧
        ∃ o, GoMap.load heap1 q = some o ∧
          m'.outputAt (base58 addr) txID
            = some { o with InclusionState := { o.InclusionState with
                Spent := o.InclusionState.Spent ||
                  (match m.outputAt (base58 addr) txID with
                    | some e => e.InclusionState.Spent
                    | none => false) } }) ∧
      (∀ k t, (∀ addr outs q, (addr, outs) ∈ r → (t, q) ∈ outs → base58 addr ≠ k) →
        GoMap.load2 m'.unspentOutputs k t = GoMap.load2 m.unspentOutputs k t ∧
        m'.outputAt k t = m.outputAt k t) ∧
      (∀ k t, (m.outputAt k t).isSome = true → (m'.outputAt k t).isSome = true) ∧
      m'.addressManager = m.addressManager := by
  have hlocal : ∀ k t p, GoMap.load2 m.unspentOutputs k t = some p →
      (GoMap.load heap1 p).isSome = true := by
    intro k t p hp
    obtain ⟨h1, h2⟩ := hkept p (load2_mem_storedPointers _ k t p hp)
    rw [h2]; exact h1
  have hbefore : ∀ k t, (GoMap.load2 m.unspentOutputs k t).bind (GoMap.load heap1)
      = m.outputAt k t := by
    intro k t
    unfold UnspentOutputManager.outputAt
    cases hl : GoMap.load2 m.unspentOutputs k t with
    | none => rfl
    | some p =>
      show GoMap.load heap1 p = GoMap.load m.heap p
      exact (hkept p (load2_mem_storedPointers _ k t p hl)).2
  obtain ⟨L', H', hfold, hent, hother, hheap⟩ :=
    entriesPtr_loop (Response.entries base58 r) m.unspentOutputs heap1 hdistinct hobjects
      (by
        intro x hx k t heq
        exact hfresh x hx (load2_mem_storedPointers _ k t _ heq))
      hlocal hnonnil
  have hres : Refresh base58 connector m args
      = some (none, { m with
          connectorCalls := m.connectorCalls ++ [addressesToRefresh m args]
          unspentOutputs := L'
          heap := H' }) := by
    unfold Refresh
    simp only
    rw [hok]
    simp only
    rw [refreshPtr_loop_entries, hfold]
    rfl
  have hentry : ∀ k t q, (k, t, q) ∈ Response.entries base58 r →
      GoMap.load2 L' k t = some q ∧
      ∃ o, GoMap.load heap1 q = some o ∧
        (GoMap.load2 L' k t).bind (GoMap.load H')
          = some { o with InclusionState := { o.InclusionState with
              Spent := o.InclusionState.Spent ||
                (match m.outputAt k t with
                  | some e => e.InclusionState.Spent
                  | none => false) } } := by
    intro k t q hx
    obtain ⟨h1, o, ho, h2⟩ := hent (k, t, q) hx
    refine ⟨h1, o, ho, ?_⟩
    have h1' : GoMap.load2 L' k t = some q := h1
    rw [h1']
    show GoMap.load H' q = _
    have h2' : GoMap.load H' q
        = some (mergeSpent o ((GoMap.load2 m.unspentOutputs k t).bind (GoMap.load heap1))) :=
      h2
    rw [h2', hbefore, mergeSpent_eq]
  have hrest : ∀ k t, (∀ q, (k, t, q) ∉ Response.entries base58 r) →
      GoMap.load2 L' k t = GoMap.load2 m.unspentOutputs k t ∧
      (GoMap.load2 L' k t).bind (GoMap.load H') = m.outputAt k t := by
    intro k t hno
    have hl : GoMap.load2 L' k t = GoMap.load2 m.unspentOutputs k t := by
      apply hother
      intro x hx hc
      apply hno x.2.2
      rw [← hc.1, ← hc.2]
      exact hx
    refine ⟨hl, ?_⟩
    rw [hl, ← hbefore]
    cases hp : GoMap.load2 m.unspentOutputs k t with
    | none => rfl
    | some p =>
      show GoMap.load H' p = GoMap.load heap1 p
      apply hheap
      intro x hx heq
      apply hfresh x hx
      rw [heq]
      exact load2_mem_storedPointers _ k t p hp
  refine ⟨_, hres, ?_, ?_, ?_, rfl⟩
  · intro addr outs txID q hr hq
    exact hentry (base58 addr) txID q
      ((memPtr_entries base58 r _ _ _).mpr ⟨addr, outs, hr, hq, rfl⟩)
  · intro k t hno
    apply hrest
    intro q hmem
    obtain ⟨addr, outs, hr, hq, hk⟩ := (memPtr_entries base58 r _ _ _).mp hmem
    exact hno addr outs q hr hq hk
  · intro k t hsome
    by_cases hex : ∃ q, (k, t, q) ∈ Response.entries base58 r
    · obtain ⟨q, hq⟩ := hex
      obtain ⟨_, o, _, h2⟩ := hentry k t q hq
      show ((GoMap.load2 L' k t).bind (GoMap.load H')).isSome = true
      rw [h2]
      rfl
    · have hno : ∀ q, (k, t, q) ∉ Response.entries base58 r :=
        fun q hq => hex ⟨q, hq⟩
      show ((GoMap.load2 L' k t).bind (GoMap.load H')).isSome = true
      rw [(hrest k t hno).2]
      exact hsome

theorem refresh_merges_witness :
    ∃ m', Refresh Example.base58 Example.fresh Example.manager [true] = some (none, m') ∧
      m'.outputAt "x" 7 = some Example.unspent.markSpent ∧
      m'.outputAt "x" 9 = some Example.unspent ∧
      GoMap.load2 m'.unspentOutputs "x" 7 = some 3 :=
  match refresh_merges Example.base58 Example.fresh Example.manager [true]
      [(Example.addrA, [(7, 3), (9, 4)])]
      (GoMap.store (GoMap.store Example.manager.heap 3 Example.unspent) 4 Example.unspent)
      rfl (by decide) (by decide) (by decide) (by decide) (by decide) with
  | ⟨m', h1, h2, _⟩ =>
    ⟨m', h1,
      (match h2 Example.addrA [(7, 3), (9, 4)] 7 3 (by decide) (by decide) with
        | ⟨_, o, ho, h3⟩ => by
          have e : o = Example.unspent := by
            have h4 : GoMap.load (GoMap.store (GoMap.store Example.manager.heap 3
              Example.unspent) 4 Example.unspent) 3 = some Example.unspent := by decide
            rw [h4] at ho
            exact (Option.some.inj ho).symm
          subst e
          exact h3),
      (match h2 Example.addrA [(7, 3), (9, 4)] 9 4 (by decide) (by decide) with
        | ⟨_, o, ho, h3⟩ => by
          have e : o = Example.unspent := by
            have h4 : GoMap.load (GoMap.store (GoMap.store Example.manager.heap 3
              Example.unspent) 4 Example.unspent) 4 = some Example.unspent := by decide
            rw [h4] at ho
            exact (Option.some.inj ho).symm
          subst e
          exact h3),
      (h2 Example.addrA [(7, 3), (9, 4)] 7 3 (by decide) (by decide)).1⟩

end Pointers

end Wallet

end Goshimmer
